import Mathlib

/-
Verification of the File Manager (td/telegram/files/FileManager.h).

The repository ships only the header: class declarations, field layouts and
two inline function bodies (FileView::get_type and FileView::is_encrypted).
Those two functions are translated directly from the source.  Every other
operation (registry, merge engine, scheduler, worker adapter, persistent
identifiers) is modelled from the specification, as noted in the doc
comments of the corresponding definitions.

Machine integers (int64, int8, int32) are modelled as Nat/Int: the file
manager uses them as counters, sizes and priorities, never relying on
overflow.  FileId and QueryId are indices, modelled as Nat (0 = none for
query ids, matching the header's `= 0` defaults).
-/

namespace Td

/-- File types, following FileType from the sources (FileType::Temp and
FileType::Encrypted appear in FileManager.h; the rest of the enum lives in
files/FileLocation.h which is not in the repository snapshot). -/
inductive FileType where
  | Thumbnail
  | ProfilePhoto
  | Photo
  | VoiceNote
  | Video
  | Document
  | Encrypted
  | Temp
  | Sticker
  | Audio
  | Animation
deriving DecidableEq, Repr

/-- Numeric code of a file type, used as the trailing type-check byte of a
persistent identifier. -/
def fileTypeCode : FileType → Nat
  | .Thumbnail => 0
  | .ProfilePhoto => 1
  | .Photo => 2
  | .VoiceNote => 3
  | .Video => 4
  | .Document => 5
  | .Encrypted => 6
  | .Temp => 7
  | .Sticker => 8
  | .Audio => 9
  | .Animation => 10

/-- Decoding of a file-type code. -/
def fileTypeOfCode : Nat → Option FileType
  | 0 => some .Thumbnail
  | 1 => some .ProfilePhoto
  | 2 => some .Photo
  | 3 => some .VoiceNote
  | 4 => some .Video
  | 5 => some .Document
  | 6 => some .Encrypted
  | 7 => some .Temp
  | 8 => some .Sticker
  | 9 => some .Audio
  | 10 => some .Animation
  | _ => none

/-- Source of a remote file location (FileManager.h line 33). -/
inductive FileLocationSource where
  | None
  | FromUser
  | FromDb
  | FromServer
deriving DecidableEq, Repr

/-- Modelled from the spec: `Local Full = \x7bpath, size, mtime, type\x7d`
(FileLocation.h is not in the snapshot). -/
structure FullLocalFileLocation where
  file_type_ : FileType
  path_ : String
  mtime_nsec_ : Nat
deriving DecidableEq, Repr

/-- Modelled from the spec: `Remote Full = \x7bserver-ref, type, size\x7d`. -/
structure FullRemoteFileLocation where
  file_type_ : FileType
  server_ref_ : Nat
  size_ : Nat
deriving DecidableEq, Repr

/-- Modelled from the spec: `Generate Full = \x7boriginal-path, conversion, type\x7d`. -/
structure FullGenerateFileLocation where
  file_type_ : FileType
  original_path_ : String
  conversion_ : String
deriving DecidableEq, Repr

/-- Modelled from the spec: `Local Partial = \x7bpath, ready, size, parts\x7d`. -/
structure PartialLocalFileLocation where
  file_type_ : FileType
  path_ : String
  part_size_ : Nat
  ready_part_count_ : Nat
deriving DecidableEq, Repr

/-- Modelled from the spec: the partial tier of a remote location. -/
structure PartialRemoteFileLocation where
  file_id_ : Nat
  part_count_ : Nat
  part_size_ : Nat
  ready_part_count_ : Nat
deriving DecidableEq, Repr

/-- Modelled from the spec: `Local = Empty | Partial | Full`. -/
inductive LocalFileLocation where
  | empty
  | part (p : PartialLocalFileLocation)
  | full (l : FullLocalFileLocation)
deriving DecidableEq, Repr

/-- Modelled from the spec: `Remote = Empty | Partial | Full`. -/
inductive RemoteFileLocation where
  | empty
  | part (p : PartialRemoteFileLocation)
  | full (r : FullRemoteFileLocation)
deriving DecidableEq, Repr

/-- Modelled from the spec: `Generate = Empty | Full`. -/
inductive GenerateFileLocation where
  | empty
  | full (g : FullGenerateFileLocation)
deriving DecidableEq, Repr

/-- The Full payload of a local location, if the location is at the Full tier. -/
def LocalFileLocation.fullOf : LocalFileLocation → Option FullLocalFileLocation
  | .full l => some l
  | _ => none

/-- The Full payload of a remote location, if the location is at the Full tier. -/
def RemoteFileLocation.fullOf : RemoteFileLocation → Option FullRemoteFileLocation
  | .full r => some r
  | _ => none

/-- The Full payload of a generate location, if the location is at the Full tier. -/
def GenerateFileLocation.fullOf : GenerateFileLocation → Option FullGenerateFileLocation
  | .full g => some g
  | _ => none

/-- File encryption keys are byte strings; the empty list is "no key"
(FileEncryptionKey::empty in the sources). -/
def FileEncryptionKey : Type := List Nat
deriving instance DecidableEq, Repr for FileEncryptionKey

/-- FileNode (FileManager.h lines 35-123): the authoritative record for one
logical file.  Field names and defaults follow the header; FileId-valued
fields hold Nat handles, `upload_pause_` uses none for the header's invalid
FileId(). -/
structure FileNode where
  local_ : LocalFileLocation := .empty
  upload_id_ : Nat := 0
  local_ready_size_ : Nat := 0
  remote_ : RemoteFileLocation := .empty
  download_id_ : Nat := 0
  remote_ready_size_ : Nat := 0
  generate_ : GenerateFileLocation := .empty
  generate_id_ : Nat := 0
  size_ : Nat := 0
  expected_size_ : Nat := 0
  name_ : String := ""
  url_ : String := ""
  owner_dialog_id_ : Int := 0
  encryption_key_ : FileEncryptionKey := []
  pmc_id_ : Nat := 0
  file_ids_ : List Nat := []
  main_file_id_ : Nat := 0
  upload_pause_ : Option Nat := none
  upload_priority_ : Nat := 0
  download_priority_ : Nat := 0
  generate_priority_ : Nat := 0
  generate_download_priority_ : Nat := 0
  generate_upload_priority_ : Nat := 0
  main_file_id_priority_ : Int := 0
  remote_source_ : FileLocationSource := .FromUser
  get_by_hash_ : Bool := false
  is_download_started_ : Bool := false
  generate_was_update_ : Bool := false
  pmc_changed_flag_ : Bool := false
  info_changed_flag_ : Bool := false
deriving DecidableEq, Repr

/-- FileView (FileManager.h lines 125-186): a read-only view of one node. -/
structure FileView where
  node_ : FileNode
deriving DecidableEq, Repr

/-- Modelled from the spec: a local location is "has" when it is Full
(FileView::has_local_location's body is in the missing FileManager.cpp). -/
def FileView.has_local_location (v : FileView) : Bool :=
  (v.node_.local_.fullOf).isSome

/-- Modelled from the spec: a remote location is "has" when it is Full. -/
def FileView.has_remote_location (v : FileView) : Bool :=
  (v.node_.remote_.fullOf).isSome

/-- Modelled from the spec: a generate location is "has" when it is Full. -/
def FileView.has_generate_location (v : FileView) : Bool :=
  (v.node_.generate_.fullOf).isSome

/-- FileView::get_type (FileManager.h lines 165-176), translated from the
source: local's type if a Full local is present, else remote's, else
generate's, else FileType::Temp. -/
def FileView.get_type (v : FileView) : FileType :=
  match v.node_.local_ with
  | .full l => l.file_type_
  | _ =>
    match v.node_.remote_ with
    | .full r => r.file_type_
    | _ =>
      match v.node_.generate_ with
      | .full g => g.file_type_
      | _ => FileType.Temp

/-- FileView::is_encrypted (FileManager.h lines 177-179), translated from
the source. -/
def FileView.is_encrypted (v : FileView) : Bool :=
  v.get_type = FileType.Encrypted

/-- FileView::encryption_key (FileManager.h lines 180-182). -/
def FileView.encryption_key (v : FileView) : FileEncryptionKey :=
  v.node_.encryption_key_

/-- FileView::local_location payload used by get_type when present. -/
def FileView.local_location (v : FileView) : Option FullLocalFileLocation :=
  v.node_.local_.fullOf

/-- FileView::remote_location payload used by get_type when present. -/
def FileView.remote_location (v : FileView) : Option FullRemoteFileLocation :=
  v.node_.remote_.fullOf

/-- FileView::generate_location payload used by get_type when present. -/
def FileView.generate_location (v : FileView) : Option FullGenerateFileLocation :=
  v.node_.generate_.fullOf

/-- Variable-length encoding of a natural number into bytes, used by the
modelled serialization of remote locations. -/
def encodeNat (n : Nat) : List Nat :=
  if h : n < 128 then [n] else (n % 128 + 128) :: encodeNat (n / 128)
termination_by n
decreasing_by exact Nat.div_lt_self (by omega) (by omega)

/-- Decoding of `encodeNat`, returning the number and the remaining bytes. -/
def decodeNat : List Nat → Option (Nat × List Nat)
  | [] => none
  | b :: rest =>
    if b < 128 then some (b, rest)
    else
      match decodeNat rest with
      | none => none
      | some (n, rest') => some (b - 128 + n * 128, rest')

theorem decodeNat_encodeNat (n : Nat) (rest : List Nat) :
    decodeNat (encodeNat n ++ rest) = some (n, rest) := by
  induction n using Nat.strong_induction_on with
  | _ n ih =>
    unfold encodeNat
    split
    · simp [decodeNat]
      omega
    · rename_i h
      have hd : n / 128 < n := Nat.div_lt_self (by omega) (by omega)
      simp only [List.cons_append, decodeNat, List.append_eq]
      rw [if_neg (by omega), ih (n / 128) hd]
      show some (n % 128 + 128 - 128 + n / 128 * 128, rest) = some (n, rest)
      have : n % 128 + 128 - 128 + n / 128 * 128 = n := by omega
      rw [this]

theorem encodeNat_lt_256 (n : Nat) : ∀ b ∈ encodeNat n, b < 256 := by
  induction n using Nat.strong_induction_on with
  | _ n ih =>
    unfold encodeNat
    split
    · intro b hb
      simp at hb
      omega
    · rename_i h
      intro b hb
      simp at hb
      rcases hb with hb | hb
      · omega
      · exact ih (n / 128) (Nat.div_lt_self (by omega) (by omega)) b hb

/-- The URL-safe base64 alphabet (RFC 4648 section 5): no `+`, `/` or `=`. -/
def base64Chars : List Char :=
  ['A','B','C','D','E','F','G','H','I','J','K','L','M','N','O','P','Q','R','S','T','U','V','W','X',
   'Y','Z','a','b','c','d','e','f','g','h','i','j','k','l','m','n','o','p','q','r','s','t','u','v',
   'w','x','y','z','0','1','2','3','4','5','6','7','8','9','-','_']

/-- The character encoding one 6-bit group. -/
def charOfSextet (n : Nat) : Char :=
  base64Chars.getD n 'A'

/-- The 6-bit group encoded by a character, if it is in the alphabet. -/
def sextetOfChar (c : Char) : Option Nat :=
  base64Chars.findIdx? (fun x => x == c)

theorem sextetOfChar_charOfSextet : ∀ n < 64, sextetOfChar (charOfSextet n) = some n := by
  decide

theorem charOfSextet_mem (n : Nat) : charOfSextet n ∈ base64Chars := by
  unfold charOfSextet
  rcases Nat.lt_or_ge n base64Chars.length with h | h
  · rw [List.getD_eq_getElem _ _ h]
    exact List.getElem_mem h
  · rw [List.getD_eq_default _ _ h]
    decide

/-- URL-safe base64 encoding without padding: each group of three bytes
becomes four alphabet characters; a trailing group of one or two bytes
becomes two or three characters and no `=` padding is emitted. -/
def base64Encode : List Nat → List Char
  | [] => []
  | [b0] => [charOfSextet (b0 / 4), charOfSextet (b0 % 4 * 16)]
  | [b0, b1] =>
    [charOfSextet (b0 / 4), charOfSextet (b0 % 4 * 16 + b1 / 16), charOfSextet (b1 % 16 * 4)]
  | b0 :: b1 :: b2 :: rest =>
    charOfSextet (b0 / 4) :: charOfSextet (b0 % 4 * 16 + b1 / 16) ::
      charOfSextet (b1 % 16 * 4 + b2 / 64) :: charOfSextet (b2 % 64) :: base64Encode rest

/-- Strict decoding of URL-safe unpadded base64; rejects characters outside
the alphabet, impossible lengths and non-canonical trailing bits. -/
def base64Decode : List Char → Option (List Nat)
  | [] => some []
  | [_] => none
  | [c0, c1] => do
    let s0 ← sextetOfChar c0
    let s1 ← sextetOfChar c1
    if s1 % 16 = 0 then some [s0 * 4 + s1 / 16] else none
  | [c0, c1, c2] => do
    let s0 ← sextetOfChar c0
    let s1 ← sextetOfChar c1
    let s2 ← sextetOfChar c2
    if s2 % 4 = 0 then some [s0 * 4 + s1 / 16, s1 % 16 * 16 + s2 / 4] else none
  | c0 :: c1 :: c2 :: c3 :: rest => do
    let s0 ← sextetOfChar c0
    let s1 ← sextetOfChar c1
    let s2 ← sextetOfChar c2
    let s3 ← sextetOfChar c3
    let tl ← base64Decode rest
    some ((s0 * 4 + s1 / 16) :: (s1 % 16 * 16 + s2 / 4) :: (s2 % 4 * 64 + s3) :: tl)

theorem base64Decode_encode :
    ∀ bs : List Nat, (∀ b ∈ bs, b < 256) → base64Decode (base64Encode bs) = some bs
  | [], _ => rfl
  | [b0], h => by
    have hb0 : b0 < 256 := h b0 (by simp)
    have e0 := sextetOfChar_charOfSextet (b0 / 4) (by omega)
    have e1 := sextetOfChar_charOfSextet (b0 % 4 * 16) (by omega)
    simp only [base64Encode, base64Decode, e0, e1, Option.bind_eq_bind, Option.some_bind]
    rw [if_pos (by omega)]
    have : b0 / 4 * 4 + b0 % 4 * 16 / 16 = b0 := by omega
    rw [this]
  | [b0, b1], h => by
    have hb0 : b0 < 256 := h b0 (by simp)
    have hb1 : b1 < 256 := h b1 (by simp)
    have e0 := sextetOfChar_charOfSextet (b0 / 4) (by omega)
    have e1 := sextetOfChar_charOfSextet (b0 % 4 * 16 + b1 / 16) (by omega)
    have e2 := sextetOfChar_charOfSextet (b1 % 16 * 4) (by omega)
    simp only [base64Encode, base64Decode, e0, e1, e2, Option.bind_eq_bind, Option.some_bind]
    rw [if_pos (by omega)]
    have h0 : b0 / 4 * 4 + (b0 % 4 * 16 + b1 / 16) / 16 = b0 := by omega
    have h1 : (b0 % 4 * 16 + b1 / 16) % 16 * 16 + b1 % 16 * 4 / 4 = b1 := by omega
    rw [h0, h1]
  | b0 :: b1 :: b2 :: rest, h => by
    have hb0 : b0 < 256 := h b0 (by simp)
    have hb1 : b1 < 256 := h b1 (by simp)
    have hb2 : b2 < 256 := h b2 (by simp)
    have ih := base64Decode_encode rest (fun b hb => h b (by simp [hb]))
    have e0 := sextetOfChar_charOfSextet (b0 / 4) (by omega)
    have e1 := sextetOfChar_charOfSextet (b0 % 4 * 16 + b1 / 16) (by omega)
    have e2 := sextetOfChar_charOfSextet (b1 % 16 * 4 + b2 / 64) (by omega)
    have e3 := sextetOfChar_charOfSextet (b2 % 64) (by omega)
    simp only [base64Encode, base64Decode, e0, e1, e2, e3, ih, Option.bind_eq_bind,
      Option.some_bind]
    have h0 : b0 / 4 * 4 + (b0 % 4 * 16 + b1 / 16) / 16 = b0 := by omega
    have h1 : (b0 % 4 * 16 + b1 / 16) % 16 * 16 + (b1 % 16 * 4 + b2 / 64) / 4 = b1 := by omega
    have h2 : (b1 % 16 * 4 + b2 / 64) % 4 * 64 + b2 % 64 = b2 := by omega
    rw [h0, h1, h2]

theorem base64Encode_mem_alphabet :
    ∀ (bs : List Nat), ∀ c ∈ base64Encode bs, c ∈ base64Chars
  | [] => by simp [base64Encode]
  | [b0] => by
    intro c hc
    simp only [base64Encode, List.mem_cons, List.mem_singleton, List.not_mem_nil, or_false] at hc
    rcases hc with rfl | rfl <;> exact charOfSextet_mem _
  | [b0, b1] => by
    intro c hc
    simp only [base64Encode, List.mem_cons, List.not_mem_nil, or_false] at hc
    rcases hc with rfl | rfl | rfl <;> exact charOfSextet_mem _
  | b0 :: b1 :: b2 :: rest => by
    intro c hc
    simp only [base64Encode, List.mem_cons] at hc
    rcases hc with rfl | rfl | rfl | rfl | hc
    · exact charOfSextet_mem _
    · exact charOfSextet_mem _
    · exact charOfSextet_mem _
    · exact charOfSextet_mem _
    · exact base64Encode_mem_alphabet rest c hc

theorem fileTypeOfCode_code (t : FileType) : fileTypeOfCode (fileTypeCode t) = some t := by
  cases t <;> rfl

theorem fileTypeCode_lt (t : FileType) : fileTypeCode t < 256 := by
  cases t <;> simp [fileTypeCode]

/-- Modelled from the spec: the byte serialization of a full remote
reference used as the body of a persistent identifier (the concrete wire
format lives in the missing implementation files). -/
def serializeRemote (r : FullRemoteFileLocation) : List Nat :=
  encodeNat (fileTypeCode r.file_type_) ++ encodeNat r.server_ref_ ++ encodeNat r.size_

/-- Decoding of `serializeRemote`, returning the location and the bytes
that follow it. -/
def deserializeRemote (bs : List Nat) : Option (FullRemoteFileLocation × List Nat) :=
  match decodeNat bs with
  | none => none
  | some (code, bs₁) =>
    match fileTypeOfCode code with
    | none => none
    | some t =>
      match decodeNat bs₁ with
      | none => none
      | some (ref, bs₂) =>
        match decodeNat bs₂ with
        | none => none
        | some (sz, bs₃) => some (⟨t, ref, sz⟩, bs₃)

theorem deserializeRemote_serialize (r : FullRemoteFileLocation) (rest : List Nat) :
    deserializeRemote (serializeRemote r ++ rest) = some (r, rest) := by
  unfold serializeRemote deserializeRemote
  simp only [List.append_assoc, decodeNat_encodeNat, fileTypeOfCode_code]

theorem serializeRemote_lt_256 (r : FullRemoteFileLocation) :
    ∀ b ∈ serializeRemote r, b < 256 := by
  intro b hb
  unfold serializeRemote at hb
  rw [List.mem_append, List.mem_append] at hb
  rcases hb with (hb | hb) | hb <;> exact encodeNat_lt_256 _ b hb

/-- PERSISTENT_ID_VERSION (FileManager.h line 273). -/
def PERSISTENT_ID_VERSION : Nat := 2

/-- Modelled from the spec: FileManager::get_persistent_id — leading byte
is the version, the body encodes the full remote reference, a trailing
check byte carries the file type, and the whole is URL-safe base64 without
padding (the body lives in the missing FileManager.cpp). -/
def get_persistent_id (location : FullRemoteFileLocation) : List Char :=
  base64Encode (PERSISTENT_ID_VERSION :: serializeRemote location ++
    [fileTypeCode location.file_type_])

/-- Per-handle state (FileManager::FileIdInfo, FileManager.h lines 308-320).
Callbacks are modelled as opaque tokens. -/
structure FileIdInfo where
  node_id_ : Nat
  send_updates_flag_ : Bool := false
  pin_flag_ : Bool := false
  download_priority_ : Nat := 0
  upload_priority_ : Nat := 0
  upload_order_ : Nat := 0
  download_callback_ : Option Nat := none
  upload_callback_ : Option Nat := none
deriving DecidableEq, Repr

/-- Query::Type (FileManager.h line 306). -/
inductive QueryType where
  | UploadByHash
  | Upload
  | Download
  | SetContent
  | Generate
deriving DecidableEq, Repr

/-- FileManager::Query (FileManager.h lines 303-307): an in-flight worker
query, recording the owning handle and the query type. -/
structure Query where
  file_id_ : Nat
  type_ : QueryType
deriving DecidableEq, Repr

/-- The three worker kinds of the spec: download, upload, generate. -/
inductive WorkerKind where
  | download
  | upload
  | generate
deriving DecidableEq, Repr

/-- The worker kind a query type belongs to: UploadByHash, Upload and
SetContent all occupy the node's upload slot. -/
def kindOfQueryType : QueryType → WorkerKind
  | .Download => .download
  | .Generate => .generate
  | _ => .upload

/-- The node's in-flight query id for a worker kind (upload_id_ /
download_id_ / generate_id_, FileManager.h lines 81, 85, 89); 0 = none. -/
def FileNode.queryIdOfKind (n : FileNode) : WorkerKind → Nat
  | .download => n.download_id_
  | .upload => n.upload_id_
  | .generate => n.generate_id_

/-- Update of the node's per-kind query id. -/
def FileNode.setQueryIdOfKind (n : FileNode) : WorkerKind → Nat → FileNode
  | .download, q => { n with download_id_ := q }
  | .upload, q => { n with upload_id_ := q }
  | .generate, q => { n with generate_id_ := q }

/-- A filesystem oracle entry: the observed size and mtime of a path. -/
structure FsStat where
  size_ : Nat
  mtime_nsec_ : Nat
deriving DecidableEq, Repr

/-- Error kinds of the spec (section 7). -/
inductive FmError where
  | LocalFileGone
  | RemoteUnavailable
  | GenerateFailed
  | MergeConflict
  | InvalidPersistentId
  | NotFoundHandle
deriving DecidableEq, Repr

/-- The FileManager state (FileManager.h lines 322-340): the handle table,
the node table, the three full-location indices, the in-flight query
container and the bad-paths negative cache.  Handle ids (FileId) index
file_id_info_; node ids index file_nodes_; a destroyed node is none. -/
structure FileManager where
  file_id_info_ : List FileIdInfo := []
  file_nodes_ : List (Option FileNode) := []
  remote_location_to_file_id_ : List (FullRemoteFileLocation × Nat) := []
  local_location_to_file_id_ : List (FullLocalFileLocation × Nat) := []
  generate_location_to_file_id_ : List (FullGenerateFileLocation × Nat) := []
  queries_container_ : List (Nat × Query) := []
  next_query_id_ : Nat := 1
  bad_paths_ : List String := []
deriving Repr

/-- Lookup in an association list (the std::map / Container lookups of the
header). -/
def indexGet {K V : Type} [DecidableEq K] : List (K × V) → K → Option V
  | [], _ => none
  | (k, v) :: rest, key => if k = key then some v else indexGet rest key

/-- Removal of every binding of a key from an association list. -/
def indexErase {K V : Type} [DecidableEq K] (idx : List (K × V)) (key : K) : List (K × V) :=
  idx.filter (fun p => decide (p.1 ≠ key))

/-- Removal keyed by an optional key. -/
def indexEraseOpt {K V : Type} [DecidableEq K] (idx : List (K × V)) : Option K → List (K × V)
  | none => idx
  | some k => indexErase idx k

namespace FileManager

/-- The node id a handle points at, if the handle exists. -/
def nodeIdOf (s : FileManager) (fid : Nat) : Option Nat :=
  (s.file_id_info_[fid]?).map FileIdInfo.node_id_

/-- The live node stored at a node id. -/
def nodeAt (s : FileManager) (i : Nat) : Option FileNode :=
  (s.file_nodes_[i]?).bind id

/-- FileManager::get_file_node: resolve a handle to its node id and node. -/
def get_file_node (s : FileManager) (fid : Nat) : Option (Nat × FileNode) :=
  match s.nodeIdOf fid with
  | none => none
  | some i =>
    match s.nodeAt i with
    | none => none
    | some n => some (i, n)

/-- Replace the node stored at a node id. -/
def setNodeAt (s : FileManager) (i : Nat) (n : FileNode) : FileManager :=
  { s with file_nodes_ := s.file_nodes_.set i (some n) }

/-- Apply a function to the node stored at a node id, if live. -/
def modifyNodeAt (s : FileManager) (i : Nat) (f : FileNode → FileNode) : FileManager :=
  match s.nodeAt i with
  | none => s
  | some n => s.setNodeAt i (f n)

/-- Apply a function to the handle info stored at a handle id. -/
def modifyInfoAt (s : FileManager) (fid : Nat) (f : FileIdInfo → FileIdInfo) : FileManager :=
  match s.file_id_info_[fid]? with
  | none => s
  | some info => { s with file_id_info_ := s.file_id_info_.set fid (f info) }

/-- Remove an in-flight query from the container. -/
def removeQuery (s : FileManager) (qid : Nat) : FileManager :=
  { s with queries_container_ := indexErase s.queries_container_ qid }

/-- Modelled from the spec: issue a fresh handle aliased to an existing
node (the registry's "returns a fresh handle aliased to the existing
node"). -/
def addAlias (s : FileManager) (i : Nat) : Nat × FileManager :=
  let fid := s.file_id_info_.length
  let s₁ : FileManager := { s with file_id_info_ := s.file_id_info_ ++ [{ node_id_ := i }] }
  (fid, s₁.modifyNodeAt i (fun n => { n with file_ids_ := n.file_ids_ ++ [fid] }))

/-- Modelled from the spec: construct a new node and its first handle,
which becomes the node's main handle (FileManager::create_file_id /
next_file_node_id). -/
def createNode (s : FileManager) (nbase : FileNode) : Nat × FileManager :=
  let nid := s.file_nodes_.length
  let fid := s.file_id_info_.length
  let n : FileNode := { nbase with main_file_id_ := fid, file_ids_ := [fid] }
  (fid, { s with
    file_id_info_ := s.file_id_info_ ++ [{ node_id_ := nid }],
    file_nodes_ := s.file_nodes_ ++ [some n] })

/-- Modelled from the spec: effective download priority = max of the
per-handle download priorities and the generate-demanded download
priority (spec section 4.4). -/
def effectiveDownloadPriority (s : FileManager) (n : FileNode) : Nat :=
  n.file_ids_.foldl
    (fun acc fid =>
      match s.file_id_info_[fid]? with
      | some info => max acc info.download_priority_
      | none => acc)
    n.generate_download_priority_

/-- Modelled from the spec: effective upload priority = max across the
node's handles (spec section 4.4). -/
def effectiveUploadPriority (s : FileManager) (n : FileNode) : Nat :=
  n.file_ids_.foldl
    (fun acc fid =>
      match s.file_id_info_[fid]? with
      | some info => max acc info.upload_priority_
      | none => acc)
    0

/-- Modelled from the spec: allocate a worker query for a node, record it
in the container keyed by a fresh QueryId and store the id in the node's
per-kind slot (the worker-adapter half of run_download / run_upload /
run_generate). -/
def startQuery (s : FileManager) (i : Nat) (ty : QueryType) : FileManager :=
  match s.nodeAt i with
  | none => s
  | some n =>
    let qid := s.next_query_id_
    let s₁ : FileManager := { s with
      queries_container_ := (qid, { file_id_ := n.main_file_id_, type_ := ty }) :: s.queries_container_,
      next_query_id_ := qid + 1 }
    s₁.setNodeAt i (n.setQueryIdOfKind (kindOfQueryType ty) qid)

/-- Modelled from the spec: cancel the node's in-flight query of a kind,
if any (FileManager::cancel_download / cancel_upload / cancel_generate). -/
def cancelQuery (s : FileManager) (i : Nat) (k : WorkerKind) : FileManager :=
  match s.nodeAt i with
  | none => s
  | some n =>
    if n.queryIdOfKind k = 0 then s
    else (s.removeQuery (n.queryIdOfKind k)).setNodeAt i (n.setQueryIdOfKind k 0)

/-- Modelled from the spec: FileManager::run_download — a download worker
runs when the effective priority is positive, local is not Full and a
remote Full exists; otherwise any running download is cancelled (spec
section 4.4). -/
def run_download (s : FileManager) (i : Nat) : FileManager :=
  match s.nodeAt i with
  | none => s
  | some n =>
    if 0 < effectiveDownloadPriority s n ∧ n.local_.fullOf = none ∧ (n.remote_.fullOf).isSome then
      if n.download_id_ ≠ 0 then s else startQuery s i .Download
    else cancelQuery s i .download

/-- Modelled from the spec: FileManager::run_upload — an upload worker
runs when the effective priority is positive, local is Full and remote is
not Full; an upload_pause handle suppresses upload starts (spec section
4.4). -/
def run_upload (s : FileManager) (i : Nat) : FileManager :=
  match s.nodeAt i with
  | none => s
  | some n =>
    if n.upload_pause_.isSome then s
    else if 0 < effectiveUploadPriority s n ∧ (n.local_.fullOf).isSome ∧ n.remote_.fullOf = none then
      if n.upload_id_ ≠ 0 then s
      else startQuery s i (if n.get_by_hash_ then .UploadByHash else .Upload)
    else cancelQuery s i .upload

/-- Modelled from the spec: FileManager::run_generate — generation runs
when the generate priority is positive, the generate location is Full and
local is not Full (spec section 4.4). -/
def run_generate (s : FileManager) (i : Nat) : FileManager :=
  match s.nodeAt i with
  | none => s
  | some n =>
    if 0 < max n.generate_download_priority_ n.generate_upload_priority_ ∧
        (n.generate_.fullOf).isSome ∧ n.local_.fullOf = none then
      if n.generate_id_ ≠ 0 then s else startQuery s i .Generate
    else cancelQuery s i .generate

/-- Insert a full-remote index entry. -/
def insertRemoteIndex (s : FileManager) (r : FullRemoteFileLocation) (fid : Nat) : FileManager :=
  { s with remote_location_to_file_id_ := (r, fid) :: s.remote_location_to_file_id_ }

/-- Insert a full-local index entry. -/
def insertLocalIndex (s : FileManager) (l : FullLocalFileLocation) (fid : Nat) : FileManager :=
  { s with local_location_to_file_id_ := (l, fid) :: s.local_location_to_file_id_ }

/-- Insert a full-generate index entry. -/
def insertGenerateIndex (s : FileManager) (g : FullGenerateFileLocation) (fid : Nat) : FileManager :=
  { s with generate_location_to_file_id_ := (g, fid) :: s.generate_location_to_file_id_ }

/-- Modelled from the spec: construct a new node with a fresh handle as
its main handle, and insert the index entries for each of its Full
locations (the miss branch of the registry, spec section 4.1). -/
def createNodeIndexed (s : FileManager) (nbase : FileNode) : Nat × FileManager :=
  let nid := s.file_nodes_.length
  let fid := s.file_id_info_.length
  let n : FileNode := { nbase with main_file_id_ := fid, file_ids_ := [fid] }
  (fid, { s with
    file_id_info_ := s.file_id_info_ ++ [{ node_id_ := nid }],
    file_nodes_ := s.file_nodes_ ++ [some n],
    local_location_to_file_id_ :=
      match nbase.local_.fullOf with
      | some l => (l, fid) :: s.local_location_to_file_id_
      | none => s.local_location_to_file_id_,
    remote_location_to_file_id_ :=
      match nbase.remote_.fullOf with
      | some r => (r, fid) :: s.remote_location_to_file_id_
      | none => s.remote_location_to_file_id_,
    generate_location_to_file_id_ :=
      match nbase.generate_.fullOf with
      | some g => (g, fid) :: s.generate_location_to_file_id_
      | none => s.generate_location_to_file_id_ })

/-- Modelled from the spec: FileManager::register_remote — look the full
remote reference up in the index; on a hit return a fresh handle aliased
to the existing node, applying newly supplied fields; on a miss construct
a new node and insert the index entry (spec section 4.1). -/
def register_remote (s : FileManager) (location : FullRemoteFileLocation) (owner_dialog_id : Int)
    (size expected_size : Nat) (name : String) : Nat × FileManager :=
  match indexGet s.remote_location_to_file_id_ location with
  | some fid0 =>
    match s.nodeIdOf fid0 with
    | none => (fid0, s)
    | some i =>
      let pr := s.addAlias i
      (pr.1, pr.2.modifyNodeAt i (fun n =>
        { n with
          size_ := if n.size_ = 0 then size else n.size_,
          expected_size_ := max n.expected_size_ expected_size,
          name_ := if n.name_ = "" then name else n.name_ }))
  | none =>
    s.createNodeIndexed
      { remote_ := .full location, size_ := size, expected_size_ := expected_size,
        name_ := name, owner_dialog_id_ := owner_dialog_id }

/-- Modelled from the spec: the local-file existence check — presence and
mtime of the path are verified against the filesystem oracle, returning
the observed size (spec section 4.1, "Local-file existence check"). -/
def checkLocalLocation (fs : String → Option FsStat) (location : FullLocalFileLocation) :
    Option Nat :=
  match fs location.path_ with
  | none => none
  | some st =>
    if location.mtime_nsec_ = 0 ∨ st.mtime_nsec_ = location.mtime_nsec_ then some st.size_
    else none

/-- Modelled from the spec: the registration core of register_local, after
any existence check has passed: index hit gives an alias, miss creates an
indexed node (spec section 4.1). -/
def register_local_impl (s : FileManager) (location : FullLocalFileLocation)
    (owner_dialog_id : Int) (size : Nat) (get_by_hash : Bool) : Nat × FileManager :=
  match indexGet s.local_location_to_file_id_ location with
  | some fid0 =>
    match s.nodeIdOf fid0 with
    | none => (fid0, s)
    | some i =>
      let pr := s.addAlias i
      (pr.1, pr.2.modifyNodeAt i (fun n =>
        { n with
          size_ := if n.size_ = 0 then size else n.size_,
          get_by_hash_ := n.get_by_hash_ || get_by_hash }))
  | none =>
    s.createNodeIndexed
      { local_ := .full location, size_ := size, owner_dialog_id_ := owner_dialog_id,
        get_by_hash_ := get_by_hash }

/-- Modelled from the spec: FileManager::register_local — with force the
existence check is bypassed and the path recorded as-is; otherwise known
bad paths short-circuit to LocalFileGone without touching the filesystem,
and a failed check fails with LocalFileGone and records the path in
bad_paths_ (spec sections 4.1 and 8). -/
def register_local (s : FileManager) (fs : String → Option FsStat)
    (location : FullLocalFileLocation) (owner_dialog_id : Int) (size : Nat)
    (get_by_hash force : Bool) : Except FmError Nat × FileManager :=
  if force then
    let pr := register_local_impl s location owner_dialog_id size get_by_hash
    (.ok pr.1, pr.2)
  else if location.path_ ∈ s.bad_paths_ then (.error .LocalFileGone, s)
  else
    match checkLocalLocation fs location with
    | none => (.error .LocalFileGone, { s with bad_paths_ := location.path_ :: s.bad_paths_ })
    | some observed_size =>
      let pr := register_local_impl s location owner_dialog_id observed_size get_by_hash
      (.ok pr.1, pr.2)

/-- Modelled from the spec: FileManager::register_generate (spec section
4.1). -/
def register_generate (s : FileManager) (file_type : FileType)
    (original_path conversion : String) (owner_dialog_id : Int) (expected_size : Nat) :
    Except FmError Nat × FileManager :=
  let location : FullGenerateFileLocation :=
    { file_type_ := file_type, original_path_ := original_path, conversion_ := conversion }
  match indexGet s.generate_location_to_file_id_ location with
  | some fid0 =>
    match s.nodeIdOf fid0 with
    | none => (.ok fid0, s)
    | some i =>
      let pr := s.addAlias i
      (.ok pr.1, pr.2.modifyNodeAt i (fun n =>
        { n with expected_size_ := max n.expected_size_ expected_size }))
  | none =>
    let pr := s.createNodeIndexed
      { generate_ := .full location, expected_size_ := expected_size,
        owner_dialog_id_ := owner_dialog_id }
    (.ok pr.1, pr.2)

/-- Modelled from the spec: FileManager::register_empty — a fresh node
with all three locations Empty (spec section 4.1). -/
def register_empty (s : FileManager) (file_type : FileType) : Nat × FileManager :=
  let _ := file_type
  s.createNodeIndexed {}

/-- Modelled from the spec: FileManager::dup_file_id — a fresh handle
aliased to the same node. -/
def dup_file_id (s : FileManager) (fid : Nat) : Nat × FileManager :=
  match s.get_file_node fid with
  | none => (fid, s)
  | some (i, _) => s.addAlias i

/-- Modelled from the spec: make a Full local location the node's local
location and repoint the local index at it; the node's previous Full
local entry is dropped, and a conflicting holder of the same path is
evicted — its entry removed and its local demoted to Empty (spec section
4.2's local conflict policy, applied by worker completions). -/
def setFullLocalIndexed (s : FileManager) (i : Nat) (l : FullLocalFileLocation) : FileManager :=
  match s.nodeAt i with
  | none => s
  | some n =>
    let s₂ : FileManager :=
      match indexGet (indexEraseOpt s.local_location_to_file_id_ n.local_.fullOf) l with
      | none => s
      | some fid0 =>
        match s.nodeIdOf fid0 with
        | none => s
        | some j => s.modifyNodeAt j (fun m => { m with local_ := .empty, local_ready_size_ := 0 })
    ({ s₂ with local_location_to_file_id_ :=
        (l, n.main_file_id_) ::
          indexErase (indexEraseOpt s.local_location_to_file_id_ n.local_.fullOf) l } :
      FileManager).setNodeAt i
      { n with local_ := .full l, info_changed_flag_ := true, pmc_changed_flag_ := true }

/-- Modelled from the spec: make a Full remote location the node's remote
location and repoint the remote index at it, evicting a conflicting
holder (the server-sourced reference supersedes; spec section 4.2). -/
def setFullRemoteIndexed (s : FileManager) (i : Nat) (r : FullRemoteFileLocation) : FileManager :=
  match s.nodeAt i with
  | none => s
  | some n =>
    let s₂ : FileManager :=
      match indexGet (indexEraseOpt s.remote_location_to_file_id_ n.remote_.fullOf) r with
      | none => s
      | some fid0 =>
        match s.nodeIdOf fid0 with
        | none => s
        | some j => s.modifyNodeAt j (fun m => { m with remote_ := .empty, remote_ready_size_ := 0 })
    ({ s₂ with remote_location_to_file_id_ :=
        (r, n.main_file_id_) ::
          indexErase (indexEraseOpt s.remote_location_to_file_id_ n.remote_.fullOf) r } :
      FileManager).setNodeAt i
      { n with
          remote_ := .full r
          remote_source_ := .FromServer
          info_changed_flag_ := true
          pmc_changed_flag_ := true }

/-- Modelled from the spec: demote the node's local location to Empty,
dropping its index entry when it was Full (deletion and LocalFileGone
handling, spec sections 4.7 and 7). -/
def demoteLocal (s : FileManager) (i : Nat) : FileManager :=
  match s.nodeAt i with
  | none => s
  | some n =>
    let s₁ : FileManager :=
      { s with local_location_to_file_id_ := indexEraseOpt s.local_location_to_file_id_ n.local_.fullOf }
    s₁.setNodeAt i
      { n with local_ := .empty, local_ready_size_ := 0, pmc_changed_flag_ := true }

/-- Modelled from the spec: FileManager::download — record the per-handle
download priority and callback, then re-run the download scheduler (spec
sections 4.4 and 6). -/
def download (s : FileManager) (fid : Nat) (callback : Option Nat) (new_priority : Nat) :
    FileManager :=
  match s.get_file_node fid with
  | none => s
  | some (i, _) =>
    let s₁ := s.modifyInfoAt fid (fun info =>
      { info with download_priority_ := new_priority, download_callback_ := callback })
    run_download s₁ i

/-- Modelled from the spec: FileManager::upload — record the per-handle
upload priority, order and callback; an explicit upload request with the
handle that paused the upload clears upload_pause_ (FileManager.h lines
214-216); then re-run the upload scheduler. -/
def upload (s : FileManager) (fid : Nat) (callback : Option Nat)
    (new_priority upload_order : Nat) : FileManager :=
  match s.get_file_node fid with
  | none => s
  | some (i, n) =>
    let s₁ := if n.upload_pause_ = some fid then
        s.setNodeAt i { n with upload_pause_ := none }
      else s
    let s₂ := s₁.modifyInfoAt fid (fun info =>
      { info with
          upload_priority_ := new_priority
          upload_order_ := upload_order
          upload_callback_ := callback })
    run_upload s₂ i

/-- Modelled from the spec: FileManager::resume_upload — clear the pause,
record the per-handle upload state and re-run the upload scheduler (spec
sections 4.4 and 6; bad parts are forwarded to the worker and do not
change manager state). -/
def resume_upload (s : FileManager) (fid : Nat) (bad_parts : List Nat) (callback : Option Nat)
    (new_priority upload_order : Nat) : FileManager :=
  let _ := bad_parts
  match s.get_file_node fid with
  | none => s
  | some (i, n) =>
    let s₁ := s.setNodeAt i { n with upload_pause_ := none }
    let s₂ := s₁.modifyInfoAt fid (fun info =>
      { info with
          upload_priority_ := new_priority
          upload_order_ := upload_order
          upload_callback_ := callback })
    run_upload s₂ i

/-- Modelled from the spec: FileManager::delete_partial_remote_location —
when remote is Full, return false and do nothing; otherwise drop the
partial remote, cancel the upload, clear the pause and re-run the upload
scheduler (spec sections 4.4, 6 and 8). -/
def delete_partial_remote_location (s : FileManager) (fid : Nat) : Bool × FileManager :=
  match s.get_file_node fid with
  | none => (false, s)
  | some (i, n) =>
    match n.remote_ with
    | .full _ => (false, s)
    | _ =>
      let s₁ := cancelQuery s i .upload
      let s₂ := s₁.modifyNodeAt i (fun m =>
        { m with
            remote_ := .empty
            remote_ready_size_ := 0
            upload_pause_ := none
            pmc_changed_flag_ := true })
      (true, run_upload s₂ i)

/-- Modelled from the spec: FileManager::set_encryption_key — setting a
key on a node that already holds a different nonempty key returns false
and changes nothing (spec sections 6 and 8). -/
def set_encryption_key (s : FileManager) (fid : Nat) (key : FileEncryptionKey) :
    Bool × FileManager :=
  match s.get_file_node fid with
  | none => (false, s)
  | some (i, n) =>
    if n.encryption_key_ = ([] : List Nat) then
      (true, s.setNodeAt i { n with encryption_key_ := key, pmc_changed_flag_ := true })
    else if n.encryption_key_ = key then (true, s)
    else (false, s)

/-- Modelled from the spec: FileManager::delete_file — demote local to
Empty, clear the download-started flag, mark pmc-dirty and reschedule
(spec section 4.7; the filesystem unlink is external). -/
def delete_file (s : FileManager) (fid : Nat) : FileManager :=
  match s.get_file_node fid with
  | none => s
  | some (i, _) =>
    let s₁ := demoteLocal s i
    let s₂ := s₁.modifyNodeAt i (fun n =>
      { n with is_download_started_ := false, pmc_changed_flag_ := true })
    run_download s₂ i

/-- Winner selection for merge, modelled from the spec: higher main-handle
priority wins; ties break by Full remote, then Full local, then Full
generate, then lower internal node id (spec section 4.2 step 1). -/
def pickFirstWins (i : Nat) (ni : FileNode) (j : Nat) (nj : FileNode) : Bool :=
  if ni.main_file_id_priority_ ≠ nj.main_file_id_priority_ then
    nj.main_file_id_priority_ < ni.main_file_id_priority_
  else if (ni.remote_.fullOf).isSome ≠ (nj.remote_.fullOf).isSome then (ni.remote_.fullOf).isSome
  else if (ni.local_.fullOf).isSome ≠ (nj.local_.fullOf).isSome then (ni.local_.fullOf).isSome
  else if (ni.generate_.fullOf).isSome ≠ (nj.generate_.fullOf).isSome then
    (ni.generate_.fullOf).isSome
  else i < j

/-- Result of merging the two local-location slots: the merged slot, plus
the winner-side and loser-side index entries to evict. -/
structure LocalMergeResult where
  result : LocalFileLocation
  erase_winner : Option FullLocalFileLocation
  erase_loser : Option FullLocalFileLocation

/-- Modelled from the spec: local slot merge — the higher tier wins; on a
Full/Full conflict the path that still exists wins and the other's index
entry is evicted (spec section 4.2 step 2). -/
def mergeLocalLocation (fs : String → Option FsStat) (wl ll : LocalFileLocation) :
    LocalMergeResult :=
  match wl, ll with
  | .full wf, .full lf =>
    if wf = lf then { result := wl, erase_winner := none, erase_loser := none }
    else if (fs wf.path_).isSome then { result := wl, erase_winner := none, erase_loser := some lf }
    else { result := .full lf, erase_winner := some wf, erase_loser := none }
  | .full _, _ => { result := wl, erase_winner := none, erase_loser := none }
  | _, .full lf => { result := .full lf, erase_winner := none, erase_loser := none }
  | .empty, l2 => { result := l2, erase_winner := none, erase_loser := none }
  | w2, _ => { result := w2, erase_winner := none, erase_loser := none }

/-- Result of merging the two remote-location slots. -/
structure RemoteMergeResult where
  result : RemoteFileLocation
  source : FileLocationSource
  erase_winner : Option FullRemoteFileLocation
  erase_loser : Option FullRemoteFileLocation

/-- Modelled from the spec: remote slot merge — the higher tier wins; on a
Full/Full conflict the server-sourced entry supersedes one from the user
or persistence (spec section 4.2 step 2). -/
def mergeRemoteLocation (wr lr : RemoteFileLocation) (wsrc lsrc : FileLocationSource) :
    RemoteMergeResult :=
  match wr, lr with
  | .full wf, .full lf =>
    if wf = lf then { result := wr, source := wsrc, erase_winner := none, erase_loser := none }
    else if lsrc = .FromServer ∧ wsrc ≠ .FromServer then
      { result := .full lf, source := lsrc, erase_winner := some wf, erase_loser := none }
    else { result := wr, source := wsrc, erase_winner := none, erase_loser := some lf }
  | .full _, _ => { result := wr, source := wsrc, erase_winner := none, erase_loser := none }
  | _, .full lf => { result := .full lf, source := lsrc, erase_winner := none, erase_loser := none }
  | .empty, l2 => { result := l2, source := lsrc, erase_winner := none, erase_loser := none }
  | w2, _ => { result := w2, source := wsrc, erase_winner := none, erase_loser := none }

/-- Result of merging the two generate-location slots. -/
structure GenerateMergeResult where
  result : GenerateFileLocation
  erase_loser : Option FullGenerateFileLocation

/-- Modelled from the spec: generate slot merge — on a Full/Full conflict
the existing (winner) entry is kept (spec section 4.2 step 2). -/
def mergeGenerateLocation (wg lg : GenerateFileLocation) : GenerateMergeResult :=
  match wg, lg with
  | .full wf, .full lf =>
    if wf = lf then { result := wg, erase_loser := none }
    else { result := wg, erase_loser := some lf }
  | .full _, _ => { result := wg, erase_loser := none }
  | .empty, .full lf => { result := .full lf, erase_loser := none }
  | .empty, .empty => { result := .empty, erase_loser := none }

/-- Worker reconciliation for one kind during merge: the winner's query is
kept when both nodes have one in flight and the loser's is cancelled;
otherwise the surviving query is re-parented to the winner (spec section
4.2 step 4). -/
def mergeQueryIds (wq lq : Nat) : Nat × List Nat :=
  if lq = 0 then (wq, [])
  else if wq ≠ 0 then (wq, [lq])
  else (lq, [])

/-- The merged winner node produced by FileManager::merge, modelled from
the spec: the winner absorbs the loser's locations, metadata, handles and
per-kind workers (spec section 4.2 steps 2–4). -/
def mergeNode (fs : String → Option FsStat) (wn ln : FileNode) : FileNode :=
  let lm := mergeLocalLocation fs wn.local_ ln.local_
  let rm := mergeRemoteLocation wn.remote_ ln.remote_ wn.remote_source_ ln.remote_source_
  let gm := mergeGenerateLocation wn.generate_ ln.generate_
  let sizeConflict := wn.size_ ≠ 0 ∧ ln.size_ ≠ 0 ∧ wn.size_ ≠ ln.size_
  { wn with
    local_ := lm.result,
    remote_ := rm.result,
    remote_source_ := rm.source,
    generate_ := gm.result,
    size_ := if sizeConflict then 0 else if wn.size_ = 0 then ln.size_ else wn.size_,
    expected_size_ := max wn.expected_size_ ln.expected_size_,
    name_ := if wn.name_ = "" then ln.name_ else wn.name_,
    url_ := if wn.url_ = "" then ln.url_ else wn.url_,
    encryption_key_ :=
      if wn.encryption_key_ = ([] : List Nat) then ln.encryption_key_
      else wn.encryption_key_,
    file_ids_ := wn.file_ids_ ++ ln.file_ids_,
    download_id_ := (mergeQueryIds wn.download_id_ ln.download_id_).1,
    upload_id_ := (mergeQueryIds wn.upload_id_ ln.upload_id_).1,
    generate_id_ := (mergeQueryIds wn.generate_id_ ln.generate_id_).1,
    upload_pause_ := if rm.result ≠ wn.remote_ then none else wn.upload_pause_,
    local_ready_size_ := max wn.local_ready_size_ ln.local_ready_size_,
    get_by_hash_ := wn.get_by_hash_ || ln.get_by_hash_,
    pmc_changed_flag_ := true,
    info_changed_flag_ := true }

/-- The loser-side query ids a merge cancels (spec section 4.2 step 4). -/
def mergeCancelled (wn ln : FileNode) : List Nat :=
  (mergeQueryIds wn.download_id_ ln.download_id_).2 ++
    (mergeQueryIds wn.upload_id_ ln.upload_id_).2 ++
    (mergeQueryIds wn.generate_id_ ln.generate_id_).2

/-- The state surgery of FileManager::merge once winner node id w and loser
node id l are chosen: store the merged node, destroy the loser, redirect
the loser's handles to the winner, drop cancelled queries and evicted
index entries (spec section 4.2 steps 2–5). -/
def mergeInto (s : FileManager) (w l : Nat) (wn ln : FileNode)
    (fs : String → Option FsStat) : FileManager :=
  let lm := mergeLocalLocation fs wn.local_ ln.local_
  let rm := mergeRemoteLocation wn.remote_ ln.remote_ wn.remote_source_ ln.remote_source_
  let gm := mergeGenerateLocation wn.generate_ ln.generate_
  { s with
    file_nodes_ := (s.file_nodes_.set w (some (mergeNode fs wn ln))).set l none,
    file_id_info_ := s.file_id_info_.map (fun info =>
      if info.node_id_ = l then { info with node_id_ := w } else info),
    queries_container_ :=
      s.queries_container_.filter (fun p => decide (p.1 ∉ mergeCancelled wn ln)),
    local_location_to_file_id_ :=
      indexEraseOpt (indexEraseOpt s.local_location_to_file_id_ lm.erase_winner)
        lm.erase_loser,
    remote_location_to_file_id_ :=
      indexEraseOpt (indexEraseOpt s.remote_location_to_file_id_ rm.erase_winner)
        rm.erase_loser,
    generate_location_to_file_id_ :=
      indexEraseOpt s.generate_location_to_file_id_ gm.erase_loser }

/-- Modelled from the spec: FileManager::merge — same node is a no-op;
conflicting nonempty encryption keys fail with MergeConflict destroying
nothing; otherwise the winner absorbs the loser's locations, handles and
workers, the loser's handles are redirected and the loser node is
destroyed (spec section 4.2). -/
def merge (s : FileManager) (x_file_id y_file_id : Nat) (no_sync : Bool)
    (fs : String → Option FsStat) : Except FmError Nat × FileManager :=
  let _ := no_sync
  match s.get_file_node x_file_id, s.get_file_node y_file_id with
  | none, _ => (.error .NotFoundHandle, s)
  | some _, none => (.error .NotFoundHandle, s)
  | some (xi, xn), some (yi, yn) =>
    if xi = yi then (.ok xn.main_file_id_, s)
    else if xn.encryption_key_ ≠ ([] : List Nat) ∧ yn.encryption_key_ ≠ ([] : List Nat) ∧
        xn.encryption_key_ ≠ yn.encryption_key_ then
      (.error .MergeConflict, s)
    else if pickFirstWins xi xn yi yn then
      (.ok (mergeNode fs xn yn).main_file_id_, mergeInto s xi yi xn yn fs)
    else
      (.ok (mergeNode fs yn xn).main_file_id_, mergeInto s yi xi yn xn fs)

/-- FileManager::finish_query (FileManager.h line 396), modelled from the
spec: remove the query from the container, returning it together with
whether it was still active. -/
def finish_query (s : FileManager) (query_id : Nat) : (Option Query × Bool) × FileManager :=
  match indexGet s.queries_container_ query_id with
  | none => ((none, false), s)
  | some q => ((some q, true), s.removeQuery query_id)

/-- Finish a query and clear the owning node's per-kind query id; returns
the query and the node id when the query was still active.  Callbacks for
cancelled queries are no-ops (spec section 5, Cancellation). -/
def finishQueryOnNode (s : FileManager) (query_id : Nat) : Option (Query × Nat) × FileManager :=
  match indexGet s.queries_container_ query_id with
  | none => (none, s)
  | some q =>
    let s₁ := s.removeQuery query_id
    match s₁.get_file_node q.file_id_ with
    | none => (none, s₁)
    | some (i, n) =>
      (some (q, i), s₁.setNodeAt i (n.setQueryIdOfKind (kindOfQueryType q.type_) 0))

/-- Modelled from the spec: on_start_download marks is_download_started_
(spec section 4.5). -/
def on_start_download (s : FileManager) (query_id : Nat) : FileManager :=
  match indexGet s.queries_container_ query_id with
  | none => s
  | some q =>
    match s.get_file_node q.file_id_ with
    | none => s
    | some (i, _) => s.modifyNodeAt i (fun n => { n with is_download_started_ := true })

/-- Modelled from the spec: on_partial_download updates the node's local
location to Partial and the ready-size counter (spec section 4.5); a Full
local is never demoted by a progress callback. -/
def on_partial_download (s : FileManager) (query_id : Nat)
    (partial_local : PartialLocalFileLocation) (ready_size : Nat) : FileManager :=
  match indexGet s.queries_container_ query_id with
  | none => s
  | some q =>
    match s.get_file_node q.file_id_ with
    | none => s
    | some (i, _) =>
      s.modifyNodeAt i (fun n =>
        match n.local_ with
        | .full _ => n
        | _ =>
          { n with
            local_ := .part partial_local
            local_ready_size_ := ready_size
            info_changed_flag_ := true })

/-- Modelled from the spec: on_partial_upload mirrors partial download on
the remote slot (spec section 4.5). -/
def on_partial_upload (s : FileManager) (query_id : Nat)
    (partial_remote : PartialRemoteFileLocation) (ready_size : Nat) : FileManager :=
  match indexGet s.queries_container_ query_id with
  | none => s
  | some q =>
    match s.get_file_node q.file_id_ with
    | none => s
    | some (i, _) =>
      s.modifyNodeAt i (fun n =>
        match n.remote_ with
        | .full _ => n
        | _ =>
          { n with
            remote_ := .part partial_remote
            remote_ready_size_ := ready_size
            info_changed_flag_ := true })

/-- Modelled from the spec: on_download_ok sets local Full, updates the
size, clears the download worker and re-runs the scheduler (spec section
4.5). -/
def on_download_ok (s : FileManager) (query_id : Nat) (location : FullLocalFileLocation)
    (size : Nat) : FileManager :=
  match finishQueryOnNode s query_id with
  | (none, s₁) => s₁
  | (some (_, i), s₁) =>
    let s₂ := setFullLocalIndexed s₁ i location
    s₂.modifyNodeAt i (fun n =>
      { n with size_ := size, local_ready_size_ := size, is_download_started_ := false })

/-- Modelled from the spec: on_upload_ok delivers the input file to the
subscribers and sets the upload_pause_ handle, suppressing further
uploads until resume (spec section 4.5; FileManager.h lines 214-217). -/
def on_upload_ok (s : FileManager) (query_id : Nat) (file_type : FileType)
    (partial_remote : PartialRemoteFileLocation) (size : Nat) : FileManager :=
  let _ := file_type
  match finishQueryOnNode s query_id with
  | (none, s₁) => s₁
  | (some (q, i), s₁) =>
    s₁.modifyNodeAt i (fun n =>
      { n with
        remote_ :=
          match n.remote_ with
          | .full f => .full f
          | _ => .part partial_remote
        size_ := if n.size_ = 0 then size else n.size_
        upload_pause_ := some q.file_id_ })

/-- Modelled from the spec: on_upload_full_ok sets remote Full with the
server-provided reference (spec section 4.5). -/
def on_upload_full_ok (s : FileManager) (query_id : Nat) (remote : FullRemoteFileLocation) :
    FileManager :=
  match finishQueryOnNode s query_id with
  | (none, s₁) => s₁
  | (some (_, i), s₁) => setFullRemoteIndexed s₁ i remote

/-- Clear the per-handle priorities of one kind on every handle of a node
(the terminal branch of on_error_impl, spec section 4.5). -/
def clearPriorities (s : FileManager) (i : Nat) (k : WorkerKind) : FileManager :=
  match s.nodeAt i with
  | none => s
  | some n =>
    n.file_ids_.foldl
      (fun acc fid =>
        acc.modifyInfoAt fid (fun info =>
          match k with
          | .download => { info with download_priority_ := 0 }
          | .upload => { info with upload_priority_ := 0 }
          | .generate => info))
      s

/-- Modelled from the spec: on_error routes through on_error_impl — a
vanished local file demotes local to Empty and clears the started flag;
other errors are terminal and clear the matching priorities on the
node's handles (spec sections 4.5 and 7). -/
def on_error (s : FileManager) (query_id : Nat) (status : FmError) : FileManager :=
  match finishQueryOnNode s query_id with
  | (none, s₁) => s₁
  | (some (q, i), s₁) =>
    if status = .LocalFileGone then
      let s₂ := demoteLocal s₁ i
      s₂.modifyNodeAt i (fun n => { n with is_download_started_ := false })
    else clearPriorities s₁ i (kindOfQueryType q.type_)

/-- Modelled from the spec: on_partial_generate feeds partial-local
updates back into the node as if from a download (spec sections 4.4 and
4.5). -/
def on_partial_generate (s : FileManager) (query_id : Nat)
    (partial_local : PartialLocalFileLocation) (expected_size : Nat) : FileManager :=
  match indexGet s.queries_container_ query_id with
  | none => s
  | some q =>
    match s.get_file_node q.file_id_ with
    | none => s
    | some (i, _) =>
      s.modifyNodeAt i (fun n =>
        match n.local_ with
        | .full _ => n
        | _ =>
          { n with
            local_ := .part partial_local
            expected_size_ := expected_size
            info_changed_flag_ := true })

/-- Modelled from the spec: on_generate_ok mirrors on_download_ok for a
finished generation (spec section 4.5). -/
def on_generate_ok (s : FileManager) (query_id : Nat) (location : FullLocalFileLocation) :
    FileManager :=
  match finishQueryOnNode s query_id with
  | (none, s₁) => s₁
  | (some (_, i), s₁) => setFullLocalIndexed s₁ i location

/-- Modelled from the spec: FileManager::to_persistent_id — encode the
node's Full remote reference into a versioned URL-safe token (spec
section 4.6). -/
def to_persistent_id (s : FileManager) (fid : Nat) : Except FmError (List Char) :=
  match s.get_file_node fid with
  | none => .error .NotFoundHandle
  | some (_, n) =>
    match n.remote_.fullOf with
    | none => .error .RemoteUnavailable
    | some r => .ok (get_persistent_id r)

/-- Modelled from the spec: FileManager::from_persistent_id — decode,
validate version and type, and call register_remote (spec section 4.6). -/
def from_persistent_id (s : FileManager) (persistent_id : List Char) (file_type : FileType) :
    Except FmError Nat × FileManager :=
  match base64Decode persistent_id with
  | none => (.error .InvalidPersistentId, s)
  | some [] => (.error .InvalidPersistentId, s)
  | some (v :: body) =>
    if v ≠ PERSISTENT_ID_VERSION then (.error .InvalidPersistentId, s)
    else
      match deserializeRemote body with
      | none => (.error .InvalidPersistentId, s)
      | some (remote, rest) =>
        if rest = [fileTypeCode remote.file_type_] ∧ remote.file_type_ = file_type then
          let pr := register_remote s remote 0 remote.size_ remote.size_ ""
          (.ok pr.1, pr.2)
        else (.error .InvalidPersistentId, s)

end FileManager

/-- The public operations and worker callbacks of the manager, as one step
alphabet: the registry entry points, merge, handle duplication, the
download/upload drivers, deletion, key setting, persistent-id decoding
and the worker callbacks of FileManager.h lines 242-271 and 382-394. -/
inductive Op where
  | registerEmpty (file_type : FileType)
  | registerLocal (fs : String → Option FsStat) (location : FullLocalFileLocation)
      (owner_dialog_id : Int) (size : Nat) (get_by_hash force : Bool)
  | registerRemote (location : FullRemoteFileLocation) (owner_dialog_id : Int)
      (size expected_size : Nat) (name : String)
  | registerGenerate (file_type : FileType) (original_path conversion : String)
      (owner_dialog_id : Int) (expected_size : Nat)
  | mergeOp (x_file_id y_file_id : Nat) (no_sync : Bool) (fs : String → Option FsStat)
  | dupFileId (fid : Nat)
  | downloadOp (fid : Nat) (callback : Option Nat) (new_priority : Nat)
  | uploadOp (fid : Nat) (callback : Option Nat) (new_priority upload_order : Nat)
  | resumeUploadOp (fid : Nat) (bad_parts : List Nat) (callback : Option Nat)
      (new_priority upload_order : Nat)
  | deletePartialRemoteLocationOp (fid : Nat)
  | setEncryptionKeyOp (fid : Nat) (key : FileEncryptionKey)
  | deleteFileOp (fid : Nat)
  | fromPersistentIdOp (persistent_id : List Char) (file_type : FileType)
  | onStartDownloadOp (query_id : Nat)
  | onPartialDownloadOp (query_id : Nat) (partial_local : PartialLocalFileLocation)
      (ready_size : Nat)
  | onPartialUploadOp (query_id : Nat) (partial_remote : PartialRemoteFileLocation)
      (ready_size : Nat)
  | onDownloadOkOp (query_id : Nat) (location : FullLocalFileLocation) (size : Nat)
  | onUploadOkOp (query_id : Nat) (file_type : FileType)
      (partial_remote : PartialRemoteFileLocation) (size : Nat)
  | onUploadFullOkOp (query_id : Nat) (remote : FullRemoteFileLocation)
  | onErrorOp (query_id : Nat) (status : FmError)
  | onPartialGenerateOp (query_id : Nat) (partial_local : PartialLocalFileLocation)
      (expected_size : Nat)
  | onGenerateOkOp (query_id : Nat) (location : FullLocalFileLocation)

/-- One step of the manager: apply a public operation or worker callback
to the state, discarding the returned value. -/
def applyOp (s : FileManager) : Op → FileManager
  | .registerEmpty t => (s.register_empty t).2
  | .registerLocal fs loc owner size gbh force =>
    (s.register_local fs loc owner size gbh force).2
  | .registerRemote loc owner size expected name =>
    (s.register_remote loc owner size expected name).2
  | .registerGenerate t orig conv owner expected =>
    (s.register_generate t orig conv owner expected).2
  | .mergeOp x y ns fs => (s.merge x y ns fs).2
  | .dupFileId fid => (s.dup_file_id fid).2
  | .downloadOp fid cb prio => s.download fid cb prio
  | .uploadOp fid cb prio ord => s.upload fid cb prio ord
  | .resumeUploadOp fid bad cb prio ord => s.resume_upload fid bad cb prio ord
  | .deletePartialRemoteLocationOp fid => (s.delete_partial_remote_location fid).2
  | .setEncryptionKeyOp fid key => (s.set_encryption_key fid key).2
  | .deleteFileOp fid => s.delete_file fid
  | .fromPersistentIdOp pid t => (s.from_persistent_id pid t).2
  | .onStartDownloadOp qid => s.on_start_download qid
  | .onPartialDownloadOp qid pl ready => s.on_partial_download qid pl ready
  | .onPartialUploadOp qid pr ready => s.on_partial_upload qid pr ready
  | .onDownloadOkOp qid l size => s.on_download_ok qid l size
  | .onUploadOkOp qid t pr size => s.on_upload_ok qid t pr size
  | .onUploadFullOkOp qid r => s.on_upload_full_ok qid r
  | .onErrorOp qid status => s.on_error qid status
  | .onPartialGenerateOp qid pl expected => s.on_partial_generate qid pl expected
  | .onGenerateOkOp qid l => s.on_generate_ok qid l

/-- Iterated application of operations. -/
def applyOps (s : FileManager) : List Op → FileManager
  | [] => s
  | op :: ops => applyOps (applyOp s op) ops

/-- The manager's state right after construction: no handles, no nodes,
empty indices, no queries, no bad paths. -/
def initState : FileManager := {}

/-- The proposition holding of the payload of an optional value when
present, and trivially of an absent one. -/
def optAll {α : Type} (o : Option α) (f : α → Prop) : Prop :=
  match o with
  | none => True
  | some a => f a

/-- The proposition holding of the payload of an optional value that must
be present. -/
def optIs {α : Type} (o : Option α) (f : α → Prop) : Prop :=
  match o with
  | none => False
  | some a => f a

instance {α : Type} (o : Option α) (f : α → Prop) [inst : ∀ a, Decidable (f a)] :
    Decidable (optAll o f) :=
  match o with
  | none => .isTrue trivial
  | some a => inst a

instance {α : Type} (o : Option α) (f : α → Prop) [inst : ∀ a, Decidable (f a)] :
    Decidable (optIs o f) :=
  match o with
  | none => .isFalse (fun h => h)
  | some a => inst a

@[simp] theorem optAll_none {α : Type} (f : α → Prop) : optAll none f = True := rfl

@[simp] theorem optAll_some {α : Type} (a : α) (f : α → Prop) : optAll (some a) f = f a := rfl

@[simp] theorem optIs_none {α : Type} (f : α → Prop) : optIs none f = False := rfl

@[simp] theorem optIs_some {α : Type} (a : α) (f : α → Prop) : optIs (some a) f = f a := rfl

instance : Fintype WorkerKind :=
  ⟨⟨{.download, .upload, .generate}, by decide⟩, fun k => by cases k <;> decide⟩

namespace FileManager

/-- Every live node's main handle resolves back to that node (spec
invariant 4). -/
abbrev MainOK (s : FileManager) : Prop :=
  ∀ i < s.file_nodes_.length,
    optAll (s.nodeAt i) (fun n => s.nodeIdOf n.main_file_id_ = some i)

/-- Query ids are allocated starting from 1. -/
abbrev NextOK (s : FileManager) : Prop :=
  1 ≤ s.next_query_id_

/-- Soundness of the local index: every entry resolves to a live node
whose local location is Full at exactly that key. -/
abbrev LocalIndexOK (s : FileManager) : Prop :=
  ∀ p ∈ s.local_location_to_file_id_,
    optIs (s.get_file_node p.2) (fun pr => pr.2.local_ = .full p.1)

/-- Soundness of the remote index. -/
abbrev RemoteIndexOK (s : FileManager) : Prop :=
  ∀ p ∈ s.remote_location_to_file_id_,
    optIs (s.get_file_node p.2) (fun pr => pr.2.remote_ = .full p.1)

/-- Soundness of the generate index. -/
abbrev GenerateIndexOK (s : FileManager) : Prop :=
  ∀ p ∈ s.generate_location_to_file_id_,
    optIs (s.get_file_node p.2) (fun pr => pr.2.generate_ = .full p.1)

/-- Completeness of the local index: every live node with a Full local
location is found by looking its location up, and the lookup leads back
to that very node (spec invariant 2). -/
abbrev LocalCompleteOK (s : FileManager) : Prop :=
  ∀ i < s.file_nodes_.length,
    optAll (s.nodeAt i) (fun n =>
      optAll n.local_.fullOf (fun l =>
        optIs (indexGet s.local_location_to_file_id_ l) (fun fid =>
          s.nodeIdOf fid = some i)))

/-- Completeness of the remote index. -/
abbrev RemoteCompleteOK (s : FileManager) : Prop :=
  ∀ i < s.file_nodes_.length,
    optAll (s.nodeAt i) (fun n =>
      optAll n.remote_.fullOf (fun r =>
        optIs (indexGet s.remote_location_to_file_id_ r) (fun fid =>
          s.nodeIdOf fid = some i)))

/-- Completeness of the generate index. -/
abbrev GenerateCompleteOK (s : FileManager) : Prop :=
  ∀ i < s.file_nodes_.length,
    optAll (s.nodeAt i) (fun n =>
      optAll n.generate_.fullOf (fun g =>
        optIs (indexGet s.generate_location_to_file_id_ g) (fun fid =>
          s.nodeIdOf fid = some i)))

/-- Soundness of the query container: every in-flight query has a nonzero
id below the allocation counter, resolves to a live node, and is the one
recorded in that node's per-kind query-id slot (spec invariant 3). -/
abbrev QueriesOK (s : FileManager) : Prop :=
  ∀ p ∈ s.queries_container_,
    p.1 ≠ 0 ∧ p.1 < s.next_query_id_ ∧
      optIs (s.get_file_node p.2.file_id_) (fun pr =>
        pr.2.queryIdOfKind (kindOfQueryType p.2.type_) = p.1)

/-- Completeness of the per-kind query-id slots: a nonzero slot names an
in-flight query of that kind that resolves back to that node. -/
abbrev NodeQueryOK (s : FileManager) : Prop :=
  ∀ i < s.file_nodes_.length,
    optAll (s.nodeAt i) (fun n =>
      ∀ k : WorkerKind,
        n.queryIdOfKind k = 0 ∨
          optIs (indexGet s.queries_container_ (n.queryIdOfKind k)) (fun q =>
            kindOfQueryType q.type_ = k ∧
              optIs (s.get_file_node q.file_id_) (fun pr => pr.1 = i)))

/-- The inductive invariant of the manager: handle/index/query coherence,
preserved by every public operation and worker callback. -/
structure Inv (s : FileManager) : Prop where
  main_ok : MainOK s
  next_ok : NextOK s
  local_index_ok : LocalIndexOK s
  remote_index_ok : RemoteIndexOK s
  generate_index_ok : GenerateIndexOK s
  local_complete_ok : LocalCompleteOK s
  remote_complete_ok : RemoteCompleteOK s
  generate_complete_ok : GenerateCompleteOK s
  queries_ok : QueriesOK s
  node_query_ok : NodeQueryOK s

end FileManager

theorem localFullOf_eq_some {loc : LocalFileLocation} {l : FullLocalFileLocation} :
    loc.fullOf = some l ↔ loc = .full l := by
  cases loc <;> simp [LocalFileLocation.fullOf]

theorem remoteFullOf_eq_some {loc : RemoteFileLocation}
    {r : FullRemoteFileLocation} : loc.fullOf = some r ↔ loc = .full r := by
  cases loc <;> simp [RemoteFileLocation.fullOf]

theorem generateFullOf_eq_some {loc : GenerateFileLocation}
    {g : FullGenerateFileLocation} : loc.fullOf = some g ↔ loc = .full g := by
  cases loc <;> simp [GenerateFileLocation.fullOf]

theorem indexGet_cons {K V : Type} [DecidableEq K] (k k' : K) (v : V) (idx : List (K × V)) :
    indexGet ((k, v) :: idx) k' = if k = k' then some v else indexGet idx k' := rfl

theorem indexGet_eq_some_mem {K V : Type} [DecidableEq K] {idx : List (K × V)} {k : K} {v : V}
    (h : indexGet idx k = some v) : (k, v) ∈ idx := by
  induction idx with
  | nil => simp [indexGet] at h
  | cons p rest ih =>
    obtain ⟨k', v'⟩ := p
    rw [indexGet_cons] at h
    split at h
    · rename_i he
      simp at h
      simp [he, h]
    · exact List.mem_cons_of_mem _ (ih h)

theorem mem_indexErase {K V : Type} [DecidableEq K] {idx : List (K × V)} {k : K} {p : K × V} :
    p ∈ indexErase idx k ↔ p ∈ idx ∧ p.1 ≠ k := by
  unfold indexErase
  rw [List.mem_filter]
  simp

theorem mem_indexEraseOpt {K V : Type} [DecidableEq K] {idx : List (K × V)} {o : Option K}
    {p : K × V} (h : p ∈ indexEraseOpt idx o) : p ∈ idx := by
  cases o with
  | none => exact h
  | some k => exact (mem_indexErase.mp h).1

theorem indexGet_indexErase_self {K V : Type} [DecidableEq K] (idx : List (K × V)) (k : K) :
    indexGet (indexErase idx k) k = none := by
  induction idx with
  | nil => rfl
  | cons p rest ih =>
    unfold indexErase at ih ⊢
    rw [List.filter_cons]
    split
    · rename_i hp
      simp at hp
      show (if p.1 = k then some p.2 else _) = none
      rw [if_neg hp]
      exact ih
    · exact ih

theorem indexGet_indexErase_ne {K V : Type} [DecidableEq K] (idx : List (K × V)) {k k' : K}
    (h : k' ≠ k) : indexGet (indexErase idx k) k' = indexGet idx k' := by
  induction idx with
  | nil => rfl
  | cons p rest ih =>
    unfold indexErase at ih ⊢
    rw [List.filter_cons]
    split
    · show (if p.1 = k' then some p.2 else _) = _
      show _ = (if p.1 = k' then some p.2 else indexGet rest k')
      split
      · rfl
      · exact ih
    · rename_i hp
      simp at hp
      show _ = (if p.1 = k' then some p.2 else indexGet rest k')
      rw [if_neg (by rw [hp]; exact fun he => h he.symm), ih]

theorem indexGet_indexEraseOpt_ne_of_ne {K V : Type} [DecidableEq K] (idx : List (K × V))
    {o : Option K} {k' : K} (h : ∀ k, o = some k → k' ≠ k) :
    indexGet (indexEraseOpt idx o) k' = indexGet idx k' := by
  cases o with
  | none => rfl
  | some k => exact indexGet_indexErase_ne idx (h k rfl)

namespace FileManager

theorem get_file_node_eq_some {s : FileManager} {fid i : Nat} {n : FileNode} :
    s.get_file_node fid = some (i, n) ↔ s.nodeIdOf fid = some i ∧ s.nodeAt i = some n := by
  unfold get_file_node
  constructor
  · intro h
    split at h
    · exact absurd h (by simp)
    · rename_i j hj
      split at h
      · exact absurd h (by simp)
      · rename_i m hm
        simp at h
        obtain ⟨rfl, rfl⟩ := h
        exact ⟨hj, hm⟩
  · rintro ⟨h₁, h₂⟩
    rw [h₁]
    show (match s.nodeAt i with
      | none => none
      | some n => some (i, n)) = some (i, n)
    rw [h₂]

theorem nodeAt_lt_length {s : FileManager} {i : Nat} {n : FileNode} (h : s.nodeAt i = some n) :
    i < s.file_nodes_.length := by
  unfold nodeAt at h
  by_contra hlt
  rw [List.getElem?_eq_none (by omega)] at h
  simp at h

theorem nodeIdOf_lt_length {s : FileManager} {fid i : Nat} (h : s.nodeIdOf fid = some i) :
    fid < s.file_id_info_.length := by
  unfold nodeIdOf at h
  by_contra hlt
  rw [List.getElem?_eq_none (by omega)] at h
  simp at h

theorem nodeAt_setNodeAt_self {s : FileManager} {i : Nat} {m : FileNode} (n : FileNode)
    (h : s.nodeAt i = some m) : (s.setNodeAt i n).nodeAt i = some n := by
  unfold nodeAt setNodeAt
  have hi := nodeAt_lt_length h
  simp only []
  rw [List.getElem?_set_self hi]
  rfl

theorem nodeAt_setNodeAt_ne {s : FileManager} {i j : Nat} (n : FileNode) (h : j ≠ i) :
    (s.setNodeAt i n).nodeAt j = s.nodeAt j := by
  unfold nodeAt setNodeAt
  simp only []
  rw [List.getElem?_set_ne (fun he => h he.symm)]

theorem length_setNodeAt (s : FileManager) (i : Nat) (n : FileNode) :
    (s.setNodeAt i n).file_nodes_.length = s.file_nodes_.length := by
  unfold setNodeAt
  simp

theorem nodeAt_congr {s s' : FileManager} (hn : s'.file_nodes_ = s.file_nodes_) (i : Nat) :
    s'.nodeAt i = s.nodeAt i := by
  unfold nodeAt
  rw [hn]

theorem get_file_node_congr {s s' : FileManager} (hn : s'.file_nodes_ = s.file_nodes_)
    (hi : ∀ fid, s'.nodeIdOf fid = s.nodeIdOf fid) (fid : Nat) :
    s'.get_file_node fid = s.get_file_node fid := by
  unfold get_file_node
  rw [hi]
  cases s.nodeIdOf fid with
  | none => rfl
  | some j =>
    show (match s'.nodeAt j with
      | none => none
      | some n => some (j, n)) = _
    rw [nodeAt_congr hn]

/-- One-directional transfer of handle resolution. -/
theorem get_file_node_mono {s s' : FileManager} (hn : s'.file_nodes_ = s.file_nodes_)
    (hi : ∀ fid j, s.nodeIdOf fid = some j → s'.nodeIdOf fid = some j) {fid : Nat}
    {pr : Nat × FileNode} (hg : s.get_file_node fid = some pr) :
    s'.get_file_node fid = some pr := by
  obtain ⟨h1, h2⟩ := get_file_node_eq_some.mp hg
  exact get_file_node_eq_some.mpr ⟨hi _ _ h1, by rw [nodeAt_congr hn]; exact h2⟩

/-- Invariance is preserved by any state change that keeps the node table,
the indices and the query container, and does not retarget any resolving
handle. -/
theorem inv_congr {s s' : FileManager} (hn : s'.file_nodes_ = s.file_nodes_)
    (hi : ∀ fid j, s.nodeIdOf fid = some j → s'.nodeIdOf fid = some j)
    (hl : s'.local_location_to_file_id_ = s.local_location_to_file_id_)
    (hr : s'.remote_location_to_file_id_ = s.remote_location_to_file_id_)
    (hg : s'.generate_location_to_file_id_ = s.generate_location_to_file_id_)
    (hq : s'.queries_container_ = s.queries_container_)
    (hx : s'.next_query_id_ = s.next_query_id_)
    (h : Inv s) : Inv s' := by
  obtain ⟨h1, h2, h3, h4, h5, h6, h7, h8, h9, h10⟩ := h
  constructor
  · intro i hlen
    rw [hn] at hlen
    have hc := h1 i hlen
    rw [nodeAt_congr hn]
    cases hnd : s.nodeAt i with
    | none => exact trivial
    | some n =>
      rw [hnd] at hc
      simp only [optAll_some] at hc ⊢
      exact hi _ _ hc
  · show 1 ≤ s'.next_query_id_
    rw [hx]
    exact h2
  · intro p hp
    rw [hl] at hp
    have hc := h3 p hp
    cases hgf : s.get_file_node p.2 with
    | none => rw [hgf] at hc; exact absurd hc id
    | some pr =>
      rw [get_file_node_mono hn hi hgf]
      rw [hgf] at hc
      exact hc
  · intro p hp
    rw [hr] at hp
    have hc := h4 p hp
    cases hgf : s.get_file_node p.2 with
    | none => rw [hgf] at hc; exact absurd hc id
    | some pr =>
      rw [get_file_node_mono hn hi hgf]
      rw [hgf] at hc
      exact hc
  · intro p hp
    rw [hg] at hp
    have hc := h5 p hp
    cases hgf : s.get_file_node p.2 with
    | none => rw [hgf] at hc; exact absurd hc id
    | some pr =>
      rw [get_file_node_mono hn hi hgf]
      rw [hgf] at hc
      exact hc
  · intro i hlen
    rw [hn] at hlen
    have hc := h6 i hlen
    rw [nodeAt_congr hn]
    cases hnd : s.nodeAt i with
    | none => exact trivial
    | some n =>
      rw [hnd] at hc
      simp only [optAll_some] at hc ⊢
      cases hf : n.local_.fullOf with
      | none => exact trivial
      | some l =>
        rw [hf] at hc
        simp only [optAll_some] at hc ⊢
        rw [hl]
        cases hidx : indexGet s.local_location_to_file_id_ l with
        | none => rw [hidx] at hc; exact hc
        | some fid =>
          rw [hidx] at hc
          simp only [optIs_some] at hc ⊢
          exact hi _ _ hc
  · intro i hlen
    rw [hn] at hlen
    have hc := h7 i hlen
    rw [nodeAt_congr hn]
    cases hnd : s.nodeAt i with
    | none => exact trivial
    | some n =>
      rw [hnd] at hc
      simp only [optAll_some] at hc ⊢
      cases hf : n.remote_.fullOf with
      | none => exact trivial
      | some r =>
        rw [hf] at hc
        simp only [optAll_some] at hc ⊢
        rw [hr]
        cases hidx : indexGet s.remote_location_to_file_id_ r with
        | none => rw [hidx] at hc; exact hc
        | some fid =>
          rw [hidx] at hc
          simp only [optIs_some] at hc ⊢
          exact hi _ _ hc
  · intro i hlen
    rw [hn] at hlen
    have hc := h8 i hlen
    rw [nodeAt_congr hn]
    cases hnd : s.nodeAt i with
    | none => exact trivial
    | some n =>
      rw [hnd] at hc
      simp only [optAll_some] at hc ⊢
      cases hf : n.generate_.fullOf with
      | none => exact trivial
      | some g' =>
        rw [hf] at hc
        simp only [optAll_some] at hc ⊢
        rw [hg]
        cases hidx : indexGet s.generate_location_to_file_id_ g' with
        | none => rw [hidx] at hc; exact hc
        | some fid =>
          rw [hidx] at hc
          simp only [optIs_some] at hc ⊢
          exact hi _ _ hc
  · intro p hp
    rw [hq] at hp
    have hc := h9 p hp
    refine ⟨hc.1, ?_, ?_⟩
    · rw [hx]
      exact hc.2.1
    · have hc3 := hc.2.2
      cases hgf : s.get_file_node p.2.file_id_ with
      | none => rw [hgf] at hc3; exact absurd hc3 id
      | some pr =>
        rw [get_file_node_mono hn hi hgf]
        rw [hgf] at hc3
        exact hc3
  · intro i hlen
    rw [hn] at hlen
    have hc := h10 i hlen
    rw [nodeAt_congr hn]
    cases hnd : s.nodeAt i with
    | none => exact trivial
    | some n =>
      rw [hnd] at hc
      simp only [optAll_some] at hc ⊢
      intro k
      rcases hc k with h0 | hrest
      · exact Or.inl h0
      · right
        rw [hq]
        cases hidx : indexGet s.queries_container_ (n.queryIdOfKind k) with
        | none => rw [hidx] at hrest; exact hrest
        | some q =>
          rw [hidx] at hrest
          simp only [optIs_some] at hrest ⊢
          refine ⟨hrest.1, ?_⟩
          have hr2 := hrest.2
          cases hgf : s.get_file_node q.file_id_ with
          | none => rw [hgf] at hr2; exact absurd hr2 id
          | some pr =>
            rw [get_file_node_mono hn hi hgf]
            rw [hgf] at hr2
            exact hr2

/-- A nonzero per-kind query id names an in-flight query of that kind
resolving back to the same node. -/
theorem slot_entry {s : FileManager} (h : Inv s) {i : Nat} {n : FileNode} {k : WorkerKind}
    (hni : s.nodeAt i = some n) (hk : n.queryIdOfKind k ≠ 0) :
    ∃ q, indexGet s.queries_container_ (n.queryIdOfKind k) = some q ∧
      kindOfQueryType q.type_ = k ∧ ∃ m, s.get_file_node q.file_id_ = some (i, m) := by
  have hc := h.node_query_ok i (nodeAt_lt_length hni)
  rw [hni] at hc
  simp only [optAll_some] at hc
  rcases hc k with h0 | hrest
  · exact absurd h0 hk
  cases hidx : indexGet s.queries_container_ (n.queryIdOfKind k) with
  | none => rw [hidx] at hrest; exact absurd hrest id
  | some q =>
    rw [hidx] at hrest
    simp only [optIs_some] at hrest
    obtain ⟨hkind, hres⟩ := hrest
    cases hgf : s.get_file_node q.file_id_ with
    | none => rw [hgf] at hres; exact absurd hres id
    | some pr =>
      rw [hgf] at hres
      simp only [optIs_some] at hres
      exact ⟨q, rfl, hkind, pr.2, by rw [hgf, ← hres]⟩

/-- A nonzero per-kind query id is below the allocation counter. -/
theorem slot_lt_next {s : FileManager} (h : Inv s) {i : Nat} {n : FileNode} {k : WorkerKind}
    (hni : s.nodeAt i = some n) (hk : n.queryIdOfKind k ≠ 0) :
    n.queryIdOfKind k < s.next_query_id_ := by
  obtain ⟨q, hq, -, -⟩ := slot_entry h hni hk
  have hmem := indexGet_eq_some_mem hq
  exact (h.queries_ok _ hmem).2.1

/-- Nonzero per-kind query ids are distinct across node-kind pairs. -/
theorem slot_inj {s : FileManager} (h : Inv s) {i j : Nat} {n m : FileNode}
    {k k' : WorkerKind} (hni : s.nodeAt i = some n) (hmj : s.nodeAt j = some m)
    (hk : n.queryIdOfKind k ≠ 0) (hk' : m.queryIdOfKind k' ≠ 0)
    (he : n.queryIdOfKind k = m.queryIdOfKind k') : i = j ∧ k = k' := by
  obtain ⟨q, hq, hkind, m₁, hres⟩ := slot_entry h hni hk
  obtain ⟨q', hq', hkind', m₂, hres'⟩ := slot_entry h hmj hk'
  rw [he, hq'] at hq
  injection hq with hqq
  subst hqq
  rw [hres'] at hres
  injection hres with hpr
  injection hpr with hij
  exact ⟨hij.symm, by rw [← hkind, ← hkind']⟩

theorem get_file_node_def (s : FileManager) (fid : Nat) :
    s.get_file_node fid =
      (s.nodeIdOf fid).bind (fun i => (s.nodeAt i).map (fun n => (i, n))) := by
  unfold get_file_node
  cases s.nodeIdOf fid with
  | none => rfl
  | some i =>
    cases hg : s.nodeAt i with
    | none => simp [hg]
    | some n => simp [hg]

theorem get_file_node_setNodeAt {s : FileManager} {i : Nat} {m : FileNode}
    (hni : s.nodeAt i = some m) (n' : FileNode) (fid : Nat) :
    (s.setNodeAt i n').get_file_node fid =
      match s.get_file_node fid with
      | none => none
      | some (j, m') => if j = i then some (j, n') else some (j, m') := by
  have hid : (s.setNodeAt i n').nodeIdOf fid = s.nodeIdOf fid := rfl
  rw [get_file_node_def, get_file_node_def, hid]
  cases hj : s.nodeIdOf fid with
  | none => rfl
  | some j =>
    rw [Option.some_bind, Option.some_bind]
    by_cases hji : j = i
    · subst hji
      rw [nodeAt_setNodeAt_self n' hni, hni]
      simp
    · rw [nodeAt_setNodeAt_ne n' hji]
      cases s.nodeAt j with
      | none => rfl
      | some m' => simp [hji]

/-- Node-field compatibility: an update that keeps the Full views of the
three locations, the main handle and the per-kind query ids. -/
def NodeCompat (f : FileNode → FileNode) : Prop :=
  ∀ n, (f n).local_.fullOf = n.local_.fullOf ∧ (f n).remote_.fullOf = n.remote_.fullOf ∧
    (f n).generate_.fullOf = n.generate_.fullOf ∧ (f n).main_file_id_ = n.main_file_id_ ∧
    ∀ k, (f n).queryIdOfKind k = n.queryIdOfKind k

/-- Invariance is preserved by a compatible update of one node. -/
theorem inv_modifyNodeAt_compat {s : FileManager} {i : Nat} {f : FileNode → FileNode}
    (hf : NodeCompat f) (h : Inv s) : Inv (s.modifyNodeAt i f) := by
  unfold modifyNodeAt
  cases hnd : s.nodeAt i with
  | none => exact h
  | some n =>
    obtain ⟨hfl, hfr, hfg, hfm, hfq⟩ := hf n
    obtain ⟨h1, h2, h3, h4, h5, h6, h7, h8, h9, h10⟩ := h
    have hgfn := get_file_node_setNodeAt hnd (f n)
    constructor
    · intro j hlen
      rw [length_setNodeAt] at hlen
      have hid : (s.setNodeAt i (f n)).nodeIdOf = s.nodeIdOf := rfl
      by_cases hji : j = i
      · subst hji
        rw [nodeAt_setNodeAt_self (f n) hnd]
        simp only [optAll_some]
        rw [hid, hfm]
        have hc := h1 j hlen
        rw [hnd] at hc
        exact hc
      · rw [nodeAt_setNodeAt_ne (f n) hji]
        have hc := h1 j hlen
        cases hnj : s.nodeAt j with
        | none => exact trivial
        | some nj =>
          rw [hnj] at hc
          simp only [optAll_some] at hc ⊢
          rw [hid]
          exact hc
    · exact h2
    · intro p hp
      have hc := h3 p hp
      rw [hgfn]
      cases hgf : s.get_file_node p.2 with
      | none => rw [hgf] at hc; exact hc
      | some pr =>
        rw [hgf] at hc
        simp only [optIs_some] at hc
        obtain ⟨j, m'⟩ := pr
        by_cases hji : j = i
        · subst hji
          have hm' : m' = n := by
            have h' := (get_file_node_eq_some.mp hgf).2
            rw [hnd] at h'
            injection h' with h''
            exact h''.symm
          subst hm'
          simp only [if_pos rfl, optIs_some]
          exact localFullOf_eq_some.mp
            (by rw [hfl]; exact localFullOf_eq_some.mpr hc)
        · simp only [if_neg hji, optIs_some]
          exact hc
    · intro p hp
      have hc := h4 p hp
      rw [hgfn]
      cases hgf : s.get_file_node p.2 with
      | none => rw [hgf] at hc; exact hc
      | some pr =>
        rw [hgf] at hc
        simp only [optIs_some] at hc
        obtain ⟨j, m'⟩ := pr
        by_cases hji : j = i
        · subst hji
          have hm' : m' = n := by
            have h' := (get_file_node_eq_some.mp hgf).2
            rw [hnd] at h'
            injection h' with h''
            exact h''.symm
          subst hm'
          simp only [if_pos rfl, optIs_some]
          exact remoteFullOf_eq_some.mp
            (by rw [hfr]; exact remoteFullOf_eq_some.mpr hc)
        · simp only [if_neg hji, optIs_some]
          exact hc
    · intro p hp
      have hc := h5 p hp
      rw [hgfn]
      cases hgf : s.get_file_node p.2 with
      | none => rw [hgf] at hc; exact hc
      | some pr =>
        rw [hgf] at hc
        simp only [optIs_some] at hc
        obtain ⟨j, m'⟩ := pr
        by_cases hji : j = i
        · subst hji
          have hm' : m' = n := by
            have h' := (get_file_node_eq_some.mp hgf).2
            rw [hnd] at h'
            injection h' with h''
            exact h''.symm
          subst hm'
          simp only [if_pos rfl, optIs_some]
          exact generateFullOf_eq_some.mp
            (by rw [hfg]; exact generateFullOf_eq_some.mpr hc)
        · simp only [if_neg hji, optIs_some]
          exact hc
    · intro j hlen
      rw [length_setNodeAt] at hlen
      have hid : (s.setNodeAt i (f n)).nodeIdOf = s.nodeIdOf := rfl
      have hix : (s.setNodeAt i (f n)).local_location_to_file_id_ =
          s.local_location_to_file_id_ := rfl
      have hc := h6 j hlen
      by_cases hji : j = i
      · subst hji
        rw [nodeAt_setNodeAt_self (f n) hnd]
        rw [hnd] at hc
        simp only [optAll_some] at hc ⊢
        rw [hfl, hix, hid]
        exact hc
      · rw [nodeAt_setNodeAt_ne (f n) hji]
        cases hnj : s.nodeAt j with
        | none => exact trivial
        | some nj =>
          rw [hnj] at hc
          simp only [optAll_some] at hc ⊢
          rw [hix, hid]
          exact hc
    · intro j hlen
      rw [length_setNodeAt] at hlen
      have hid : (s.setNodeAt i (f n)).nodeIdOf = s.nodeIdOf := rfl
      have hix : (s.setNodeAt i (f n)).remote_location_to_file_id_ =
          s.remote_location_to_file_id_ := rfl
      have hc := h7 j hlen
      by_cases hji : j = i
      · subst hji
        rw [nodeAt_setNodeAt_self (f n) hnd]
        rw [hnd] at hc
        simp only [optAll_some] at hc ⊢
        rw [hfr, hix, hid]
        exact hc
      · rw [nodeAt_setNodeAt_ne (f n) hji]
        cases hnj : s.nodeAt j with
        | none => exact trivial
        | some nj =>
          rw [hnj] at hc
          simp only [optAll_some] at hc ⊢
          rw [hix, hid]
          exact hc
    · intro j hlen
      rw [length_setNodeAt] at hlen
      have hid : (s.setNodeAt i (f n)).nodeIdOf = s.nodeIdOf := rfl
      have hix : (s.setNodeAt i (f n)).generate_location_to_file_id_ =
          s.generate_location_to_file_id_ := rfl
      have hc := h8 j hlen
      by_cases hji : j = i
      · subst hji
        rw [nodeAt_setNodeAt_self (f n) hnd]
        rw [hnd] at hc
        simp only [optAll_some] at hc ⊢
        rw [hfg, hix, hid]
        exact hc
      · rw [nodeAt_setNodeAt_ne (f n) hji]
        cases hnj : s.nodeAt j with
        | none => exact trivial
        | some nj =>
          rw [hnj] at hc
          simp only [optAll_some] at hc ⊢
          rw [hix, hid]
          exact hc
    · intro p hp
      have hc := h9 p hp
      refine ⟨hc.1, hc.2.1, ?_⟩
      have hc3 := hc.2.2
      rw [hgfn]
      cases hgf : s.get_file_node p.2.file_id_ with
      | none => rw [hgf] at hc3; exact hc3
      | some pr =>
        rw [hgf] at hc3
        simp only [optIs_some] at hc3
        obtain ⟨j, m'⟩ := pr
        by_cases hji : j = i
        · subst hji
          have hm' : m' = n := by
            have h' := (get_file_node_eq_some.mp hgf).2
            rw [hnd] at h'
            injection h' with h''
            exact h''.symm
          subst hm'
          simp only [if_pos rfl, optIs_some]
          show (f m').queryIdOfKind (kindOfQueryType p.2.type_) = p.1
          rw [hfq]
          exact hc3
        · simp only [if_neg hji, optIs_some]
          exact hc3
    · intro j hlen
      rw [length_setNodeAt] at hlen
      have hc := h10 j hlen
      have htrans : ∀ (fid j' : Nat),
          optIs ((s.setNodeAt i (f n)).get_file_node fid) (fun pr => pr.1 = j') ↔
            optIs (s.get_file_node fid) (fun pr => pr.1 = j') := by
        intro fid j'
        rw [hgfn]
        cases s.get_file_node fid with
        | none => exact Iff.rfl
        | some pr =>
          obtain ⟨j₀, m₀⟩ := pr
          by_cases hj₀ : j₀ = i
          · simp [hj₀]
          · simp [hj₀]
      have hqc : (s.setNodeAt i (f n)).queries_container_ = s.queries_container_ := rfl
      by_cases hji : j = i
      · subst hji
        rw [nodeAt_setNodeAt_self (f n) hnd]
        rw [hnd] at hc
        simp only [optAll_some] at hc ⊢
        intro k
        rw [hfq, hqc]
        rcases hc k with h0 | hrest
        · exact Or.inl h0
        · right
          cases hidx : indexGet s.queries_container_ (n.queryIdOfKind k) with
          | none => rw [hidx] at hrest; exact hrest
          | some q =>
            rw [hidx] at hrest
            simp only [optIs_some] at hrest ⊢
            exact ⟨hrest.1, (htrans q.file_id_ j).mpr hrest.2⟩
      · rw [nodeAt_setNodeAt_ne (f n) hji]
        cases hnj : s.nodeAt j with
        | none => exact trivial
        | some nj =>
          rw [hnj] at hc
          simp only [optAll_some] at hc ⊢
          intro k
          rw [hqc]
          rcases hc k with h0 | hrest
          · exact Or.inl h0
          · right
            cases hidx : indexGet s.queries_container_ (nj.queryIdOfKind k) with
            | none => rw [hidx] at hrest; exact hrest
            | some q =>
              rw [hidx] at hrest
              simp only [optIs_some] at hrest ⊢
              exact ⟨hrest.1, (htrans q.file_id_ j).mpr hrest.2⟩

theorem nodeIdOf_append_lt {s : FileManager} {fid j : Nat} (info0 : FileIdInfo)
    (h : s.nodeIdOf fid = some j) :
    ({ s with file_id_info_ := s.file_id_info_ ++ [info0] } : FileManager).nodeIdOf fid =
      some j := by
  have hlt := nodeIdOf_lt_length h
  unfold nodeIdOf at h ⊢
  simp only [] at h ⊢
  rw [List.getElem?_append, if_pos hlt]
  exact h

theorem inv_modifyInfoAt {s : FileManager} {fid : Nat} {f : FileIdInfo → FileIdInfo}
    (hf : ∀ info, (f info).node_id_ = info.node_id_) (h : Inv s) :
    Inv (s.modifyInfoAt fid f) := by
  unfold modifyInfoAt
  cases hinfo : s.file_id_info_[fid]? with
  | none => exact h
  | some info =>
    have hlt : fid < s.file_id_info_.length := by
      obtain ⟨hl, -⟩ := List.getElem?_eq_some.mp hinfo
      exact hl
    show Inv ({ s with file_id_info_ := s.file_id_info_.set fid (f info) } : FileManager)
    refine inv_congr ?_ ?_ ?_ ?_ ?_ ?_ ?_ h
    case refine_1 => rfl
    case refine_3 => rfl
    case refine_4 => rfl
    case refine_5 => rfl
    case refine_6 => rfl
    case refine_7 => rfl
    intro fid' j hj
    unfold nodeIdOf at hj ⊢
    simp only [] at hj ⊢
    by_cases he : fid' = fid
    · subst he
      rw [List.getElem?_set_self hlt]
      rw [hinfo] at hj
      simp only [Option.map_some'] at hj ⊢
      rw [hf info]
      exact hj
    · rw [List.getElem?_set_ne (fun hee => he hee.symm)]
      exact hj

theorem inv_foldl_modifyInfoAt {f : FileIdInfo → FileIdInfo}
    (hf : ∀ info, (f info).node_id_ = info.node_id_) (l : List Nat) :
    ∀ s : FileManager, Inv s → Inv (l.foldl (fun acc fid => acc.modifyInfoAt fid f) s) := by
  induction l with
  | nil => exact fun _ h => h
  | cons a t ih => exact fun s h => ih _ (inv_modifyInfoAt hf h)

theorem inv_clearPriorities {s : FileManager} (i : Nat) (k : WorkerKind) (h : Inv s) :
    Inv (clearPriorities s i k) := by
  unfold clearPriorities
  cases s.nodeAt i with
  | none => exact h
  | some n => exact inv_foldl_modifyInfoAt (fun info => by cases k <;> rfl) n.file_ids_ s h

theorem inv_addAlias {s : FileManager} (i : Nat) (h : Inv s) : Inv (s.addAlias i).2 := by
  have h₁ : Inv ({ s with file_id_info_ := s.file_id_info_ ++ [{ node_id_ := i }] } :
      FileManager) := by
    refine inv_congr ?_ ?_ ?_ ?_ ?_ ?_ ?_ h
    case refine_1 => rfl
    case refine_3 => rfl
    case refine_4 => rfl
    case refine_5 => rfl
    case refine_6 => rfl
    case refine_7 => rfl
    intro fid j hj
    exact nodeIdOf_append_lt _ hj
  exact inv_modifyNodeAt_compat (fun _ => ⟨rfl, rfl, rfl, rfl, fun _ => rfl⟩) h₁

theorem inv_createNodeIndexed {s : FileManager} {nbase : FileNode}
    (hdl : nbase.download_id_ = 0) (hul : nbase.upload_id_ = 0) (hgl : nbase.generate_id_ = 0)
    (hL : ∀ l, nbase.local_.fullOf = some l →
      indexGet s.local_location_to_file_id_ l = none)
    (hR : ∀ r, nbase.remote_.fullOf = some r →
      indexGet s.remote_location_to_file_id_ r = none)
    (hG : ∀ g, nbase.generate_.fullOf = some g →
      indexGet s.generate_location_to_file_id_ g = none)
    (h : Inv s) : Inv (s.createNodeIndexed nbase).2 := by
  obtain ⟨h1, h2, h3, h4, h5, h6, h7, h8, h9, h10⟩ := h
  unfold createNodeIndexed
  simp only []
  set nid := s.file_nodes_.length with hnid
  set fid := s.file_id_info_.length with hfid
  set n : FileNode := { nbase with main_file_id_ := fid, file_ids_ := [fid] } with hn
  set s' : FileManager := { s with
    file_id_info_ := s.file_id_info_ ++ [{ node_id_ := nid }],
    file_nodes_ := s.file_nodes_ ++ [some n],
    local_location_to_file_id_ :=
      match nbase.local_.fullOf with
      | some l => (l, fid) :: s.local_location_to_file_id_
      | none => s.local_location_to_file_id_,
    remote_location_to_file_id_ :=
      match nbase.remote_.fullOf with
      | some r => (r, fid) :: s.remote_location_to_file_id_
      | none => s.remote_location_to_file_id_,
    generate_location_to_file_id_ :=
      match nbase.generate_.fullOf with
      | some g => (g, fid) :: s.generate_location_to_file_id_
      | none => s.generate_location_to_file_id_ } with hs'
  show Inv s'
  have hvold : ∀ fid' j, s.nodeIdOf fid' = some j → s'.nodeIdOf fid' = some j := by
    intro fid' j hj
    have hlt := nodeIdOf_lt_length hj
    unfold nodeIdOf at hj ⊢
    rw [hs']
    simp only [] at hj ⊢
    rw [List.getElem?_append, if_pos hlt]
    exact hj
  have hvnew : s'.nodeIdOf fid = some nid := by
    unfold nodeIdOf
    rw [hs']
    simp only []
    rw [List.getElem?_append, if_neg (by omega), Nat.sub_self]
    rfl
  have hnold : ∀ x, x < s.file_nodes_.length → s'.nodeAt x = s.nodeAt x := by
    intro x hx
    unfold nodeAt
    rw [hs']
    simp only []
    rw [List.getElem?_append, if_pos hx]
  have hnnew : s'.nodeAt nid = some n := by
    unfold nodeAt
    rw [hs']
    simp only []
    rw [List.getElem?_append, if_neg (by omega), Nat.sub_self]
    rfl
  have hmono : ∀ fid' pr, s.get_file_node fid' = some pr → s'.get_file_node fid' = some pr := by
    intro fid' pr hg
    obtain ⟨hg1, hg2⟩ := get_file_node_eq_some.mp hg
    exact get_file_node_eq_some.mpr
      ⟨hvold _ _ hg1, by rw [hnold _ (nodeAt_lt_length hg2)]; exact hg2⟩
  have hgetnew : s'.get_file_node fid = some (nid, n) :=
    get_file_node_eq_some.mpr ⟨hvnew, hnnew⟩
  have hlen : s'.file_nodes_.length = s.file_nodes_.length + 1 := by
    rw [hs']
    simp
  have hqc : s'.queries_container_ = s.queries_container_ := rfl
  have hnx : s'.next_query_id_ = s.next_query_id_ := rfl
  constructor
  · intro x hx
    rw [hlen] at hx
    by_cases hxe : x = nid
    · subst hxe
      rw [hnnew]
      simp only [optAll_some]
      exact hvnew
    · have hxlt : x < s.file_nodes_.length := by omega
      rw [hnold _ hxlt]
      have hc := h1 x hxlt
      cases hnd : s.nodeAt x with
      | none => exact trivial
      | some m =>
        rw [hnd] at hc
        simp only [optAll_some] at hc ⊢
        exact hvold _ _ hc
  · show 1 ≤ s'.next_query_id_
    rw [hnx]
    exact h2
  · intro p hp
    have hp' : p ∈ (match nbase.local_.fullOf with
      | some l => (l, fid) :: s.local_location_to_file_id_
      | none => s.local_location_to_file_id_) := hp
    cases hfl : nbase.local_.fullOf with
    | none =>
      rw [hfl] at hp'
      have hc := h3 p hp'
      cases hgf : s.get_file_node p.2 with
      | none => rw [hgf] at hc; exact absurd hc id
      | some pr =>
        rw [hmono _ _ hgf]
        rw [hgf] at hc
        exact hc
    | some l =>
      rw [hfl] at hp'
      rcases List.mem_cons.mp hp' with hph | hpt
      · subst hph
        rw [hgetnew]
        simp only [optIs_some]
        show n.local_ = LocalFileLocation.full l
        show nbase.local_ = LocalFileLocation.full l
        exact localFullOf_eq_some.mp hfl
      · have hc := h3 p hpt
        cases hgf : s.get_file_node p.2 with
        | none => rw [hgf] at hc; exact absurd hc id
        | some pr =>
          rw [hmono _ _ hgf]
          rw [hgf] at hc
          exact hc
  · intro p hp
    have hp' : p ∈ (match nbase.remote_.fullOf with
      | some r => (r, fid) :: s.remote_location_to_file_id_
      | none => s.remote_location_to_file_id_) := hp
    cases hfl : nbase.remote_.fullOf with
    | none =>
      rw [hfl] at hp'
      have hc := h4 p hp'
      cases hgf : s.get_file_node p.2 with
      | none => rw [hgf] at hc; exact absurd hc id
      | some pr =>
        rw [hmono _ _ hgf]
        rw [hgf] at hc
        exact hc
    | some r =>
      rw [hfl] at hp'
      rcases List.mem_cons.mp hp' with hph | hpt
      · subst hph
        rw [hgetnew]
        simp only [optIs_some]
        show nbase.remote_ = RemoteFileLocation.full r
        exact remoteFullOf_eq_some.mp hfl
      · have hc := h4 p hpt
        cases hgf : s.get_file_node p.2 with
        | none => rw [hgf] at hc; exact absurd hc id
        | some pr =>
          rw [hmono _ _ hgf]
          rw [hgf] at hc
          exact hc
  · intro p hp
    have hp' : p ∈ (match nbase.generate_.fullOf with
      | some g => (g, fid) :: s.generate_location_to_file_id_
      | none => s.generate_location_to_file_id_) := hp
    cases hfl : nbase.generate_.fullOf with
    | none =>
      rw [hfl] at hp'
      have hc := h5 p hp'
      cases hgf : s.get_file_node p.2 with
      | none => rw [hgf] at hc; exact absurd hc id
      | some pr =>
        rw [hmono _ _ hgf]
        rw [hgf] at hc
        exact hc
    | some g =>
      rw [hfl] at hp'
      rcases List.mem_cons.mp hp' with hph | hpt
      · subst hph
        rw [hgetnew]
        simp only [optIs_some]
        show nbase.generate_ = GenerateFileLocation.full g
        exact generateFullOf_eq_some.mp hfl
      · have hc := h5 p hpt
        cases hgf : s.get_file_node p.2 with
        | none => rw [hgf] at hc; exact absurd hc id
        | some pr =>
          rw [hmono _ _ hgf]
          rw [hgf] at hc
          exact hc
  · intro x hx
    rw [hlen] at hx
    by_cases hxe : x = nid
    · subst hxe
      rw [hnnew]
      simp only [optAll_some]
      have hploc : n.local_.fullOf = nbase.local_.fullOf := rfl
      rw [hploc]
      cases hfl : nbase.local_.fullOf with
      | none => exact trivial
      | some l =>
        simp only [optAll_some, indexGet_cons, if_pos rfl, optIs_some]
        exact hvnew
    · have hxlt : x < s.file_nodes_.length := by omega
      rw [hnold _ hxlt]
      have hc := h6 x hxlt
      cases hnd : s.nodeAt x with
      | none => exact trivial
      | some m =>
        rw [hnd] at hc
        simp only [optAll_some] at hc ⊢
        cases hfm : m.local_.fullOf with
        | none => exact trivial
        | some l' =>
          rw [hfm] at hc
          simp only [optAll_some] at hc ⊢
          cases hfl : nbase.local_.fullOf with
          | none =>
            cases hidx : indexGet s.local_location_to_file_id_ l' with
            | none => rw [hidx] at hc; exact hc
            | some fidx =>
              rw [hidx] at hc
              simp only [optIs_some] at hc ⊢
              exact hvold _ _ hc
          | some l =>
            have hne : l ≠ l' := by
              intro he
              subst he
              rw [hL l hfl] at hc
              exact hc
            rw [indexGet_cons, if_neg hne]
            cases hidx : indexGet s.local_location_to_file_id_ l' with
            | none => rw [hidx] at hc; exact hc
            | some fidx =>
              rw [hidx] at hc
              simp only [optIs_some] at hc ⊢
              exact hvold _ _ hc
  · intro x hx
    rw [hlen] at hx
    by_cases hxe : x = nid
    · subst hxe
      rw [hnnew]
      simp only [optAll_some]
      have hploc : n.remote_.fullOf = nbase.remote_.fullOf := rfl
      rw [hploc]
      cases hfl : nbase.remote_.fullOf with
      | none => exact trivial
      | some r =>
        simp only [optAll_some, indexGet_cons, if_pos rfl, optIs_some]
        exact hvnew
    · have hxlt : x < s.file_nodes_.length := by omega
      rw [hnold _ hxlt]
      have hc := h7 x hxlt
      cases hnd : s.nodeAt x with
      | none => exact trivial
      | some m =>
        rw [hnd] at hc
        simp only [optAll_some] at hc ⊢
        cases hfm : m.remote_.fullOf with
        | none => exact trivial
        | some r' =>
          rw [hfm] at hc
          simp only [optAll_some] at hc ⊢
          cases hfl : nbase.remote_.fullOf with
          | none =>
            cases hidx : indexGet s.remote_location_to_file_id_ r' with
            | none => rw [hidx] at hc; exact hc
            | some fidx =>
              rw [hidx] at hc
              simp only [optIs_some] at hc ⊢
              exact hvold _ _ hc
          | some r =>
            have hne : r ≠ r' := by
              intro he
              subst he
              rw [hR r hfl] at hc
              exact hc
            rw [indexGet_cons, if_neg hne]
            cases hidx : indexGet s.remote_location_to_file_id_ r' with
            | none => rw [hidx] at hc; exact hc
            | some fidx =>
              rw [hidx] at hc
              simp only [optIs_some] at hc ⊢
              exact hvold _ _ hc
  · intro x hx
    rw [hlen] at hx
    by_cases hxe : x = nid
    · subst hxe
      rw [hnnew]
      simp only [optAll_some]
      have hploc : n.generate_.fullOf = nbase.generate_.fullOf := rfl
      rw [hploc]
      cases hfl : nbase.generate_.fullOf with
      | none => exact trivial
      | some g =>
        simp only [optAll_some, indexGet_cons, if_pos rfl, optIs_some]
        exact hvnew
    · have hxlt : x < s.file_nodes_.length := by omega
      rw [hnold _ hxlt]
      have hc := h8 x hxlt
      cases hnd : s.nodeAt x with
      | none => exact trivial
      | some m =>
        rw [hnd] at hc
        simp only [optAll_some] at hc ⊢
        cases hfm : m.generate_.fullOf with
        | none => exact trivial
        | some g' =>
          rw [hfm] at hc
          simp only [optAll_some] at hc ⊢
          cases hfl : nbase.generate_.fullOf with
          | none =>
            cases hidx : indexGet s.generate_location_to_file_id_ g' with
            | none => rw [hidx] at hc; exact hc
            | some fidx =>
              rw [hidx] at hc
              simp only [optIs_some] at hc ⊢
              exact hvold _ _ hc
          | some g =>
            have hne : g ≠ g' := by
              intro he
              subst he
              rw [hG g hfl] at hc
              exact hc
            rw [indexGet_cons, if_neg hne]
            cases hidx : indexGet s.generate_location_to_file_id_ g' with
            | none => rw [hidx] at hc; exact hc
            | some fidx =>
              rw [hidx] at hc
              simp only [optIs_some] at hc ⊢
              exact hvold _ _ hc
  · intro p hp
    have hp' : p ∈ s.queries_container_ := hp
    have hc := h9 p hp'
    refine ⟨hc.1, ?_, ?_⟩
    · rw [hnx]
      exact hc.2.1
    · have hc3 := hc.2.2
      cases hgf : s.get_file_node p.2.file_id_ with
      | none => rw [hgf] at hc3; exact absurd hc3 id
      | some pr =>
        rw [hmono _ _ hgf]
        rw [hgf] at hc3
        exact hc3
  · intro x hx
    rw [hlen] at hx
    by_cases hxe : x = nid
    · subst hxe
      rw [hnnew]
      simp only [optAll_some]
      intro k
      left
      show nbase.queryIdOfKind k = 0
      cases k with
      | download => exact hdl
      | upload => exact hul
      | generate => exact hgl
    · have hxlt : x < s.file_nodes_.length := by omega
      rw [hnold _ hxlt]
      have hc := h10 x hxlt
      cases hnd : s.nodeAt x with
      | none => exact trivial
      | some m =>
        rw [hnd] at hc
        simp only [optAll_some] at hc ⊢
        intro k
        rcases hc k with h0 | hrest
        · exact Or.inl h0
        · right
          rw [hqc]
          cases hidx : indexGet s.queries_container_ (m.queryIdOfKind k) with
          | none => rw [hidx] at hrest; exact hrest
          | some q =>
            rw [hidx] at hrest
            simp only [optIs_some] at hrest ⊢
            refine ⟨hrest.1, ?_⟩
            have hr2 := hrest.2
            cases hgf : s.get_file_node q.file_id_ with
            | none => rw [hgf] at hr2; exact absurd hr2 id
            | some pr =>
              rw [hmono _ _ hgf]
              rw [hgf] at hr2
              exact hr2

theorem setQueryIdOfKind_main (n : FileNode) (k : WorkerKind) (v : Nat) :
    (n.setQueryIdOfKind k v).main_file_id_ = n.main_file_id_ := by
  cases k <;> rfl

theorem setQueryIdOfKind_local (n : FileNode) (k : WorkerKind) (v : Nat) :
    (n.setQueryIdOfKind k v).local_ = n.local_ := by
  cases k <;> rfl

theorem setQueryIdOfKind_remote (n : FileNode) (k : WorkerKind) (v : Nat) :
    (n.setQueryIdOfKind k v).remote_ = n.remote_ := by
  cases k <;> rfl

theorem setQueryIdOfKind_generate (n : FileNode) (k : WorkerKind) (v : Nat) :
    (n.setQueryIdOfKind k v).generate_ = n.generate_ := by
  cases k <;> rfl

theorem queryIdOfKind_setQueryIdOfKind (n : FileNode) (k : WorkerKind) (v : Nat)
    (k' : WorkerKind) :
    (n.setQueryIdOfKind k v).queryIdOfKind k' = if k' = k then v else n.queryIdOfKind k' := by
  cases k <;> cases k' <;> simp [FileNode.setQueryIdOfKind, FileNode.queryIdOfKind]

theorem optIs_fst_setNodeAt {s : FileManager} {i : Nat} {m : FileNode}
    (hni : s.nodeAt i = some m) (n' : FileNode) (fid j : Nat) :
    optIs ((s.setNodeAt i n').get_file_node fid) (fun pr => pr.1 = j) ↔
      optIs (s.get_file_node fid) (fun pr => pr.1 = j) := by
  rw [get_file_node_setNodeAt hni]
  cases s.get_file_node fid with
  | none => exact Iff.rfl
  | some pr =>
    obtain ⟨j₀, m₀⟩ := pr
    by_cases hj₀ : j₀ = i
    · simp [hj₀]
    · simp [hj₀]

theorem inv_startQuery {s : FileManager} {i : Nat} {ty : QueryType}
    (hslot : optAll (s.nodeAt i) (fun n => n.queryIdOfKind (kindOfQueryType ty) = 0))
    (h : Inv s) : Inv (startQuery s i ty) := by
  unfold startQuery
  cases hnd : s.nodeAt i with
  | none => exact h
  | some n =>
    rw [hnd] at hslot
    simp only [optAll_some] at hslot
    obtain ⟨h1, h2, h3, h4, h5, h6, h7, h8, h9, h10⟩ := h
    have hInv : Inv s := ⟨h1, h2, h3, h4, h5, h6, h7, h8, h9, h10⟩
    have h2' : 1 ≤ s.next_query_id_ := h2
    set k0 := kindOfQueryType ty with hk0
    set qid := s.next_query_id_ with hqid
    set q0 : Query := { file_id_ := n.main_file_id_, type_ := ty } with hq0
    set s₁ : FileManager := { s with
      queries_container_ := (qid, q0) :: s.queries_container_,
      next_query_id_ := qid + 1 } with hs₁
    set n' := n.setQueryIdOfKind k0 qid with hn'
    show Inv (s₁.setNodeAt i n')
    have hnd₁ : s₁.nodeAt i = some n := hnd
    have hgfn := get_file_node_setNodeAt hnd₁ n'
    have hgf1 : ∀ fid, s₁.get_file_node fid = s.get_file_node fid := fun _ => rfl
    have hid : ∀ fid, (s₁.setNodeAt i n').nodeIdOf fid = s.nodeIdOf fid := fun _ => rfl
    have hlen : (s₁.setNodeAt i n').file_nodes_.length = s.file_nodes_.length := by
      rw [length_setNodeAt]
    have hmain : s.nodeIdOf n.main_file_id_ = some i := by
      have hc := h1 i (nodeAt_lt_length hnd)
      rw [hnd] at hc
      exact hc
    have hnewnode : (s₁.setNodeAt i n').nodeAt i = some n' := nodeAt_setNodeAt_self n' hnd₁
    have hgetnew : (s₁.setNodeAt i n').get_file_node n.main_file_id_ = some (i, n') :=
      get_file_node_eq_some.mpr ⟨hmain, hnewnode⟩
    have hqc : (s₁.setNodeAt i n').queries_container_ =
        (qid, q0) :: s.queries_container_ := rfl
    have hnext : (s₁.setNodeAt i n').next_query_id_ = qid + 1 := rfl
    constructor
    · intro x hx
      rw [hlen] at hx
      by_cases hxe : x = i
      · subst hxe
        rw [hnewnode]
        simp only [optAll_some]
        rw [hid, hn', setQueryIdOfKind_main]
        exact hmain
      · rw [nodeAt_setNodeAt_ne n' hxe, show s₁.nodeAt x = s.nodeAt x from rfl]
        have hc := h1 x hx
        cases hnx : s.nodeAt x with
        | none => exact trivial
        | some m =>
          rw [hnx] at hc
          simp only [optAll_some] at hc ⊢
          rw [hid]
          exact hc
    · show 1 ≤ qid + 1
      omega
    · intro p hp
      have hc := h3 p hp
      rw [hgfn]
      cases hgf : s.get_file_node p.2 with
      | none =>
        rw [hgf1, hgf]
        rw [hgf] at hc
        exact absurd hc id
      | some pr =>
        rw [hgf] at hc
        rw [hgf1, hgf]
        obtain ⟨j, m'⟩ := pr
        simp only [optIs_some] at hc
        by_cases hji : j = i
        · subst hji
          have hm' : m' = n := by
            have h' := (get_file_node_eq_some.mp hgf).2
            rw [hnd] at h'
            injection h' with h''
            exact h''.symm
          subst hm'
          simp only [if_pos rfl, optIs_some]
          show n'.local_ = LocalFileLocation.full p.1
          rw [hn', setQueryIdOfKind_local]
          exact hc
        · simp only [if_neg hji, optIs_some]
          exact hc
    · intro p hp
      have hc := h4 p hp
      rw [hgfn]
      cases hgf : s.get_file_node p.2 with
      | none =>
        rw [hgf1, hgf]
        rw [hgf] at hc
        exact absurd hc id
      | some pr =>
        rw [hgf] at hc
        rw [hgf1, hgf]
        obtain ⟨j, m'⟩ := pr
        simp only [optIs_some] at hc
        by_cases hji : j = i
        · subst hji
          have hm' : m' = n := by
            have h' := (get_file_node_eq_some.mp hgf).2
            rw [hnd] at h'
            injection h' with h''
            exact h''.symm
          subst hm'
          simp only [if_pos rfl, optIs_some]
          show n'.remote_ = RemoteFileLocation.full p.1
          rw [hn', setQueryIdOfKind_remote]
          exact hc
        · simp only [if_neg hji, optIs_some]
          exact hc
    · intro p hp
      have hc := h5 p hp
      rw [hgfn]
      cases hgf : s.get_file_node p.2 with
      | none =>
        rw [hgf1, hgf]
        rw [hgf] at hc
        exact absurd hc id
      | some pr =>
        rw [hgf] at hc
        rw [hgf1, hgf]
        obtain ⟨j, m'⟩ := pr
        simp only [optIs_some] at hc
        by_cases hji : j = i
        · subst hji
          have hm' : m' = n := by
            have h' := (get_file_node_eq_some.mp hgf).2
            rw [hnd] at h'
            injection h' with h''
            exact h''.symm
          subst hm'
          simp only [if_pos rfl, optIs_some]
          show n'.generate_ = GenerateFileLocation.full p.1
          rw [hn', setQueryIdOfKind_generate]
          exact hc
        · simp only [if_neg hji, optIs_some]
          exact hc
    · intro x hx
      rw [hlen] at hx
      have hloc : (s₁.setNodeAt i n').local_location_to_file_id_ =
          s.local_location_to_file_id_ := rfl
      by_cases hxe : x = i
      · subst hxe
        rw [hnewnode]
        have hc := h6 x (nodeAt_lt_length hnd)
        rw [hnd] at hc
        simp only [optAll_some] at hc ⊢
        rw [hn', setQueryIdOfKind_local, hloc]
        cases hful : n.local_.fullOf with
        | none => exact trivial
        | some l =>
          rw [hful] at hc
          simp only [optAll_some] at hc ⊢
          cases hidx : indexGet s.local_location_to_file_id_ l with
          | none => rw [hidx] at hc; exact hc
          | some fidl =>
            rw [hidx] at hc
            simp only [optIs_some] at hc ⊢
            rw [hid]
            exact hc
      · rw [nodeAt_setNodeAt_ne n' hxe, show s₁.nodeAt x = s.nodeAt x from rfl]
        have hc := h6 x hx
        cases hnx : s.nodeAt x with
        | none => exact trivial
        | some m =>
          rw [hnx] at hc
          simp only [optAll_some] at hc ⊢
          rw [hloc]
          cases hful : m.local_.fullOf with
          | none => exact trivial
          | some l =>
            rw [hful] at hc
            simp only [optAll_some] at hc ⊢
            cases hidx : indexGet s.local_location_to_file_id_ l with
            | none => rw [hidx] at hc; exact hc
            | some fidl =>
              rw [hidx] at hc
              simp only [optIs_some] at hc ⊢
              rw [hid]
              exact hc
    · intro x hx
      rw [hlen] at hx
      have hloc : (s₁.setNodeAt i n').remote_location_to_file_id_ =
          s.remote_location_to_file_id_ := rfl
      by_cases hxe : x = i
      · subst hxe
        rw [hnewnode]
        have hc := h7 x (nodeAt_lt_length hnd)
        rw [hnd] at hc
        simp only [optAll_some] at hc ⊢
        rw [hn', setQueryIdOfKind_remote, hloc]
        cases hful : n.remote_.fullOf with
        | none => exact trivial
        | some r =>
          rw [hful] at hc
          simp only [optAll_some] at hc ⊢
          cases hidx : indexGet s.remote_location_to_file_id_ r with
          | none => rw [hidx] at hc; exact hc
          | some fidl =>
            rw [hidx] at hc
            simp only [optIs_some] at hc ⊢
            rw [hid]
            exact hc
      · rw [nodeAt_setNodeAt_ne n' hxe, show s₁.nodeAt x = s.nodeAt x from rfl]
        have hc := h7 x hx
        cases hnx : s.nodeAt x with
        | none => exact trivial
        | some m =>
          rw [hnx] at hc
          simp only [optAll_some] at hc ⊢
          rw [hloc]
          cases hful : m.remote_.fullOf with
          | none => exact trivial
          | some r =>
            rw [hful] at hc
            simp only [optAll_some] at hc ⊢
            cases hidx : indexGet s.remote_location_to_file_id_ r with
            | none => rw [hidx] at hc; exact hc
            | some fidl =>
              rw [hidx] at hc
              simp only [optIs_some] at hc ⊢
              rw [hid]
              exact hc
    · intro x hx
      rw [hlen] at hx
      have hloc : (s₁.setNodeAt i n').generate_location_to_file_id_ =
          s.generate_location_to_file_id_ := rfl
      by_cases hxe : x = i
      · subst hxe
        rw [hnewnode]
        have hc := h8 x (nodeAt_lt_length hnd)
        rw [hnd] at hc
        simp only [optAll_some] at hc ⊢
        rw [hn', setQueryIdOfKind_generate, hloc]
        cases hful : n.generate_.fullOf with
        | none => exact trivial
        | some g =>
          rw [hful] at hc
          simp only [optAll_some] at hc ⊢
          cases hidx : indexGet s.generate_location_to_file_id_ g with
          | none => rw [hidx] at hc; exact hc
          | some fidl =>
            rw [hidx] at hc
            simp only [optIs_some] at hc ⊢
            rw [hid]
            exact hc
      · rw [nodeAt_setNodeAt_ne n' hxe, show s₁.nodeAt x = s.nodeAt x from rfl]
        have hc := h8 x hx
        cases hnx : s.nodeAt x with
        | none => exact trivial
        | some m =>
          rw [hnx] at hc
          simp only [optAll_some] at hc ⊢
          rw [hloc]
          cases hful : m.generate_.fullOf with
          | none => exact trivial
          | some g =>
            rw [hful] at hc
            simp only [optAll_some] at hc ⊢
            cases hidx : indexGet s.generate_location_to_file_id_ g with
            | none => rw [hidx] at hc; exact hc
            | some fidl =>
              rw [hidx] at hc
              simp only [optIs_some] at hc ⊢
              rw [hid]
              exact hc
    · intro p hp
      have hp' : p ∈ (qid, q0) :: s.queries_container_ := hp
      rcases List.mem_cons.mp hp' with hph | hpt
      · subst hph
        refine ⟨?_, ?_, ?_⟩
        · show qid ≠ 0
          intro h0
          rw [hqid] at h0
          omega
        · show qid < (s₁.setNodeAt i n').next_query_id_
          rw [hnext]
          omega
        · show optIs ((s₁.setNodeAt i n').get_file_node q0.file_id_) (fun pr =>
            pr.2.queryIdOfKind (kindOfQueryType q0.type_) = qid)
          rw [show q0.file_id_ = n.main_file_id_ from rfl, hgetnew]
          simp only [optIs_some]
          show n'.queryIdOfKind (kindOfQueryType q0.type_) = qid
          rw [show kindOfQueryType q0.type_ = k0 from rfl, hn',
            queryIdOfKind_setQueryIdOfKind, if_pos rfl]
      · have hc := h9 p hpt
        refine ⟨hc.1, by rw [hnext, hqid]; have := hc.2.1; omega, ?_⟩
        have hc3 := hc.2.2
        rw [hgfn]
        cases hgf : s.get_file_node p.2.file_id_ with
        | none => rw [hgf] at hc3; exact absurd hc3 id
        | some pr =>
          rw [hgf] at hc3
          rw [hgf1, hgf]
          obtain ⟨j, m'⟩ := pr
          simp only [optIs_some] at hc3
          by_cases hji : j = i
          · subst hji
            have hm' : m' = n := by
              have h' := (get_file_node_eq_some.mp hgf).2
              rw [hnd] at h'
              injection h' with h''
              exact h''.symm
            subst hm'
            simp only [if_pos rfl, optIs_some]
            show n'.queryIdOfKind (kindOfQueryType p.2.type_) = p.1
            rw [hn', queryIdOfKind_setQueryIdOfKind]
            by_cases hkk : kindOfQueryType p.2.type_ = k0
            · rw [hkk] at hc3
              rw [hslot] at hc3
              exact absurd hc3.symm hc.1
            · rw [if_neg hkk]
              exact hc3
          · simp only [if_neg hji, optIs_some]
            exact hc3
    · intro x hx
      rw [hlen] at hx
      have htr : ∀ fid j, optIs ((s₁.setNodeAt i n').get_file_node fid) (fun pr => pr.1 = j) ↔
          optIs (s.get_file_node fid) (fun pr => pr.1 = j) := by
        intro fid j
        rw [optIs_fst_setNodeAt hnd₁ n' fid j]
        exact Iff.rfl
      by_cases hxe : x = i
      · subst hxe
        rw [hnewnode]
        simp only [optAll_some]
        intro k
        rw [hn', queryIdOfKind_setQueryIdOfKind]
        by_cases hkk : k = k0
        · rw [if_pos hkk]
          right
          rw [hqc, indexGet_cons, if_pos rfl]
          simp only [optIs_some]
          refine ⟨by rw [hkk], ?_⟩
          have hget2 : (s₁.setNodeAt x (n.setQueryIdOfKind k0 qid)).get_file_node
              n.main_file_id_ = some (x, n') := hgetnew
          rw [hget2]
          simp only [optIs_some]
        · rw [if_neg hkk]
          have hc := h10 x (nodeAt_lt_length hnd)
          rw [hnd] at hc
          simp only [optAll_some] at hc
          rcases hc k with h0 | hrest
          · exact Or.inl h0
          · right
            have hknz : n.queryIdOfKind k ≠ 0 := by
              intro h0'
              rw [h0'] at hrest
              cases hidx : indexGet s.queries_container_ 0 with
              | none => rw [hidx] at hrest; exact hrest
              | some q =>
                rw [hidx] at hrest
                exact (h9 _ (indexGet_eq_some_mem hidx)).1 rfl
            have hlt := slot_lt_next hInv hnd hknz
            rw [hqc, indexGet_cons, if_neg (by rw [hqid]; omega)]
            cases hidx : indexGet s.queries_container_ (n.queryIdOfKind k) with
            | none => rw [hidx] at hrest; exact hrest
            | some q =>
              rw [hidx] at hrest
              simp only [optIs_some] at hrest ⊢
              exact ⟨hrest.1, (htr q.file_id_ x).mpr hrest.2⟩
      · rw [nodeAt_setNodeAt_ne n' hxe, show s₁.nodeAt x = s.nodeAt x from rfl]
        cases hnx : s.nodeAt x with
        | none => exact trivial
        | some m =>
          have hc := h10 x hx
          rw [hnx] at hc
          simp only [optAll_some] at hc ⊢
          intro k
          rcases hc k with h0 | hrest
          · exact Or.inl h0
          · right
            have hknz : m.queryIdOfKind k ≠ 0 := by
              intro h0'
              rw [h0'] at hrest
              cases hidx : indexGet s.queries_container_ 0 with
              | none => rw [hidx] at hrest; exact hrest
              | some q =>
                rw [hidx] at hrest
                exact (h9 _ (indexGet_eq_some_mem hidx)).1 rfl
            have hlt := slot_lt_next hInv hnx hknz
            rw [hqc, indexGet_cons, if_neg (by rw [hqid]; omega)]
            cases hidx : indexGet s.queries_container_ (m.queryIdOfKind k) with
            | none => rw [hidx] at hrest; exact hrest
            | some q =>
              rw [hidx] at hrest
              simp only [optIs_some] at hrest ⊢
              exact ⟨hrest.1, (htr q.file_id_ x).mpr hrest.2⟩

theorem inv_removeSlot {s : FileManager} {i : Nat} {n : FileNode} {k : WorkerKind}
    (hni : s.nodeAt i = some n) (hnz : n.queryIdOfKind k ≠ 0) (h : Inv s) :
    Inv ((s.removeQuery (n.queryIdOfKind k)).setNodeAt i (n.setQueryIdOfKind k 0)) := by
  obtain ⟨h1, h2, h3, h4, h5, h6, h7, h8, h9, h10⟩ := h
  have hInv : Inv s := ⟨h1, h2, h3, h4, h5, h6, h7, h8, h9, h10⟩
  set qid := n.queryIdOfKind k with hqid
  set s₁ : FileManager := s.removeQuery qid with hs₁
  set n' := n.setQueryIdOfKind k 0 with hn'
  have hnd₁ : s₁.nodeAt i = some n := hni
  have hgfn := get_file_node_setNodeAt hnd₁ n'
  have hgf1 : ∀ fid, s₁.get_file_node fid = s.get_file_node fid := fun _ => rfl
  have hid : ∀ fid, (s₁.setNodeAt i n').nodeIdOf fid = s.nodeIdOf fid := fun _ => rfl
  have hlen : (s₁.setNodeAt i n').file_nodes_.length = s.file_nodes_.length := by
    rw [length_setNodeAt]
    rfl
  have hqc : (s₁.setNodeAt i n').queries_container_ =
      indexErase s.queries_container_ qid := rfl
  have hnext : (s₁.setNodeAt i n').next_query_id_ = s.next_query_id_ := rfl
  have hnewnode : (s₁.setNodeAt i n').nodeAt i = some n' := nodeAt_setNodeAt_self n' hnd₁
  have htr : ∀ fid j, optIs ((s₁.setNodeAt i n').get_file_node fid) (fun pr => pr.1 = j) ↔
      optIs (s.get_file_node fid) (fun pr => pr.1 = j) := by
    intro fid j
    rw [optIs_fst_setNodeAt hnd₁ n' fid j]
    exact Iff.rfl
  constructor
  · intro x hx
    rw [hlen] at hx
    by_cases hxe : x = i
    · subst hxe
      rw [hnewnode]
      simp only [optAll_some]
      rw [hid, hn', setQueryIdOfKind_main]
      have hc := h1 x hx
      rw [hni] at hc
      exact hc
    · rw [nodeAt_setNodeAt_ne n' hxe, show s₁.nodeAt x = s.nodeAt x from rfl]
      have hc := h1 x hx
      cases hnx : s.nodeAt x with
      | none => exact trivial
      | some m =>
        rw [hnx] at hc
        simp only [optAll_some] at hc ⊢
        rw [hid]
        exact hc
  · show 1 ≤ (s₁.setNodeAt i n').next_query_id_
    rw [hnext]
    exact h2
  · intro p hp
    have hc := h3 p hp
    rw [hgfn]
    cases hgf : s.get_file_node p.2 with
    | none =>
      rw [hgf1, hgf]
      rw [hgf] at hc
      exact absurd hc id
    | some pr =>
      rw [hgf] at hc
      rw [hgf1, hgf]
      obtain ⟨j, m'⟩ := pr
      simp only [optIs_some] at hc
      by_cases hji : j = i
      · subst hji
        have hm' : m' = n := by
          have h' := (get_file_node_eq_some.mp hgf).2
          rw [hni] at h'
          injection h' with h''
          exact h''.symm
        subst hm'
        simp only [if_pos rfl, optIs_some]
        show n'.local_ = LocalFileLocation.full p.1
        rw [hn', setQueryIdOfKind_local]
        exact hc
      · simp only [if_neg hji, optIs_some]
        exact hc
  · intro p hp
    have hc := h4 p hp
    rw [hgfn]
    cases hgf : s.get_file_node p.2 with
    | none =>
      rw [hgf1, hgf]
      rw [hgf] at hc
      exact absurd hc id
    | some pr =>
      rw [hgf] at hc
      rw [hgf1, hgf]
      obtain ⟨j, m'⟩ := pr
      simp only [optIs_some] at hc
      by_cases hji : j = i
      · subst hji
        have hm' : m' = n := by
          have h' := (get_file_node_eq_some.mp hgf).2
          rw [hni] at h'
          injection h' with h''
          exact h''.symm
        subst hm'
        simp only [if_pos rfl, optIs_some]
        show n'.remote_ = RemoteFileLocation.full p.1
        rw [hn', setQueryIdOfKind_remote]
        exact hc
      · simp only [if_neg hji, optIs_some]
        exact hc
  · intro p hp
    have hc := h5 p hp
    rw [hgfn]
    cases hgf : s.get_file_node p.2 with
    | none =>
      rw [hgf1, hgf]
      rw [hgf] at hc
      exact absurd hc id
    | some pr =>
      rw [hgf] at hc
      rw [hgf1, hgf]
      obtain ⟨j, m'⟩ := pr
      simp only [optIs_some] at hc
      by_cases hji : j = i
      · subst hji
        have hm' : m' = n := by
          have h' := (get_file_node_eq_some.mp hgf).2
          rw [hni] at h'
          injection h' with h''
          exact h''.symm
        subst hm'
        simp only [if_pos rfl, optIs_some]
        show n'.generate_ = GenerateFileLocation.full p.1
        rw [hn', setQueryIdOfKind_generate]
        exact hc
      · simp only [if_neg hji, optIs_some]
        exact hc
  · intro x hx
    rw [hlen] at hx
    have hloc : (s₁.setNodeAt i n').local_location_to_file_id_ =
        s.local_location_to_file_id_ := rfl
    by_cases hxe : x = i
    · subst hxe
      rw [hnewnode]
      have hc := h6 x hx
      rw [hni] at hc
      simp only [optAll_some] at hc ⊢
      rw [hn', setQueryIdOfKind_local, hloc]
      cases hful : n.local_.fullOf with
      | none => exact trivial
      | some l =>
        rw [hful] at hc
        simp only [optAll_some] at hc ⊢
        cases hidx : indexGet s.local_location_to_file_id_ l with
        | none => rw [hidx] at hc; exact hc
        | some fidl =>
          rw [hidx] at hc
          simp only [optIs_some] at hc ⊢
          rw [hid]
          exact hc
    · rw [nodeAt_setNodeAt_ne n' hxe, show s₁.nodeAt x = s.nodeAt x from rfl]
      have hc := h6 x hx
      cases hnx : s.nodeAt x with
      | none => exact trivial
      | some m =>
        rw [hnx] at hc
        simp only [optAll_some] at hc ⊢
        rw [hloc]
        cases hful : m.local_.fullOf with
        | none => exact trivial
        | some l =>
          rw [hful] at hc
          simp only [optAll_some] at hc ⊢
          cases hidx : indexGet s.local_location_to_file_id_ l with
          | none => rw [hidx] at hc; exact hc
          | some fidl =>
            rw [hidx] at hc
            simp only [optIs_some] at hc ⊢
            rw [hid]
            exact hc
  · intro x hx
    rw [hlen] at hx
    have hloc : (s₁.setNodeAt i n').remote_location_to_file_id_ =
        s.remote_location_to_file_id_ := rfl
    by_cases hxe : x = i
    · subst hxe
      rw [hnewnode]
      have hc := h7 x hx
      rw [hni] at hc
      simp only [optAll_some] at hc ⊢
      rw [hn', setQueryIdOfKind_remote, hloc]
      cases hful : n.remote_.fullOf with
      | none => exact trivial
      | some r =>
        rw [hful] at hc
        simp only [optAll_some] at hc ⊢
        cases hidx : indexGet s.remote_location_to_file_id_ r with
        | none => rw [hidx] at hc; exact hc
        | some fidl =>
          rw [hidx] at hc
          simp only [optIs_some] at hc ⊢
          rw [hid]
          exact hc
    · rw [nodeAt_setNodeAt_ne n' hxe, show s₁.nodeAt x = s.nodeAt x from rfl]
      have hc := h7 x hx
      cases hnx : s.nodeAt x with
      | none => exact trivial
      | some m =>
        rw [hnx] at hc
        simp only [optAll_some] at hc ⊢
        rw [hloc]
        cases hful : m.remote_.fullOf with
        | none => exact trivial
        | some r =>
          rw [hful] at hc
          simp only [optAll_some] at hc ⊢
          cases hidx : indexGet s.remote_location_to_file_id_ r with
          | none => rw [hidx] at hc; exact hc
          | some fidl =>
            rw [hidx] at hc
            simp only [optIs_some] at hc ⊢
            rw [hid]
            exact hc
  · intro x hx
    rw [hlen] at hx
    have hloc : (s₁.setNodeAt i n').generate_location_to_file_id_ =
        s.generate_location_to_file_id_ := rfl
    by_cases hxe : x = i
    · subst hxe
      rw [hnewnode]
      have hc := h8 x hx
      rw [hni] at hc
      simp only [optAll_some] at hc ⊢
      rw [hn', setQueryIdOfKind_generate, hloc]
      cases hful : n.generate_.fullOf with
      | none => exact trivial
      | some g =>
        rw [hful] at hc
        simp only [optAll_some] at hc ⊢
        cases hidx : indexGet s.generate_location_to_file_id_ g with
        | none => rw [hidx] at hc; exact hc
        | some fidl =>
          rw [hidx] at hc
          simp only [optIs_some] at hc ⊢
          rw [hid]
          exact hc
    · rw [nodeAt_setNodeAt_ne n' hxe, show s₁.nodeAt x = s.nodeAt x from rfl]
      have hc := h8 x hx
      cases hnx : s.nodeAt x with
      | none => exact trivial
      | some m =>
        rw [hnx] at hc
        simp only [optAll_some] at hc ⊢
        rw [hloc]
        cases hful : m.generate_.fullOf with
        | none => exact trivial
        | some g =>
          rw [hful] at hc
          simp only [optAll_some] at hc ⊢
          cases hidx : indexGet s.generate_location_to_file_id_ g with
          | none => rw [hidx] at hc; exact hc
          | some fidl =>
            rw [hidx] at hc
            simp only [optIs_some] at hc ⊢
            rw [hid]
            exact hc
  · intro p hp
    have hp' : p ∈ indexErase s.queries_container_ qid := hp
    obtain ⟨hpt, hpne⟩ := mem_indexErase.mp hp'
    have hc := h9 p hpt
    refine ⟨hc.1, by rw [hnext]; exact hc.2.1, ?_⟩
    have hc3 := hc.2.2
    rw [hgfn]
    cases hgf : s.get_file_node p.2.file_id_ with
    | none =>
      rw [hgf1, hgf]
      rw [hgf] at hc3
      exact absurd hc3 id
    | some pr =>
      rw [hgf] at hc3
      rw [hgf1, hgf]
      obtain ⟨j, m'⟩ := pr
      simp only [optIs_some] at hc3
      by_cases hji : j = i
      · subst hji
        have hm' : m' = n := by
          have h' := (get_file_node_eq_some.mp hgf).2
          rw [hni] at h'
          injection h' with h''
          exact h''.symm
        subst hm'
        simp only [if_pos rfl, optIs_some]
        show n'.queryIdOfKind (kindOfQueryType p.2.type_) = p.1
        rw [hn', queryIdOfKind_setQueryIdOfKind]
        by_cases hkk : kindOfQueryType p.2.type_ = k
        · rw [hkk] at hc3
          have hp1 : p.1 = qid := by rw [← hc3, hqid]
          exact absurd hp1 hpne
        · rw [if_neg hkk]
          exact hc3
      · simp only [if_neg hji, optIs_some]
        exact hc3
  · intro x hx
    rw [hlen] at hx
    by_cases hxe : x = i
    · subst hxe
      rw [hnewnode]
      simp only [optAll_some]
      intro k'
      rw [hn', queryIdOfKind_setQueryIdOfKind]
      by_cases hkk : k' = k
      · rw [if_pos hkk]
        exact Or.inl rfl
      · rw [if_neg hkk]
        have hc := h10 x hx
        rw [hni] at hc
        simp only [optAll_some] at hc
        rcases hc k' with h0 | hrest
        · exact Or.inl h0
        · right
          have hknz : n.queryIdOfKind k' ≠ 0 := by
            intro h0'
            rw [h0'] at hrest
            cases hidx : indexGet s.queries_container_ 0 with
            | none => rw [hidx] at hrest; exact hrest
            | some q =>
              rw [hidx] at hrest
              exact (h9 _ (indexGet_eq_some_mem hidx)).1 rfl
          have hne : n.queryIdOfKind k' ≠ qid := by
            intro he
            rw [hqid] at he
            obtain ⟨-, hkeq⟩ := slot_inj hInv hni hni hknz hnz he
            exact hkk hkeq
          rw [hqc, indexGet_indexErase_ne _ hne]
          cases hidx : indexGet s.queries_container_ (n.queryIdOfKind k') with
          | none => rw [hidx] at hrest; exact hrest
          | some q =>
            rw [hidx] at hrest
            simp only [optIs_some] at hrest ⊢
            exact ⟨hrest.1, (htr q.file_id_ x).mpr hrest.2⟩
    · rw [nodeAt_setNodeAt_ne n' hxe, show s₁.nodeAt x = s.nodeAt x from rfl]
      cases hnx : s.nodeAt x with
      | none => exact trivial
      | some m =>
        have hc := h10 x hx
        rw [hnx] at hc
        simp only [optAll_some] at hc ⊢
        intro k'
        rcases hc k' with h0 | hrest
        · exact Or.inl h0
        · right
          have hknz : m.queryIdOfKind k' ≠ 0 := by
            intro h0'
            rw [h0'] at hrest
            cases hidx : indexGet s.queries_container_ 0 with
            | none => rw [hidx] at hrest; exact hrest
            | some q =>
              rw [hidx] at hrest
              exact (h9 _ (indexGet_eq_some_mem hidx)).1 rfl
          have hne : m.queryIdOfKind k' ≠ qid := by
            intro he
            rw [hqid] at he
            obtain ⟨hxi, -⟩ := slot_inj hInv hnx hni hknz hnz he
            exact hxe hxi
          rw [hqc, indexGet_indexErase_ne _ hne]
          cases hidx : indexGet s.queries_container_ (m.queryIdOfKind k') with
          | none => rw [hidx] at hrest; exact hrest
          | some q =>
            rw [hidx] at hrest
            simp only [optIs_some] at hrest ⊢
            exact ⟨hrest.1, (htr q.file_id_ x).mpr hrest.2⟩

theorem inv_cancelQuery {s : FileManager} (i : Nat) (k : WorkerKind) (h : Inv s) :
    Inv (cancelQuery s i k) := by
  unfold cancelQuery
  cases hnd : s.nodeAt i with
  | none => exact h
  | some n =>
    show Inv (if n.queryIdOfKind k = 0 then s
      else (s.removeQuery (n.queryIdOfKind k)).setNodeAt i (n.setQueryIdOfKind k 0))
    by_cases hz : n.queryIdOfKind k = 0
    · rw [if_pos hz]
      exact h
    · rw [if_neg hz]
      exact inv_removeSlot hnd hz h

theorem inv_finishQueryOnNode {s : FileManager} (qid : Nat) (h : Inv s) :
    Inv (s.finishQueryOnNode qid).2 := by
  unfold finishQueryOnNode
  cases hq : indexGet s.queries_container_ qid with
  | none => exact h
  | some q =>
    have hmem := indexGet_eq_some_mem hq
    obtain ⟨hnz, hlt, hres⟩ := h.queries_ok _ hmem
    cases hgf : s.get_file_node q.file_id_ with
    | none => rw [hgf] at hres; exact absurd hres id
    | some pr =>
      rw [hgf] at hres
      simp only [optIs_some] at hres
      have hgf1 : (s.removeQuery qid).get_file_node q.file_id_ = some pr := hgf
      show Inv ((match (s.removeQuery qid).get_file_node q.file_id_ with
        | none => ((none : Option (Query × Nat)), s.removeQuery qid)
        | some (i, n) => (some (q, i),
            (s.removeQuery qid).setNodeAt i
              (n.setQueryIdOfKind (kindOfQueryType q.type_) 0))).2)
      rw [hgf1]
      obtain ⟨i, n⟩ := pr
      have hni : s.nodeAt i = some n := (get_file_node_eq_some.mp hgf).2
      have hcore := inv_removeSlot hni (by rw [hres]; exact hnz) h
      rw [hres] at hcore
      exact hcore

/-- Invariance under local-location surgery: a state change that keeps the
handle table, the remote and generate indices and the queries, preserves
every node's remote and generate locations, main handle and query slots,
and whose effect on the local index is accounted for by directly supplied
soundness and completeness proofs. -/
theorem inv_local_surgery {s s' : FileManager}
    (hn_len : s'.file_nodes_.length = s.file_nodes_.length)
    (hid : ∀ fid, s'.nodeIdOf fid = s.nodeIdOf fid)
    (hrem : s'.remote_location_to_file_id_ = s.remote_location_to_file_id_)
    (hgen : s'.generate_location_to_file_id_ = s.generate_location_to_file_id_)
    (hq : s'.queries_container_ = s.queries_container_)
    (hx : s'.next_query_id_ = s.next_query_id_)
    (hnodes : ∀ x m, s.nodeAt x = some m → ∃ m', s'.nodeAt x = some m' ∧
      m'.remote_ = m.remote_ ∧ m'.generate_ = m.generate_ ∧
      m'.main_file_id_ = m.main_file_id_ ∧ ∀ k, m'.queryIdOfKind k = m.queryIdOfKind k)
    (hdead : ∀ x, s.nodeAt x = none → s'.nodeAt x = none)
    (hsound : LocalIndexOK s') (hcomplete : LocalCompleteOK s')
    (h : Inv s) : Inv s' := by
  obtain ⟨h1, h2, h3, h4, h5, h6, h7, h8, h9, h10⟩ := h
  have hget : ∀ fid j m, s.get_file_node fid = some (j, m) →
      ∃ m', s'.get_file_node fid = some (j, m') ∧
        m'.remote_ = m.remote_ ∧ m'.generate_ = m.generate_ ∧
        m'.main_file_id_ = m.main_file_id_ ∧
        ∀ k, m'.queryIdOfKind k = m.queryIdOfKind k := by
    intro fid j m hg
    obtain ⟨hg1, hg2⟩ := get_file_node_eq_some.mp hg
    obtain ⟨m', hm', hc⟩ := hnodes j m hg2
    exact ⟨m', get_file_node_eq_some.mpr ⟨by rw [hid]; exact hg1, hm'⟩, hc⟩
  have htr : ∀ fid j, optIs (s.get_file_node fid) (fun pr => pr.1 = j) →
      optIs (s'.get_file_node fid) (fun pr => pr.1 = j) := by
    intro fid j hopt
    cases hgf : s.get_file_node fid with
    | none => rw [hgf] at hopt; exact absurd hopt id
    | some pr =>
      rw [hgf] at hopt
      simp only [optIs_some] at hopt
      obtain ⟨m', hm', -⟩ := hget fid pr.1 pr.2 (by rw [hgf])
      rw [hm']
      simp only [optIs_some]
      exact hopt
  constructor
  · intro x hx'
    rw [hn_len] at hx'
    have hc := h1 x hx'
    cases hsx : s.nodeAt x with
    | none =>
      rw [hdead x hsx]
      exact trivial
    | some m =>
      rw [hsx] at hc
      simp only [optAll_some] at hc
      obtain ⟨m', hm', -, -, hmain, -⟩ := hnodes x m hsx
      rw [hm']
      simp only [optAll_some]
      rw [hmain, hid]
      exact hc
  · show 1 ≤ s'.next_query_id_
    rw [hx]
    exact h2
  · exact hsound
  · intro p hp
    rw [hrem] at hp
    have hc := h4 p hp
    cases hgf : s.get_file_node p.2 with
    | none => rw [hgf] at hc; exact absurd hc id
    | some pr =>
      rw [hgf] at hc
      simp only [optIs_some] at hc
      obtain ⟨m', hm', hr, -, -, -⟩ := hget p.2 pr.1 pr.2 (by rw [hgf])
      rw [hm']
      simp only [optIs_some]
      show m'.remote_ = RemoteFileLocation.full p.1
      rw [hr]
      exact hc
  · intro p hp
    rw [hgen] at hp
    have hc := h5 p hp
    cases hgf : s.get_file_node p.2 with
    | none => rw [hgf] at hc; exact absurd hc id
    | some pr =>
      rw [hgf] at hc
      simp only [optIs_some] at hc
      obtain ⟨m', hm', -, hg', -, -⟩ := hget p.2 pr.1 pr.2 (by rw [hgf])
      rw [hm']
      simp only [optIs_some]
      show m'.generate_ = GenerateFileLocation.full p.1
      rw [hg']
      exact hc
  · exact hcomplete
  · intro x hx'
    rw [hn_len] at hx'
    have hc := h7 x hx'
    cases hsx : s.nodeAt x with
    | none =>
      rw [hdead x hsx]
      exact trivial
    | some m =>
      rw [hsx] at hc
      simp only [optAll_some] at hc
      obtain ⟨m', hm', hr, -, -, -⟩ := hnodes x m hsx
      rw [hm']
      simp only [optAll_some]
      rw [hr, hrem]
      cases hful : m.remote_.fullOf with
      | none => exact trivial
      | some r =>
        rw [hful] at hc
        simp only [optAll_some] at hc ⊢
        cases hidx : indexGet s.remote_location_to_file_id_ r with
        | none => rw [hidx] at hc; exact hc
        | some fidl =>
          rw [hidx] at hc
          simp only [optIs_some] at hc ⊢
          rw [hid]
          exact hc
  · intro x hx'
    rw [hn_len] at hx'
    have hc := h8 x hx'
    cases hsx : s.nodeAt x with
    | none =>
      rw [hdead x hsx]
      exact trivial
    | some m =>
      rw [hsx] at hc
      simp only [optAll_some] at hc
      obtain ⟨m', hm', -, hg', -, -⟩ := hnodes x m hsx
      rw [hm']
      simp only [optAll_some]
      rw [hg', hgen]
      cases hful : m.generate_.fullOf with
      | none => exact trivial
      | some g =>
        rw [hful] at hc
        simp only [optAll_some] at hc ⊢
        cases hidx : indexGet s.generate_location_to_file_id_ g with
        | none => rw [hidx] at hc; exact hc
        | some fidl =>
          rw [hidx] at hc
          simp only [optIs_some] at hc ⊢
          rw [hid]
          exact hc
  · intro p hp
    rw [hq] at hp
    have hc := h9 p hp
    refine ⟨hc.1, by rw [hx]; exact hc.2.1, ?_⟩
    have hc3 := hc.2.2
    cases hgf : s.get_file_node p.2.file_id_ with
    | none => rw [hgf] at hc3; exact absurd hc3 id
    | some pr =>
      rw [hgf] at hc3
      simp only [optIs_some] at hc3
      obtain ⟨m', hm', -, -, -, hslots⟩ := hget p.2.file_id_ pr.1 pr.2 (by rw [hgf])
      rw [hm']
      simp only [optIs_some]
      show m'.queryIdOfKind (kindOfQueryType p.2.type_) = p.1
      rw [hslots]
      exact hc3
  · intro x hx'
    rw [hn_len] at hx'
    have hc := h10 x hx'
    cases hsx : s.nodeAt x with
    | none =>
      rw [hdead x hsx]
      exact trivial
    | some m =>
      rw [hsx] at hc
      simp only [optAll_some] at hc
      obtain ⟨m', hm', -, -, -, hslots⟩ := hnodes x m hsx
      rw [hm']
      simp only [optAll_some]
      intro k
      rw [hslots]
      rcases hc k with h0 | hrest
      · exact Or.inl h0
      · right
        rw [hq]
        cases hidx : indexGet s.queries_container_ (m.queryIdOfKind k) with
        | none => rw [hidx] at hrest; exact hrest
        | some q =>
          rw [hidx] at hrest
          simp only [optIs_some] at hrest ⊢
          exact ⟨hrest.1, htr q.file_id_ x hrest.2⟩

/-- Invariance under remote-location surgery, symmetric to
inv_local_surgery. -/
theorem inv_remote_surgery {s s' : FileManager}
    (hn_len : s'.file_nodes_.length = s.file_nodes_.length)
    (hid : ∀ fid, s'.nodeIdOf fid = s.nodeIdOf fid)
    (hloc : s'.local_location_to_file_id_ = s.local_location_to_file_id_)
    (hgen : s'.generate_location_to_file_id_ = s.generate_location_to_file_id_)
    (hq : s'.queries_container_ = s.queries_container_)
    (hx : s'.next_query_id_ = s.next_query_id_)
    (hnodes : ∀ x m, s.nodeAt x = some m → ∃ m', s'.nodeAt x = some m' ∧
      m'.local_ = m.local_ ∧ m'.generate_ = m.generate_ ∧
      m'.main_file_id_ = m.main_file_id_ ∧ ∀ k, m'.queryIdOfKind k = m.queryIdOfKind k)
    (hdead : ∀ x, s.nodeAt x = none → s'.nodeAt x = none)
    (hsound : RemoteIndexOK s') (hcomplete : RemoteCompleteOK s')
    (h : Inv s) : Inv s' := by
  obtain ⟨h1, h2, h3, h4, h5, h6, h7, h8, h9, h10⟩ := h
  have hget : ∀ fid j m, s.get_file_node fid = some (j, m) →
      ∃ m', s'.get_file_node fid = some (j, m') ∧
        m'.local_ = m.local_ ∧ m'.generate_ = m.generate_ ∧
        m'.main_file_id_ = m.main_file_id_ ∧
        ∀ k, m'.queryIdOfKind k = m.queryIdOfKind k := by
    intro fid j m hg
    obtain ⟨hg1, hg2⟩ := get_file_node_eq_some.mp hg
    obtain ⟨m', hm', hc⟩ := hnodes j m hg2
    exact ⟨m', get_file_node_eq_some.mpr ⟨by rw [hid]; exact hg1, hm'⟩, hc⟩
  have htr : ∀ fid j, optIs (s.get_file_node fid) (fun pr => pr.1 = j) →
      optIs (s'.get_file_node fid) (fun pr => pr.1 = j) := by
    intro fid j hopt
    cases hgf : s.get_file_node fid with
    | none => rw [hgf] at hopt; exact absurd hopt id
    | some pr =>
      rw [hgf] at hopt
      simp only [optIs_some] at hopt
      obtain ⟨m', hm', -⟩ := hget fid pr.1 pr.2 (by rw [hgf])
      rw [hm']
      simp only [optIs_some]
      exact hopt
  constructor
  · intro x hx'
    rw [hn_len] at hx'
    have hc := h1 x hx'
    cases hsx : s.nodeAt x with
    | none =>
      rw [hdead x hsx]
      exact trivial
    | some m =>
      rw [hsx] at hc
      simp only [optAll_some] at hc
      obtain ⟨m', hm', -, -, hmain, -⟩ := hnodes x m hsx
      rw [hm']
      simp only [optAll_some]
      rw [hmain, hid]
      exact hc
  · show 1 ≤ s'.next_query_id_
    rw [hx]
    exact h2
  · intro p hp
    rw [hloc] at hp
    have hc := h3 p hp
    cases hgf : s.get_file_node p.2 with
    | none => rw [hgf] at hc; exact absurd hc id
    | some pr =>
      rw [hgf] at hc
      simp only [optIs_some] at hc
      obtain ⟨m', hm', hl, -, -, -⟩ := hget p.2 pr.1 pr.2 (by rw [hgf])
      rw [hm']
      simp only [optIs_some]
      show m'.local_ = LocalFileLocation.full p.1
      rw [hl]
      exact hc
  · exact hsound
  · intro p hp
    rw [hgen] at hp
    have hc := h5 p hp
    cases hgf : s.get_file_node p.2 with
    | none => rw [hgf] at hc; exact absurd hc id
    | some pr =>
      rw [hgf] at hc
      simp only [optIs_some] at hc
      obtain ⟨m', hm', -, hg', -, -⟩ := hget p.2 pr.1 pr.2 (by rw [hgf])
      rw [hm']
      simp only [optIs_some]
      show m'.generate_ = GenerateFileLocation.full p.1
      rw [hg']
      exact hc
  · intro x hx'
    rw [hn_len] at hx'
    have hc := h6 x hx'
    cases hsx : s.nodeAt x with
    | none =>
      rw [hdead x hsx]
      exact trivial
    | some m =>
      rw [hsx] at hc
      simp only [optAll_some] at hc
      obtain ⟨m', hm', hl, -, -, -⟩ := hnodes x m hsx
      rw [hm']
      simp only [optAll_some]
      rw [hl, hloc]
      cases hful : m.local_.fullOf with
      | none => exact trivial
      | some l =>
        rw [hful] at hc
        simp only [optAll_some] at hc ⊢
        cases hidx : indexGet s.local_location_to_file_id_ l with
        | none => rw [hidx] at hc; exact hc
        | some fidl =>
          rw [hidx] at hc
          simp only [optIs_some] at hc ⊢
          rw [hid]
          exact hc
  · exact hcomplete
  · intro x hx'
    rw [hn_len] at hx'
    have hc := h8 x hx'
    cases hsx : s.nodeAt x with
    | none =>
      rw [hdead x hsx]
      exact trivial
    | some m =>
      rw [hsx] at hc
      simp only [optAll_some] at hc
      obtain ⟨m', hm', -, hg', -, -⟩ := hnodes x m hsx
      rw [hm']
      simp only [optAll_some]
      rw [hg', hgen]
      cases hful : m.generate_.fullOf with
      | none => exact trivial
      | some g =>
        rw [hful] at hc
        simp only [optAll_some] at hc ⊢
        cases hidx : indexGet s.generate_location_to_file_id_ g with
        | none => rw [hidx] at hc; exact hc
        | some fidl =>
          rw [hidx] at hc
          simp only [optIs_some] at hc ⊢
          rw [hid]
          exact hc
  · intro p hp
    rw [hq] at hp
    have hc := h9 p hp
    refine ⟨hc.1, by rw [hx]; exact hc.2.1, ?_⟩
    have hc3 := hc.2.2
    cases hgf : s.get_file_node p.2.file_id_ with
    | none => rw [hgf] at hc3; exact absurd hc3 id
    | some pr =>
      rw [hgf] at hc3
      simp only [optIs_some] at hc3
      obtain ⟨m', hm', -, -, -, hslots⟩ := hget p.2.file_id_ pr.1 pr.2 (by rw [hgf])
      rw [hm']
      simp only [optIs_some]
      show m'.queryIdOfKind (kindOfQueryType p.2.type_) = p.1
      rw [hslots]
      exact hc3
  · intro x hx'
    rw [hn_len] at hx'
    have hc := h10 x hx'
    cases hsx : s.nodeAt x with
    | none =>
      rw [hdead x hsx]
      exact trivial
    | some m =>
      rw [hsx] at hc
      simp only [optAll_some] at hc
      obtain ⟨m', hm', -, -, -, hslots⟩ := hnodes x m hsx
      rw [hm']
      simp only [optAll_some]
      intro k
      rw [hslots]
      rcases hc k with h0 | hrest
      · exact Or.inl h0
      · right
        rw [hq]
        cases hidx : indexGet s.queries_container_ (m.queryIdOfKind k) with
        | none => rw [hidx] at hrest; exact hrest
        | some q =>
          rw [hidx] at hrest
          simp only [optIs_some] at hrest ⊢
          exact ⟨hrest.1, htr q.file_id_ x hrest.2⟩

theorem inv_demoteLocal {s : FileManager} (i : Nat) (h : Inv s) : Inv (demoteLocal s i) := by
  obtain ⟨h1, h2, h3, h4, h5, h6, h7, h8, h9, h10⟩ := h
  have hInv : Inv s := ⟨h1, h2, h3, h4, h5, h6, h7, h8, h9, h10⟩
  unfold demoteLocal
  cases hnd : s.nodeAt i with
  | none => exact hInv
  | some n =>
    set n' : FileNode :=
      { n with local_ := .empty, local_ready_size_ := 0, pmc_changed_flag_ := true } with hn'
    set s₁ : FileManager := { s with
      local_location_to_file_id_ :=
        indexEraseOpt s.local_location_to_file_id_ n.local_.fullOf } with hs₁
    show Inv (s₁.setNodeAt i n')
    have hnd₁ : s₁.nodeAt i = some n := hnd
    have hnewnode : (s₁.setNodeAt i n').nodeAt i = some n' := nodeAt_setNodeAt_self n' hnd₁
    have hgfn := get_file_node_setNodeAt hnd₁ n'
    have hloce : (s₁.setNodeAt i n').local_location_to_file_id_ =
        indexEraseOpt s.local_location_to_file_id_ n.local_.fullOf := rfl
    apply inv_local_surgery ?_ ?_ ?_ ?_ ?_ ?_ ?_ ?_ ?_ ?_ hInv
    · exact Eq.trans (length_setNodeAt s₁ i n') rfl
    · exact fun _ => rfl
    · rfl
    · rfl
    · rfl
    · rfl
    · intro x m hm
      by_cases hxe : x = i
      · subst hxe
        rw [hm] at hnd
        injection hnd with he
        subst he
        exact ⟨n', hnewnode, rfl, rfl, rfl, fun _ => rfl⟩
      · refine ⟨m, ?_, rfl, rfl, rfl, fun _ => rfl⟩
        rw [nodeAt_setNodeAt_ne n' hxe]
        exact hm
    · intro x hm
      have hxe : x ≠ i := by
        intro he
        rw [he, hnd] at hm
        exact absurd hm (by simp)
      rw [nodeAt_setNodeAt_ne n' hxe]
      exact hm
    · intro p hp
      rw [hloce] at hp
      have hpt := mem_indexEraseOpt hp
      have hc := h3 p hpt
      cases hgf : s.get_file_node p.2 with
      | none => rw [hgf] at hc; exact absurd hc id
      | some pr =>
        rw [hgf] at hc
        simp only [optIs_some] at hc
        have hgf1 : s₁.get_file_node p.2 = some pr := hgf
        rw [hgfn, hgf1]
        obtain ⟨j, m'⟩ := pr
        by_cases hji : j = i
        · subst hji
          have hm' : m' = n := by
            have h' := (get_file_node_eq_some.mp hgf).2
            rw [hnd] at h'
            injection h' with h''
            exact h''.symm
          rw [hm'] at hc
          have hful : n.local_.fullOf = some p.1 :=
            localFullOf_eq_some.mpr hc
          rw [hful] at hp
          have hp2 : p ∈ indexErase s.local_location_to_file_id_ p.1 := hp
          exact absurd rfl (mem_indexErase.mp hp2).2
        · simp only [if_neg hji, optIs_some]
          exact hc
    · intro x hx
      have hx' : x < s.file_nodes_.length := by
        rw [show (s₁.setNodeAt i n').file_nodes_.length = s.file_nodes_.length from by
          rw [length_setNodeAt]] at hx
        exact hx
      by_cases hxe : x = i
      · subst hxe
        rw [hnewnode]
        simp only [optAll_some]
        show optAll (LocalFileLocation.empty.fullOf) _
        exact trivial
      · rw [nodeAt_setNodeAt_ne n' hxe, show s₁.nodeAt x = s.nodeAt x from rfl]
        have hc := h6 x hx'
        cases hnx : s.nodeAt x with
        | none => exact trivial
        | some m =>
          rw [hnx] at hc
          simp only [optAll_some] at hc ⊢
          rw [hloce]
          cases hful : m.local_.fullOf with
          | none => exact trivial
          | some l' =>
            rw [hful] at hc
            simp only [optAll_some] at hc ⊢
            have hlook : indexGet (indexEraseOpt s.local_location_to_file_id_ n.local_.fullOf)
                l' = indexGet s.local_location_to_file_id_ l' := by
              apply indexGet_indexEraseOpt_ne_of_ne
              intro lold hlold he
              subst he
              have hci := h6 i (nodeAt_lt_length hnd)
              rw [hnd] at hci
              simp only [optAll_some] at hci
              rw [hlold] at hci
              simp only [optAll_some] at hci
              cases hidx : indexGet s.local_location_to_file_id_ l' with
              | none =>
                rw [hidx] at hci
                exact hci
              | some fid2 =>
                rw [hidx] at hci hc
                simp only [optIs_some] at hci hc
                rw [hci] at hc
                injection hc with hc'
                exact hxe hc'.symm
            rw [hlook]
            cases hidx : indexGet s.local_location_to_file_id_ l' with
            | none => rw [hidx] at hc; exact hc
            | some fid2 =>
              rw [hidx] at hc
              simp only [optAll_some, optIs_some] at hc ⊢
              exact hc

theorem nodeAt_modifyNodeAt_ne {s : FileManager} {j x : Nat} (f : FileNode → FileNode)
    (h : x ≠ j) : (s.modifyNodeAt j f).nodeAt x = s.nodeAt x := by
  unfold modifyNodeAt
  cases s.nodeAt j with
  | none => rfl
  | some m => exact nodeAt_setNodeAt_ne (f m) h

theorem nodeAt_modifyNodeAt_self {s : FileManager} {j : Nat} {m : FileNode}
    (f : FileNode → FileNode) (h : s.nodeAt j = some m) :
    (s.modifyNodeAt j f).nodeAt j = some (f m) := by
  unfold modifyNodeAt
  rw [h]
  exact nodeAt_setNodeAt_self (f m) h

theorem infos_modifyNodeAt (s : FileManager) (j : Nat) (f : FileNode → FileNode) :
    (s.modifyNodeAt j f).file_id_info_ = s.file_id_info_ := by
  unfold modifyNodeAt
  cases s.nodeAt j with
  | none => rfl
  | some m => rfl

theorem nodeIdOf_modifyNodeAt (s : FileManager) (j : Nat) (f : FileNode → FileNode)
    (fid : Nat) : (s.modifyNodeAt j f).nodeIdOf fid = s.nodeIdOf fid := by
  unfold nodeIdOf
  rw [infos_modifyNodeAt]

theorem local_index_modifyNodeAt (s : FileManager) (j : Nat) (f : FileNode → FileNode) :
    (s.modifyNodeAt j f).local_location_to_file_id_ = s.local_location_to_file_id_ := by
  unfold modifyNodeAt
  cases s.nodeAt j with
  | none => rfl
  | some m => rfl

theorem remote_index_modifyNodeAt (s : FileManager) (j : Nat) (f : FileNode → FileNode) :
    (s.modifyNodeAt j f).remote_location_to_file_id_ = s.remote_location_to_file_id_ := by
  unfold modifyNodeAt
  cases s.nodeAt j with
  | none => rfl
  | some m => rfl

theorem generate_index_modifyNodeAt (s : FileManager) (j : Nat) (f : FileNode → FileNode) :
    (s.modifyNodeAt j f).generate_location_to_file_id_ = s.generate_location_to_file_id_ := by
  unfold modifyNodeAt
  cases s.nodeAt j with
  | none => rfl
  | some m => rfl

theorem queries_modifyNodeAt (s : FileManager) (j : Nat) (f : FileNode → FileNode) :
    (s.modifyNodeAt j f).queries_container_ = s.queries_container_ := by
  unfold modifyNodeAt
  cases s.nodeAt j with
  | none => rfl
  | some m => rfl

theorem next_modifyNodeAt (s : FileManager) (j : Nat) (f : FileNode → FileNode) :
    (s.modifyNodeAt j f).next_query_id_ = s.next_query_id_ := by
  unfold modifyNodeAt
  cases s.nodeAt j with
  | none => rfl
  | some m => rfl

theorem length_modifyNodeAt (s : FileManager) (j : Nat) (f : FileNode → FileNode) :
    (s.modifyNodeAt j f).file_nodes_.length = s.file_nodes_.length := by
  unfold modifyNodeAt
  cases s.nodeAt j with
  | none => rfl
  | some m => exact length_setNodeAt s j (f m)

/-- Two live nodes holding the same Full local location are the same node
(derived from index completeness). -/
theorem local_full_uniq {s : FileManager} (h6 : LocalCompleteOK s) {x y : Nat}
    {mx my : FileNode} {l₀ : FullLocalFileLocation} (hx : s.nodeAt x = some mx)
    (hfx : mx.local_.fullOf = some l₀) (hy : s.nodeAt y = some my)
    (hfy : my.local_.fullOf = some l₀) : x = y := by
  have hcx := h6 x (nodeAt_lt_length hx)
  have hcy := h6 y (nodeAt_lt_length hy)
  rw [hx] at hcx
  rw [hy] at hcy
  simp only [optAll_some] at hcx hcy
  rw [hfx] at hcx
  rw [hfy] at hcy
  simp only [optAll_some] at hcx hcy
  cases hidx : indexGet s.local_location_to_file_id_ l₀ with
  | none => rw [hidx] at hcx; exact absurd hcx id
  | some fid₂ =>
    rw [hidx] at hcx hcy
    simp only [optIs_some] at hcx hcy
    rw [hcx] at hcy
    exact Option.some.inj hcy

/-- Two live nodes holding the same Full remote location are the same node. -/
theorem remote_full_uniq {s : FileManager} (h7 : RemoteCompleteOK s) {x y : Nat}
    {mx my : FileNode} {r₀ : FullRemoteFileLocation} (hx : s.nodeAt x = some mx)
    (hfx : mx.remote_.fullOf = some r₀) (hy : s.nodeAt y = some my)
    (hfy : my.remote_.fullOf = some r₀) : x = y := by
  have hcx := h7 x (nodeAt_lt_length hx)
  have hcy := h7 y (nodeAt_lt_length hy)
  rw [hx] at hcx
  rw [hy] at hcy
  simp only [optAll_some] at hcx hcy
  rw [hfx] at hcx
  rw [hfy] at hcy
  simp only [optAll_some] at hcx hcy
  cases hidx : indexGet s.remote_location_to_file_id_ r₀ with
  | none => rw [hidx] at hcx; exact absurd hcx id
  | some fid₂ =>
    rw [hidx] at hcx hcy
    simp only [optIs_some] at hcx hcy
    rw [hcx] at hcy
    exact Option.some.inj hcy

theorem inv_setFullLocalIndexed {s : FileManager} (i : Nat) (l : FullLocalFileLocation)
    (h : Inv s) : Inv (setFullLocalIndexed s i l) := by
  obtain ⟨h1, h2, h3, h4, h5, h6, h7, h8, h9, h10⟩ := h
  have hInv : Inv s := ⟨h1, h2, h3, h4, h5, h6, h7, h8, h9, h10⟩
  unfold setFullLocalIndexed
  cases hnd : s.nodeAt i with
  | none => exact hInv
  | some n =>
    have hmain : s.nodeIdOf n.main_file_id_ = some i := by
      have hc := h1 i (nodeAt_lt_length hnd)
      rw [hnd] at hc
      exact hc
    show Inv (let s₂ : FileManager := match indexGet (indexEraseOpt s.local_location_to_file_id_ n.local_.fullOf) l with | none => s | some fid0 => match s.nodeIdOf fid0 with | none => s | some j => s.modifyNodeAt j (fun m => { m with local_ := .empty, local_ready_size_ := 0 }); ({ s₂ with local_location_to_file_id_ := (l, n.main_file_id_) :: indexErase (indexEraseOpt s.local_location_to_file_id_ n.local_.fullOf) l } : FileManager).setNodeAt i { n with local_ := .full l, info_changed_flag_ := true, pmc_changed_flag_ := true })
    cases hA : indexGet (indexEraseOpt s.local_location_to_file_id_ n.local_.fullOf) l with
    | none =>
      show Inv (({ s with local_location_to_file_id_ := (l, n.main_file_id_) :: indexErase (indexEraseOpt s.local_location_to_file_id_ n.local_.fullOf) l } : FileManager).setNodeAt i { n with local_ := .full l, info_changed_flag_ := true, pmc_changed_flag_ := true })
      set nstar : FileNode := { n with local_ := .full l, info_changed_flag_ := true, pmc_changed_flag_ := true } with hnstar
      set base : FileManager := { s with local_location_to_file_id_ := (l, n.main_file_id_) :: indexErase (indexEraseOpt s.local_location_to_file_id_ n.local_.fullOf) l } with hbase_def
      have hbase_i : base.nodeAt i = some n := hnd
      have hset_i : (base.setNodeAt i nstar).nodeAt i = some nstar :=
        nodeAt_setNodeAt_self nstar hbase_i
      apply inv_local_surgery ?_ ?_ ?_ ?_ ?_ ?_ ?_ ?_ ?_ ?_ hInv
      · exact Eq.trans (length_setNodeAt base i nstar) rfl
      · exact fun _ => rfl
      · rfl
      · rfl
      · rfl
      · rfl
      · intro x m hm
        by_cases hxe : x = i
        · subst hxe
          rw [hm] at hnd
          injection hnd with he
          subst he
          exact ⟨nstar, hset_i, rfl, rfl, rfl, fun _ => rfl⟩
        · refine ⟨m, ?_, rfl, rfl, rfl, fun _ => rfl⟩
          rw [nodeAt_setNodeAt_ne nstar hxe]
          exact hm
      · intro x hm
        have hxe : x ≠ i := by
          intro he
          rw [he, hnd] at hm
          exact absurd hm (by simp)
        rw [nodeAt_setNodeAt_ne nstar hxe]
        exact hm
      · intro p hp
        have hp' : p ∈ (l, n.main_file_id_) ::
            indexErase (indexEraseOpt s.local_location_to_file_id_ n.local_.fullOf) l := hp
        rcases List.mem_cons.mp hp' with hph | hpt
        · subst hph
          have hg : (base.setNodeAt i nstar).get_file_node n.main_file_id_ = some (i, nstar) :=
            get_file_node_eq_some.mpr ⟨hmain, hset_i⟩
          rw [hg]
          simp only [optIs_some, hnstar]
        · obtain ⟨hin_E, hne_l⟩ := mem_indexErase.mp hpt
          have hins := mem_indexEraseOpt hin_E
          have hc := h3 p hins
          cases hgf : s.get_file_node p.2 with
          | none => rw [hgf] at hc; exact absurd hc id
          | some pr =>
            rw [hgf] at hc
            simp only [optIs_some] at hc
            obtain ⟨hg1, hg2⟩ := get_file_node_eq_some.mp hgf
            by_cases hpi : pr.1 = i
            · exfalso
              rw [hpi, hnd] at hg2
              injection hg2 with he
              have hful : n.local_.fullOf = some p.1 := by
                rw [← he] at hc
                exact localFullOf_eq_some.mpr hc
              rw [hful] at hin_E
              have hin2 : p ∈ indexErase s.local_location_to_file_id_ p.1 := hin_E
              exact absurd rfl (mem_indexErase.mp hin2).2
            · have hg' : (base.setNodeAt i nstar).get_file_node p.2 = some pr := by
                apply get_file_node_eq_some.mpr
                refine ⟨hg1, ?_⟩
                rw [nodeAt_setNodeAt_ne nstar hpi]
                exact hg2
              rw [hg']
              simp only [optIs_some]
              exact hc
      · intro x hx
        have hx' : x < s.file_nodes_.length := by
          rw [show (base.setNodeAt i nstar).file_nodes_.length = s.file_nodes_.length from
            Eq.trans (length_setNodeAt base i nstar) rfl] at hx
          exact hx
        by_cases hxe : x = i
        · subst hxe
          rw [hset_i]
          simp only [optAll_some]
          show optAll ((LocalFileLocation.full l).fullOf) _
          simp only [LocalFileLocation.fullOf, optAll_some]
          have hlook : indexGet (base.setNodeAt x nstar).local_location_to_file_id_ l =
              some n.main_file_id_ := by
            show indexGet ((l, n.main_file_id_) :: _) l = _
            rw [indexGet_cons, if_pos rfl]
          rw [hlook]
          simp only [optIs_some]
          exact hmain
        · rw [nodeAt_setNodeAt_ne nstar hxe, show base.nodeAt x = s.nodeAt x from rfl]
          cases hnx : s.nodeAt x with
          | none => exact trivial
          | some m =>
            have hc := h6 x hx'
            rw [hnx] at hc
            simp only [optAll_some] at hc ⊢
            cases hfm : m.local_.fullOf with
            | none => exact trivial
            | some l₂ =>
              rw [hfm] at hc
              simp only [optAll_some] at hc ⊢
              have hl₂ : l₂ ≠ l := by
                intro he
                subst he
                cases hidx : indexGet s.local_location_to_file_id_ l₂ with
                | none => rw [hidx] at hc; exact hc
                | some fid₂ =>
                  cases hfol : n.local_.fullOf with
                  | none =>
                    rw [show indexEraseOpt s.local_location_to_file_id_ n.local_.fullOf =
                      s.local_location_to_file_id_ from by rw [hfol]; rfl, hidx] at hA
                    exact Option.noConfusion hA
                  | some lo =>
                    by_cases hlo : lo = l₂
                    · subst hlo
                      exact hxe (local_full_uniq h6 hnx hfm hnd hfol)
                    · rw [show indexGet (indexEraseOpt s.local_location_to_file_id_
                          n.local_.fullOf) l₂ = indexGet s.local_location_to_file_id_ l₂ from by
                        rw [hfol]
                        exact indexGet_indexErase_ne _ (fun he' => hlo he'.symm), hidx] at hA
                      exact Option.noConfusion hA
              have hlook : indexGet (base.setNodeAt i nstar).local_location_to_file_id_ l₂ =
                  indexGet s.local_location_to_file_id_ l₂ := by
                show indexGet ((l, n.main_file_id_) :: indexErase
                  (indexEraseOpt s.local_location_to_file_id_ n.local_.fullOf) l) l₂ = _
                rw [indexGet_cons, if_neg (fun he => hl₂ he.symm),
                  indexGet_indexErase_ne _ hl₂]
                apply indexGet_indexEraseOpt_ne_of_ne
                intro lo hlo he
                subst he
                exact hxe (local_full_uniq h6 hnx hfm hnd hlo)
              rw [hlook]
              cases hidx : indexGet s.local_location_to_file_id_ l₂ with
              | none => rw [hidx] at hc; exact hc
              | some fid₂ =>
                rw [hidx] at hc
                simp only [optIs_some] at hc ⊢
                exact hc
    | some fid0 =>
      show Inv (let s₂ : FileManager := match s.nodeIdOf fid0 with | none => s | some j => s.modifyNodeAt j (fun m => { m with local_ := .empty, local_ready_size_ := 0 }); ({ s₂ with local_location_to_file_id_ := (l, n.main_file_id_) :: indexErase (indexEraseOpt s.local_location_to_file_id_ n.local_.fullOf) l } : FileManager).setNodeAt i { n with local_ := .full l, info_changed_flag_ := true, pmc_changed_flag_ := true })
      have hent := indexGet_eq_some_mem hA
      have hents := mem_indexEraseOpt hent
      have hcs := h3 _ hents
      cases hgf0 : s.get_file_node fid0 with
      | none =>
        rw [hgf0] at hcs
        exact absurd hcs id
      | some pr0 =>
        rw [hgf0] at hcs
        simp only [optIs_some] at hcs
        obtain ⟨hg01, hg02⟩ := get_file_node_eq_some.mp hgf0
        cases hB : s.nodeIdOf fid0 with
        | none => rw [hB] at hg01; exact Option.noConfusion hg01
        | some j =>
          have hj0 : pr0.1 = j := by
            rw [hB] at hg01
            injection hg01 with he
            exact he.symm
          have hmj : s.nodeAt j = some pr0.2 := by
            rw [← hj0]
            exact hg02
          have hml : pr0.2.local_ = LocalFileLocation.full l := hcs
          have hmlf : pr0.2.local_.fullOf = some l := localFullOf_eq_some.mpr hml
          have hji : j ≠ i := by
            intro he
            rw [he, hnd] at hmj
            injection hmj with he'
            have hful : n.local_.fullOf = some l := by
              rw [← he'] at hmlf
              exact hmlf
            rw [hful] at hent
            have hent2 : ((l, fid0) : FullLocalFileLocation × Nat) ∈
                indexErase s.local_location_to_file_id_ l := hent
            exact absurd rfl (mem_indexErase.mp hent2).2
          show Inv ((({ (s.modifyNodeAt j (fun m => { m with local_ := .empty, local_ready_size_ := 0 })) with local_location_to_file_id_ := (l, n.main_file_id_) :: indexErase (indexEraseOpt s.local_location_to_file_id_ n.local_.fullOf) l } : FileManager)).setNodeAt i { n with local_ := .full l, info_changed_flag_ := true, pmc_changed_flag_ := true })
          set dmf : FileNode → FileNode := fun m => { m with local_ := LocalFileLocation.empty, local_ready_size_ := 0 } with hdmf
          set nstar : FileNode := { n with local_ := .full l, info_changed_flag_ := true, pmc_changed_flag_ := true } with hnstar
          set base : FileManager := { (s.modifyNodeAt j dmf) with local_location_to_file_id_ := (l, n.main_file_id_) :: indexErase (indexEraseOpt s.local_location_to_file_id_ n.local_.fullOf) l } with hbase_def
          have hbase_i : base.nodeAt i = some n := by
            show (s.modifyNodeAt j dmf).nodeAt i = some n
            rw [nodeAt_modifyNodeAt_ne dmf (fun he => hji he.symm)]
            exact hnd
          have hbase_j : base.nodeAt j = some (dmf pr0.2) := by
            show (s.modifyNodeAt j dmf).nodeAt j = some (dmf pr0.2)
            exact nodeAt_modifyNodeAt_self dmf hmj
          have hbase_other : ∀ x, x ≠ i → x ≠ j → base.nodeAt x = s.nodeAt x := by
            intro x hxi hxj
            show (s.modifyNodeAt j dmf).nodeAt x = s.nodeAt x
            exact nodeAt_modifyNodeAt_ne dmf hxj
          have hset_i : (base.setNodeAt i nstar).nodeAt i = some nstar :=
            nodeAt_setNodeAt_self nstar hbase_i
          apply inv_local_surgery ?_ ?_ ?_ ?_ ?_ ?_ ?_ ?_ ?_ ?_ hInv
          · exact Eq.trans (length_setNodeAt base i nstar)
              (length_modifyNodeAt s j dmf)
          · exact fun fid => nodeIdOf_modifyNodeAt s j dmf fid
          · exact remote_index_modifyNodeAt s j dmf
          · exact generate_index_modifyNodeAt s j dmf
          · exact queries_modifyNodeAt s j dmf
          · exact next_modifyNodeAt s j dmf
          · intro x m hm
            by_cases hxe : x = i
            · subst hxe
              rw [hm] at hnd
              injection hnd with he
              subst he
              exact ⟨nstar, hset_i, rfl, rfl, rfl, fun _ => rfl⟩
            · by_cases hxj : x = j
              · subst hxj
                rw [hm] at hmj
                injection hmj with he
                subst he
                refine ⟨dmf pr0.2, ?_, rfl, rfl, rfl, fun _ => rfl⟩
                rw [nodeAt_setNodeAt_ne nstar hji]
                exact hbase_j
              · refine ⟨m, ?_, rfl, rfl, rfl, fun _ => rfl⟩
                rw [nodeAt_setNodeAt_ne nstar hxe, hbase_other x hxe hxj]
                exact hm
          · intro x hm
            have hxe : x ≠ i := by
              intro he
              rw [he, hnd] at hm
              exact absurd hm (by simp)
            have hxj : x ≠ j := by
              intro he
              rw [he, hmj] at hm
              exact absurd hm (by simp)
            rw [nodeAt_setNodeAt_ne nstar hxe, hbase_other x hxe hxj]
            exact hm
          · intro p hp
            have hp' : p ∈ (l, n.main_file_id_) ::
                indexErase (indexEraseOpt s.local_location_to_file_id_ n.local_.fullOf) l := hp
            rcases List.mem_cons.mp hp' with hph | hpt
            · subst hph
              have hg : (base.setNodeAt i nstar).get_file_node n.main_file_id_ =
                  some (i, nstar) :=
                get_file_node_eq_some.mpr
                  ⟨Eq.trans (nodeIdOf_modifyNodeAt s j dmf n.main_file_id_) hmain, hset_i⟩
              rw [hg]
              simp only [optIs_some, hnstar]
            · obtain ⟨hin_E, hne_l⟩ := mem_indexErase.mp hpt
              have hins := mem_indexEraseOpt hin_E
              have hc := h3 p hins
              cases hgf : s.get_file_node p.2 with
              | none => rw [hgf] at hc; exact absurd hc id
              | some pr =>
                rw [hgf] at hc
                simp only [optIs_some] at hc
                obtain ⟨hg1, hg2⟩ := get_file_node_eq_some.mp hgf
                by_cases hpi : pr.1 = i
                · exfalso
                  rw [hpi, hnd] at hg2
                  injection hg2 with he
                  have hful : n.local_.fullOf = some p.1 := by
                    rw [← he] at hc
                    exact localFullOf_eq_some.mpr hc
                  rw [hful] at hin_E
                  have hin2 : p ∈ indexErase s.local_location_to_file_id_ p.1 := hin_E
                  exact absurd rfl (mem_indexErase.mp hin2).2
                · by_cases hpj : pr.1 = j
                  · exfalso
                    rw [hpj, hmj] at hg2
                    injection hg2 with he
                    rw [he] at hml
                    rw [hml] at hc
                    injection hc with he'
                    exact hne_l he'.symm
                  · have hg' : (base.setNodeAt i nstar).get_file_node p.2 = some pr := by
                      apply get_file_node_eq_some.mpr
                      refine ⟨Eq.trans (nodeIdOf_modifyNodeAt s j dmf p.2) hg1, ?_⟩
                      rw [nodeAt_setNodeAt_ne nstar hpi, hbase_other pr.1 hpi hpj]
                      exact hg2
                    rw [hg']
                    simp only [optIs_some]
                    exact hc
          · intro x hx
            have hx' : x < s.file_nodes_.length := by
              rw [show (base.setNodeAt i nstar).file_nodes_.length = s.file_nodes_.length from
                Eq.trans (length_setNodeAt base i nstar)
                  (length_modifyNodeAt s j dmf)] at hx
              exact hx
            by_cases hxe : x = i
            · subst hxe
              rw [hset_i]
              simp only [optAll_some]
              show optAll ((LocalFileLocation.full l).fullOf) _
              simp only [LocalFileLocation.fullOf, optAll_some]
              have hlook : indexGet (base.setNodeAt x nstar).local_location_to_file_id_ l =
                  some n.main_file_id_ := by
                show indexGet ((l, n.main_file_id_) :: _) l = _
                rw [indexGet_cons, if_pos rfl]
              rw [hlook]
              simp only [optIs_some]
              rw [show (base.setNodeAt x nstar).nodeIdOf n.main_file_id_ =
                s.nodeIdOf n.main_file_id_ from nodeIdOf_modifyNodeAt s j dmf _]
              exact hmain
            · by_cases hxj : x = j
              · subst hxj
                rw [nodeAt_setNodeAt_ne nstar hji, hbase_j]
                simp only [optAll_some]
                show optAll (LocalFileLocation.empty.fullOf) _
                exact trivial
              · rw [nodeAt_setNodeAt_ne nstar hxe, hbase_other x hxe hxj]
                cases hnx : s.nodeAt x with
                | none => exact trivial
                | some m =>
                  have hc := h6 x hx'
                  rw [hnx] at hc
                  simp only [optAll_some] at hc ⊢
                  cases hfm : m.local_.fullOf with
                  | none => exact trivial
                  | some l₂ =>
                    rw [hfm] at hc
                    simp only [optAll_some] at hc ⊢
                    have hl₂ : l₂ ≠ l := by
                      intro he
                      subst he
                      cases hidx : indexGet s.local_location_to_file_id_ l₂ with
                      | none => rw [hidx] at hc; exact hc
                      | some fid₂ =>
                        cases hfol : n.local_.fullOf with
                        | none =>
                          rw [show indexGet (indexEraseOpt s.local_location_to_file_id_
                              n.local_.fullOf) l₂ =
                              indexGet s.local_location_to_file_id_ l₂ from by
                            rw [hfol]; rfl, hidx] at hA
                          rw [hidx] at hc
                          simp only [optIs_some] at hc
                          injection hA with heq
                          rw [heq] at hc
                          rw [hB] at hc
                          injection hc with he'
                          exact hxj he'.symm
                        | some lo =>
                          by_cases hlo : lo = l₂
                          · subst hlo
                            exact hxe (local_full_uniq h6 hnx hfm hnd hfol)
                          · rw [show indexGet (indexEraseOpt s.local_location_to_file_id_
                                n.local_.fullOf) l₂ =
                                indexGet s.local_location_to_file_id_ l₂ from by
                              rw [hfol]
                              exact indexGet_indexErase_ne _ (fun he' => hlo he'.symm),
                              hidx] at hA
                            rw [hidx] at hc
                            simp only [optIs_some] at hc
                            injection hA with heq
                            rw [heq] at hc
                            rw [hB] at hc
                            injection hc with he'
                            exact hxj he'.symm
                    have hlook : indexGet
                        (base.setNodeAt i nstar).local_location_to_file_id_ l₂ =
                        indexGet s.local_location_to_file_id_ l₂ := by
                      show indexGet ((l, n.main_file_id_) :: indexErase
                        (indexEraseOpt s.local_location_to_file_id_ n.local_.fullOf) l) l₂ = _
                      rw [indexGet_cons, if_neg (fun he => hl₂ he.symm),
                        indexGet_indexErase_ne _ hl₂]
                      apply indexGet_indexEraseOpt_ne_of_ne
                      intro lo hlo he
                      subst he
                      exact hxe (local_full_uniq h6 hnx hfm hnd hlo)
                    rw [hlook]
                    cases hidx : indexGet s.local_location_to_file_id_ l₂ with
                    | none => rw [hidx] at hc; exact hc
                    | some fid₂ =>
                      rw [hidx] at hc
                      simp only [optIs_some] at hc ⊢
                      rw [show (base.setNodeAt i nstar).nodeIdOf fid₂ =
                        s.nodeIdOf fid₂ from nodeIdOf_modifyNodeAt s j dmf _]
                      exact hc


theorem inv_setFullRemoteIndexed {s : FileManager} (i : Nat) (l : FullRemoteFileLocation)
    (h : Inv s) : Inv (setFullRemoteIndexed s i l) := by
  obtain ⟨h1, h2, h3, h4, h5, h6, h7, h8, h9, h10⟩ := h
  have hInv : Inv s := ⟨h1, h2, h3, h4, h5, h6, h7, h8, h9, h10⟩
  unfold setFullRemoteIndexed
  cases hnd : s.nodeAt i with
  | none => exact hInv
  | some n =>
    have hmain : s.nodeIdOf n.main_file_id_ = some i := by
      have hc := h1 i (nodeAt_lt_length hnd)
      rw [hnd] at hc
      exact hc
    show Inv (let s₂ : FileManager := match indexGet (indexEraseOpt s.remote_location_to_file_id_ n.remote_.fullOf) l with | none => s | some fid0 => match s.nodeIdOf fid0 with | none => s | some j => s.modifyNodeAt j (fun m => { m with remote_ := .empty, remote_ready_size_ := 0 }); ({ s₂ with remote_location_to_file_id_ := (l, n.main_file_id_) :: indexErase (indexEraseOpt s.remote_location_to_file_id_ n.remote_.fullOf) l } : FileManager).setNodeAt i { n with remote_ := .full l, remote_source_ := .FromServer, info_changed_flag_ := true, pmc_changed_flag_ := true })
    cases hA : indexGet (indexEraseOpt s.remote_location_to_file_id_ n.remote_.fullOf) l with
    | none =>
      show Inv (({ s with remote_location_to_file_id_ := (l, n.main_file_id_) :: indexErase (indexEraseOpt s.remote_location_to_file_id_ n.remote_.fullOf) l } : FileManager).setNodeAt i { n with remote_ := .full l, remote_source_ := .FromServer, info_changed_flag_ := true, pmc_changed_flag_ := true })
      set nstar : FileNode := { n with remote_ := .full l, remote_source_ := .FromServer, info_changed_flag_ := true, pmc_changed_flag_ := true } with hnstar
      set base : FileManager := { s with remote_location_to_file_id_ := (l, n.main_file_id_) :: indexErase (indexEraseOpt s.remote_location_to_file_id_ n.remote_.fullOf) l } with hbase_def
      have hbase_i : base.nodeAt i = some n := hnd
      have hset_i : (base.setNodeAt i nstar).nodeAt i = some nstar :=
        nodeAt_setNodeAt_self nstar hbase_i
      apply inv_remote_surgery ?_ ?_ ?_ ?_ ?_ ?_ ?_ ?_ ?_ ?_ hInv
      · exact Eq.trans (length_setNodeAt base i nstar) rfl
      · exact fun _ => rfl
      · rfl
      · rfl
      · rfl
      · rfl
      · intro x m hm
        by_cases hxe : x = i
        · subst hxe
          rw [hm] at hnd
          injection hnd with he
          subst he
          exact ⟨nstar, hset_i, rfl, rfl, rfl, fun _ => rfl⟩
        · refine ⟨m, ?_, rfl, rfl, rfl, fun _ => rfl⟩
          rw [nodeAt_setNodeAt_ne nstar hxe]
          exact hm
      · intro x hm
        have hxe : x ≠ i := by
          intro he
          rw [he, hnd] at hm
          exact absurd hm (by simp)
        rw [nodeAt_setNodeAt_ne nstar hxe]
        exact hm
      · intro p hp
        have hp' : p ∈ (l, n.main_file_id_) ::
            indexErase (indexEraseOpt s.remote_location_to_file_id_ n.remote_.fullOf) l := hp
        rcases List.mem_cons.mp hp' with hph | hpt
        · subst hph
          have hg : (base.setNodeAt i nstar).get_file_node n.main_file_id_ = some (i, nstar) :=
            get_file_node_eq_some.mpr ⟨hmain, hset_i⟩
          rw [hg]
          simp only [optIs_some, hnstar]
        · obtain ⟨hin_E, hne_l⟩ := mem_indexErase.mp hpt
          have hins := mem_indexEraseOpt hin_E
          have hc := h4 p hins
          cases hgf : s.get_file_node p.2 with
          | none => rw [hgf] at hc; exact absurd hc id
          | some pr =>
            rw [hgf] at hc
            simp only [optIs_some] at hc
            obtain ⟨hg1, hg2⟩ := get_file_node_eq_some.mp hgf
            by_cases hpi : pr.1 = i
            · exfalso
              rw [hpi, hnd] at hg2
              injection hg2 with he
              have hful : n.remote_.fullOf = some p.1 := by
                rw [← he] at hc
                exact remoteFullOf_eq_some.mpr hc
              rw [hful] at hin_E
              have hin2 : p ∈ indexErase s.remote_location_to_file_id_ p.1 := hin_E
              exact absurd rfl (mem_indexErase.mp hin2).2
            · have hg' : (base.setNodeAt i nstar).get_file_node p.2 = some pr := by
                apply get_file_node_eq_some.mpr
                refine ⟨hg1, ?_⟩
                rw [nodeAt_setNodeAt_ne nstar hpi]
                exact hg2
              rw [hg']
              simp only [optIs_some]
              exact hc
      · intro x hx
        have hx' : x < s.file_nodes_.length := by
          rw [show (base.setNodeAt i nstar).file_nodes_.length = s.file_nodes_.length from
            Eq.trans (length_setNodeAt base i nstar) rfl] at hx
          exact hx
        by_cases hxe : x = i
        · subst hxe
          rw [hset_i]
          simp only [optAll_some]
          show optAll ((RemoteFileLocation.full l).fullOf) _
          simp only [RemoteFileLocation.fullOf, optAll_some]
          have hlook : indexGet (base.setNodeAt x nstar).remote_location_to_file_id_ l =
              some n.main_file_id_ := by
            show indexGet ((l, n.main_file_id_) :: _) l = _
            rw [indexGet_cons, if_pos rfl]
          rw [hlook]
          simp only [optIs_some]
          exact hmain
        · rw [nodeAt_setNodeAt_ne nstar hxe, show base.nodeAt x = s.nodeAt x from rfl]
          cases hnx : s.nodeAt x with
          | none => exact trivial
          | some m =>
            have hc := h7 x hx'
            rw [hnx] at hc
            simp only [optAll_some] at hc ⊢
            cases hfm : m.remote_.fullOf with
            | none => exact trivial
            | some l₂ =>
              rw [hfm] at hc
              simp only [optAll_some] at hc ⊢
              have hl₂ : l₂ ≠ l := by
                intro he
                subst he
                cases hidx : indexGet s.remote_location_to_file_id_ l₂ with
                | none => rw [hidx] at hc; exact hc
                | some fid₂ =>
                  cases hfol : n.remote_.fullOf with
                  | none =>
                    rw [show indexEraseOpt s.remote_location_to_file_id_ n.remote_.fullOf =
                      s.remote_location_to_file_id_ from by rw [hfol]; rfl, hidx] at hA
                    exact Option.noConfusion hA
                  | some lo =>
                    by_cases hlo : lo = l₂
                    · subst hlo
                      exact hxe (remote_full_uniq h7 hnx hfm hnd hfol)
                    · rw [show indexGet (indexEraseOpt s.remote_location_to_file_id_
                          n.remote_.fullOf) l₂ = indexGet s.remote_location_to_file_id_ l₂ from by
                        rw [hfol]
                        exact indexGet_indexErase_ne _ (fun he' => hlo he'.symm), hidx] at hA
                      exact Option.noConfusion hA
              have hlook : indexGet (base.setNodeAt i nstar).remote_location_to_file_id_ l₂ =
                  indexGet s.remote_location_to_file_id_ l₂ := by
                show indexGet ((l, n.main_file_id_) :: indexErase
                  (indexEraseOpt s.remote_location_to_file_id_ n.remote_.fullOf) l) l₂ = _
                rw [indexGet_cons, if_neg (fun he => hl₂ he.symm),
                  indexGet_indexErase_ne _ hl₂]
                apply indexGet_indexEraseOpt_ne_of_ne
                intro lo hlo he
                subst he
                exact hxe (remote_full_uniq h7 hnx hfm hnd hlo)
              rw [hlook]
              cases hidx : indexGet s.remote_location_to_file_id_ l₂ with
              | none => rw [hidx] at hc; exact hc
              | some fid₂ =>
                rw [hidx] at hc
                simp only [optIs_some] at hc ⊢
                exact hc
    | some fid0 =>
      show Inv (let s₂ : FileManager := match s.nodeIdOf fid0 with | none => s | some j => s.modifyNodeAt j (fun m => { m with remote_ := .empty, remote_ready_size_ := 0 }); ({ s₂ with remote_location_to_file_id_ := (l, n.main_file_id_) :: indexErase (indexEraseOpt s.remote_location_to_file_id_ n.remote_.fullOf) l } : FileManager).setNodeAt i { n with remote_ := .full l, remote_source_ := .FromServer, info_changed_flag_ := true, pmc_changed_flag_ := true })
      have hent := indexGet_eq_some_mem hA
      have hents := mem_indexEraseOpt hent
      have hcs := h4 _ hents
      cases hgf0 : s.get_file_node fid0 with
      | none =>
        rw [hgf0] at hcs
        exact absurd hcs id
      | some pr0 =>
        rw [hgf0] at hcs
        simp only [optIs_some] at hcs
        obtain ⟨hg01, hg02⟩ := get_file_node_eq_some.mp hgf0
        cases hB : s.nodeIdOf fid0 with
        | none => rw [hB] at hg01; exact Option.noConfusion hg01
        | some j =>
          have hj0 : pr0.1 = j := by
            rw [hB] at hg01
            injection hg01 with he
            exact he.symm
          have hmj : s.nodeAt j = some pr0.2 := by
            rw [← hj0]
            exact hg02
          have hml : pr0.2.remote_ = RemoteFileLocation.full l := hcs
          have hmlf : pr0.2.remote_.fullOf = some l := remoteFullOf_eq_some.mpr hml
          have hji : j ≠ i := by
            intro he
            rw [he, hnd] at hmj
            injection hmj with he'
            have hful : n.remote_.fullOf = some l := by
              rw [← he'] at hmlf
              exact hmlf
            rw [hful] at hent
            have hent2 : ((l, fid0) : FullRemoteFileLocation × Nat) ∈
                indexErase s.remote_location_to_file_id_ l := hent
            exact absurd rfl (mem_indexErase.mp hent2).2
          show Inv ((({ (s.modifyNodeAt j (fun m => { m with remote_ := .empty, remote_ready_size_ := 0 })) with remote_location_to_file_id_ := (l, n.main_file_id_) :: indexErase (indexEraseOpt s.remote_location_to_file_id_ n.remote_.fullOf) l } : FileManager)).setNodeAt i { n with remote_ := .full l, remote_source_ := .FromServer, info_changed_flag_ := true, pmc_changed_flag_ := true })
          set dmf : FileNode → FileNode := fun m => { m with remote_ := RemoteFileLocation.empty, remote_ready_size_ := 0 } with hdmf
          set nstar : FileNode := { n with remote_ := .full l, remote_source_ := .FromServer, info_changed_flag_ := true, pmc_changed_flag_ := true } with hnstar
          set base : FileManager := { (s.modifyNodeAt j dmf) with remote_location_to_file_id_ := (l, n.main_file_id_) :: indexErase (indexEraseOpt s.remote_location_to_file_id_ n.remote_.fullOf) l } with hbase_def
          have hbase_i : base.nodeAt i = some n := by
            show (s.modifyNodeAt j dmf).nodeAt i = some n
            rw [nodeAt_modifyNodeAt_ne dmf (fun he => hji he.symm)]
            exact hnd
          have hbase_j : base.nodeAt j = some (dmf pr0.2) := by
            show (s.modifyNodeAt j dmf).nodeAt j = some (dmf pr0.2)
            exact nodeAt_modifyNodeAt_self dmf hmj
          have hbase_other : ∀ x, x ≠ i → x ≠ j → base.nodeAt x = s.nodeAt x := by
            intro x hxi hxj
            show (s.modifyNodeAt j dmf).nodeAt x = s.nodeAt x
            exact nodeAt_modifyNodeAt_ne dmf hxj
          have hset_i : (base.setNodeAt i nstar).nodeAt i = some nstar :=
            nodeAt_setNodeAt_self nstar hbase_i
          apply inv_remote_surgery ?_ ?_ ?_ ?_ ?_ ?_ ?_ ?_ ?_ ?_ hInv
          · exact Eq.trans (length_setNodeAt base i nstar)
              (length_modifyNodeAt s j dmf)
          · exact fun fid => nodeIdOf_modifyNodeAt s j dmf fid
          · exact local_index_modifyNodeAt s j dmf
          · exact generate_index_modifyNodeAt s j dmf
          · exact queries_modifyNodeAt s j dmf
          · exact next_modifyNodeAt s j dmf
          · intro x m hm
            by_cases hxe : x = i
            · subst hxe
              rw [hm] at hnd
              injection hnd with he
              subst he
              exact ⟨nstar, hset_i, rfl, rfl, rfl, fun _ => rfl⟩
            · by_cases hxj : x = j
              · subst hxj
                rw [hm] at hmj
                injection hmj with he
                subst he
                refine ⟨dmf pr0.2, ?_, rfl, rfl, rfl, fun _ => rfl⟩
                rw [nodeAt_setNodeAt_ne nstar hji]
                exact hbase_j
              · refine ⟨m, ?_, rfl, rfl, rfl, fun _ => rfl⟩
                rw [nodeAt_setNodeAt_ne nstar hxe, hbase_other x hxe hxj]
                exact hm
          · intro x hm
            have hxe : x ≠ i := by
              intro he
              rw [he, hnd] at hm
              exact absurd hm (by simp)
            have hxj : x ≠ j := by
              intro he
              rw [he, hmj] at hm
              exact absurd hm (by simp)
            rw [nodeAt_setNodeAt_ne nstar hxe, hbase_other x hxe hxj]
            exact hm
          · intro p hp
            have hp' : p ∈ (l, n.main_file_id_) ::
                indexErase (indexEraseOpt s.remote_location_to_file_id_ n.remote_.fullOf) l := hp
            rcases List.mem_cons.mp hp' with hph | hpt
            · subst hph
              have hg : (base.setNodeAt i nstar).get_file_node n.main_file_id_ =
                  some (i, nstar) :=
                get_file_node_eq_some.mpr
                  ⟨Eq.trans (nodeIdOf_modifyNodeAt s j dmf n.main_file_id_) hmain, hset_i⟩
              rw [hg]
              simp only [optIs_some, hnstar]
            · obtain ⟨hin_E, hne_l⟩ := mem_indexErase.mp hpt
              have hins := mem_indexEraseOpt hin_E
              have hc := h4 p hins
              cases hgf : s.get_file_node p.2 with
              | none => rw [hgf] at hc; exact absurd hc id
              | some pr =>
                rw [hgf] at hc
                simp only [optIs_some] at hc
                obtain ⟨hg1, hg2⟩ := get_file_node_eq_some.mp hgf
                by_cases hpi : pr.1 = i
                · exfalso
                  rw [hpi, hnd] at hg2
                  injection hg2 with he
                  have hful : n.remote_.fullOf = some p.1 := by
                    rw [← he] at hc
                    exact remoteFullOf_eq_some.mpr hc
                  rw [hful] at hin_E
                  have hin2 : p ∈ indexErase s.remote_location_to_file_id_ p.1 := hin_E
                  exact absurd rfl (mem_indexErase.mp hin2).2
                · by_cases hpj : pr.1 = j
                  · exfalso
                    rw [hpj, hmj] at hg2
                    injection hg2 with he
                    rw [he] at hml
                    rw [hml] at hc
                    injection hc with he'
                    exact hne_l he'.symm
                  · have hg' : (base.setNodeAt i nstar).get_file_node p.2 = some pr := by
                      apply get_file_node_eq_some.mpr
                      refine ⟨Eq.trans (nodeIdOf_modifyNodeAt s j dmf p.2) hg1, ?_⟩
                      rw [nodeAt_setNodeAt_ne nstar hpi, hbase_other pr.1 hpi hpj]
                      exact hg2
                    rw [hg']
                    simp only [optIs_some]
                    exact hc
          · intro x hx
            have hx' : x < s.file_nodes_.length := by
              rw [show (base.setNodeAt i nstar).file_nodes_.length = s.file_nodes_.length from
                Eq.trans (length_setNodeAt base i nstar)
                  (length_modifyNodeAt s j dmf)] at hx
              exact hx
            by_cases hxe : x = i
            · subst hxe
              rw [hset_i]
              simp only [optAll_some]
              show optAll ((RemoteFileLocation.full l).fullOf) _
              simp only [RemoteFileLocation.fullOf, optAll_some]
              have hlook : indexGet (base.setNodeAt x nstar).remote_location_to_file_id_ l =
                  some n.main_file_id_ := by
                show indexGet ((l, n.main_file_id_) :: _) l = _
                rw [indexGet_cons, if_pos rfl]
              rw [hlook]
              simp only [optIs_some]
              rw [show (base.setNodeAt x nstar).nodeIdOf n.main_file_id_ =
                s.nodeIdOf n.main_file_id_ from nodeIdOf_modifyNodeAt s j dmf _]
              exact hmain
            · by_cases hxj : x = j
              · subst hxj
                rw [nodeAt_setNodeAt_ne nstar hji, hbase_j]
                simp only [optAll_some]
                show optAll (RemoteFileLocation.empty.fullOf) _
                exact trivial
              · rw [nodeAt_setNodeAt_ne nstar hxe, hbase_other x hxe hxj]
                cases hnx : s.nodeAt x with
                | none => exact trivial
                | some m =>
                  have hc := h7 x hx'
                  rw [hnx] at hc
                  simp only [optAll_some] at hc ⊢
                  cases hfm : m.remote_.fullOf with
                  | none => exact trivial
                  | some l₂ =>
                    rw [hfm] at hc
                    simp only [optAll_some] at hc ⊢
                    have hl₂ : l₂ ≠ l := by
                      intro he
                      subst he
                      cases hidx : indexGet s.remote_location_to_file_id_ l₂ with
                      | none => rw [hidx] at hc; exact hc
                      | some fid₂ =>
                        cases hfol : n.remote_.fullOf with
                        | none =>
                          rw [show indexGet (indexEraseOpt s.remote_location_to_file_id_
                              n.remote_.fullOf) l₂ =
                              indexGet s.remote_location_to_file_id_ l₂ from by
                            rw [hfol]; rfl, hidx] at hA
                          rw [hidx] at hc
                          simp only [optIs_some] at hc
                          injection hA with heq
                          rw [heq] at hc
                          rw [hB] at hc
                          injection hc with he'
                          exact hxj he'.symm
                        | some lo =>
                          by_cases hlo : lo = l₂
                          · subst hlo
                            exact hxe (remote_full_uniq h7 hnx hfm hnd hfol)
                          · rw [show indexGet (indexEraseOpt s.remote_location_to_file_id_
                                n.remote_.fullOf) l₂ =
                                indexGet s.remote_location_to_file_id_ l₂ from by
                              rw [hfol]
                              exact indexGet_indexErase_ne _ (fun he' => hlo he'.symm),
                              hidx] at hA
                            rw [hidx] at hc
                            simp only [optIs_some] at hc
                            injection hA with heq
                            rw [heq] at hc
                            rw [hB] at hc
                            injection hc with he'
                            exact hxj he'.symm
                    have hlook : indexGet
                        (base.setNodeAt i nstar).remote_location_to_file_id_ l₂ =
                        indexGet s.remote_location_to_file_id_ l₂ := by
                      show indexGet ((l, n.main_file_id_) :: indexErase
                        (indexEraseOpt s.remote_location_to_file_id_ n.remote_.fullOf) l) l₂ = _
                      rw [indexGet_cons, if_neg (fun he => hl₂ he.symm),
                        indexGet_indexErase_ne _ hl₂]
                      apply indexGet_indexEraseOpt_ne_of_ne
                      intro lo hlo he
                      subst he
                      exact hxe (remote_full_uniq h7 hnx hfm hnd hlo)
                    rw [hlook]
                    cases hidx : indexGet s.remote_location_to_file_id_ l₂ with
                    | none => rw [hidx] at hc; exact hc
                    | some fid₂ =>
                      rw [hidx] at hc
                      simp only [optIs_some] at hc ⊢
                      rw [show (base.setNodeAt i nstar).nodeIdOf fid₂ =
                        s.nodeIdOf fid₂ from nodeIdOf_modifyNodeAt s j dmf _]
                      exact hc


/-- Two live nodes holding the same Full generate location are the same node. -/
theorem generate_full_uniq {s : FileManager} (h8 : GenerateCompleteOK s) {x y : Nat}
    {mx my : FileNode} {g₀ : FullGenerateFileLocation} (hx : s.nodeAt x = some mx)
    (hfx : mx.generate_.fullOf = some g₀) (hy : s.nodeAt y = some my)
    (hfy : my.generate_.fullOf = some g₀) : x = y := by
  have hcx := h8 x (nodeAt_lt_length hx)
  have hcy := h8 y (nodeAt_lt_length hy)
  rw [hx] at hcx
  rw [hy] at hcy
  simp only [optAll_some] at hcx hcy
  rw [hfx] at hcx
  rw [hfy] at hcy
  simp only [optAll_some] at hcx hcy
  cases hidx : indexGet s.generate_location_to_file_id_ g₀ with
  | none => rw [hidx] at hcx; exact absurd hcx id
  | some fid₂ =>
    rw [hidx] at hcx hcy
    simp only [optIs_some] at hcx hcy
    rw [hcx] at hcy
    exact Option.some.inj hcy

theorem mergeQueryIds_fst_pos {wq lq : Nat} (h : wq ≠ 0) : (mergeQueryIds wq lq).1 = wq := by
  unfold mergeQueryIds
  by_cases hl : lq = 0
  · rw [if_pos hl]
  · rw [if_neg hl, if_pos h]

theorem mergeQueryIds_fst_zero {wq lq : Nat} (h : wq = 0) : (mergeQueryIds wq lq).1 = lq := by
  unfold mergeQueryIds
  by_cases hl : lq = 0
  · rw [if_pos hl]
    rw [h, hl]
  · rw [if_neg hl, if_neg (fun hn => hn h)]

theorem mem_mergeQueryIds_snd {wq lq q : Nat} (h : q ∈ (mergeQueryIds wq lq).2) :
    q = lq ∧ lq ≠ 0 ∧ wq ≠ 0 := by
  unfold mergeQueryIds at h
  by_cases hl : lq = 0
  · rw [if_pos hl] at h
    exact absurd h (List.not_mem_nil q)
  · rw [if_neg hl] at h
    by_cases hw : wq ≠ 0
    · rw [if_pos hw] at h
      exact ⟨List.mem_singleton.mp h, hl, hw⟩
    · rw [if_neg hw] at h
      exact absurd h (List.not_mem_nil q)

theorem mergeQueryIds_snd_mem {wq lq : Nat} (hl : lq ≠ 0) (hw : wq ≠ 0) :
    lq ∈ (mergeQueryIds wq lq).2 := by
  unfold mergeQueryIds
  rw [if_neg hl, if_pos hw]
  exact List.mem_singleton.mpr rfl

theorem mergeNode_queryIdOfKind (fs : String → Option FsStat) (wn ln : FileNode)
    (k : WorkerKind) : (mergeNode fs wn ln).queryIdOfKind k =
      (mergeQueryIds (wn.queryIdOfKind k) (ln.queryIdOfKind k)).1 := by
  cases k <;> rfl

theorem mergeNode_local (fs : String → Option FsStat) (wn ln : FileNode) :
    (mergeNode fs wn ln).local_ = (mergeLocalLocation fs wn.local_ ln.local_).result := rfl

theorem mergeNode_remote (fs : String → Option FsStat) (wn ln : FileNode) :
    (mergeNode fs wn ln).remote_ =
      (mergeRemoteLocation wn.remote_ ln.remote_ wn.remote_source_ ln.remote_source_).result :=
  rfl

theorem mergeNode_generate (fs : String → Option FsStat) (wn ln : FileNode) :
    (mergeNode fs wn ln).generate_ = (mergeGenerateLocation wn.generate_ ln.generate_).result :=
  rfl

theorem mergeNode_main (fs : String → Option FsStat) (wn ln : FileNode) :
    (mergeNode fs wn ln).main_file_id_ = wn.main_file_id_ := rfl

theorem mem_mergeCancelled {wn ln : FileNode} {q : Nat} (h : q ∈ mergeCancelled wn ln) :
    ∃ k : WorkerKind, q = ln.queryIdOfKind k ∧ ln.queryIdOfKind k ≠ 0 ∧
      wn.queryIdOfKind k ≠ 0 := by
  unfold mergeCancelled at h
  rcases List.mem_append.mp h with h' | hg
  · rcases List.mem_append.mp h' with hd | hu
    · obtain ⟨he, hl, hw⟩ := mem_mergeQueryIds_snd hd
      exact ⟨.download, he, hl, hw⟩
    · obtain ⟨he, hl, hw⟩ := mem_mergeQueryIds_snd hu
      exact ⟨.upload, he, hl, hw⟩
  · obtain ⟨he, hl, hw⟩ := mem_mergeQueryIds_snd hg
    exact ⟨.generate, he, hl, hw⟩

theorem mergeCancelled_mem {wn ln : FileNode} (k : WorkerKind)
    (hl : ln.queryIdOfKind k ≠ 0) (hw : wn.queryIdOfKind k ≠ 0) :
    ln.queryIdOfKind k ∈ mergeCancelled wn ln := by
  unfold mergeCancelled
  cases k with
  | download =>
    exact List.mem_append_left _ (List.mem_append_left _ (mergeQueryIds_snd_mem hl hw))
  | upload =>
    exact List.mem_append_left _ (List.mem_append_right _ (mergeQueryIds_snd_mem hl hw))
  | generate => exact List.mem_append_right _ (mergeQueryIds_snd_mem hl hw)

end FileManager

theorem indexGet_filter {K V : Type} [DecidableEq K] {idx : List (K × V)}
    {f : K × V → Bool} {k : K} {v : V} (h : indexGet idx k = some v)
    (hf : f (k, v) = true) : indexGet (idx.filter f) k = some v := by
  induction idx with
  | nil => exact Option.noConfusion h
  | cons p rest ih =>
    obtain ⟨k', v'⟩ := p
    rw [indexGet_cons] at h
    by_cases he : k' = k
    · subst he
      rw [if_pos rfl] at h
      injection h with hv
      subst hv
      rw [List.filter_cons, if_pos hf, indexGet_cons, if_pos rfl]
    · rw [if_neg he] at h
      rw [List.filter_cons]
      cases hfk : f (k', v') with
      | true =>
        rw [if_pos rfl, indexGet_cons, if_neg he]
        exact ih h
      | false =>
        rw [if_neg Bool.false_ne_true]
        exact ih h

namespace FileManager


theorem mergeLocalLocation_result_w {fs : String → Option FsStat}
    {wl ll : LocalFileLocation} {f : FullLocalFileLocation} (hw : wl = .full f)
    (hew : (mergeLocalLocation fs wl ll).erase_winner ≠ some f) :
    (mergeLocalLocation fs wl ll).result = .full f := by
  subst hw
  cases ll with
  | empty => rfl
  | part pl => rfl
  | full lf =>
    by_cases he : f = lf
    · simp only [mergeLocalLocation]
      rw [if_pos he]
    · simp only [mergeLocalLocation] at hew ⊢
      rw [if_neg he] at hew ⊢
      by_cases hfs : (fs f.path_).isSome
      · rw [if_pos hfs]
      · rw [if_neg hfs] at hew
        exact absurd rfl hew

theorem mergeLocalLocation_result_l {fs : String → Option FsStat}
    {wl ll : LocalFileLocation} {f : FullLocalFileLocation} (hl : ll = .full f)
    (hel : (mergeLocalLocation fs wl ll).erase_loser ≠ some f) :
    (mergeLocalLocation fs wl ll).result = .full f := by
  subst hl
  cases wl with
  | empty => rfl
  | part pl => rfl
  | full wf =>
    by_cases he : wf = f
    · simp only [mergeLocalLocation]
      rw [if_pos he, he]
    · simp only [mergeLocalLocation] at hel ⊢
      rw [if_neg he] at hel ⊢
      by_cases hfs : (fs wf.path_).isSome
      · rw [if_pos hfs] at hel
        exact absurd rfl hel
      · rw [if_neg hfs]

theorem mergeLocalLocation_result_full {fs : String → Option FsStat}
    {wl ll : LocalFileLocation} {f : FullLocalFileLocation}
    (h : (mergeLocalLocation fs wl ll).result = .full f) :
    ((∀ g, (mergeLocalLocation fs wl ll).erase_winner = some g → g ≠ f) ∧
      (∀ g, (mergeLocalLocation fs wl ll).erase_loser = some g → g ≠ f)) ∧
    (wl = .full f ∨ ll = .full f) := by
  cases wl with
  | empty =>
    cases ll with
    | empty => exact absurd h (by simp [mergeLocalLocation])
    | part pl => exact absurd h (by simp [mergeLocalLocation])
    | full lf =>
      refine ⟨⟨fun g hg => absurd hg (by simp [mergeLocalLocation]),
        fun g hg => absurd hg (by simp [mergeLocalLocation])⟩, Or.inr ?_⟩
      have h' : LocalFileLocation.full lf = .full f := h
      rw [h']
  | part pw =>
    cases ll with
    | empty => exact absurd h (by simp [mergeLocalLocation])
    | part pl => exact absurd h (by simp [mergeLocalLocation])
    | full lf =>
      refine ⟨⟨fun g hg => absurd hg (by simp [mergeLocalLocation]),
        fun g hg => absurd hg (by simp [mergeLocalLocation])⟩, Or.inr ?_⟩
      have h' : LocalFileLocation.full lf = .full f := h
      rw [h']
  | full wf =>
    cases ll with
    | empty =>
      refine ⟨⟨fun g hg => absurd hg (by simp [mergeLocalLocation]),
        fun g hg => absurd hg (by simp [mergeLocalLocation])⟩, Or.inl ?_⟩
      have h' : LocalFileLocation.full wf = .full f := h
      rw [h']
    | part pl =>
      refine ⟨⟨fun g hg => absurd hg (by simp [mergeLocalLocation]),
        fun g hg => absurd hg (by simp [mergeLocalLocation])⟩, Or.inl ?_⟩
      have h' : LocalFileLocation.full wf = .full f := h
      rw [h']
    | full lf =>
      simp only [mergeLocalLocation] at h ⊢
      by_cases he : wf = lf
      · rw [if_pos he] at h ⊢
        have hwf : wf = f := LocalFileLocation.full.inj h
        exact ⟨⟨fun g hg => absurd hg (by simp), fun g hg => absurd hg (by simp)⟩,
          Or.inl (by rw [hwf])⟩
      · rw [if_neg he] at h ⊢
        by_cases hfs : ((fs wf.path_).isSome : Prop)
        · rw [if_pos hfs] at h ⊢
          have hwf : wf = f := LocalFileLocation.full.inj h
          refine ⟨⟨fun g hg => absurd hg (by simp), fun g hg => ?_⟩, Or.inl (by rw [hwf])⟩
          have hg' : lf = g := Option.some.inj hg
          rw [← hg', ← hwf]
          exact fun hc => he hc.symm
        · rw [if_neg hfs] at h ⊢
          have hlf : lf = f := LocalFileLocation.full.inj h
          refine ⟨⟨fun g hg => ?_, fun g hg => absurd hg (by simp)⟩, Or.inr (by rw [hlf])⟩
          have hg' : wf = g := Option.some.inj hg
          rw [← hg', ← hlf]
          exact he

theorem mergeRemoteLocation_result_w {wr lr : RemoteFileLocation}
    {wsrc lsrc : FileLocationSource} {f : FullRemoteFileLocation} (hw : wr = .full f)
    (hew : (mergeRemoteLocation wr lr wsrc lsrc).erase_winner ≠ some f) :
    (mergeRemoteLocation wr lr wsrc lsrc).result = .full f := by
  subst hw
  cases lr with
  | empty => rfl
  | part pl => rfl
  | full lf =>
    by_cases he : f = lf
    · simp only [mergeRemoteLocation]
      rw [if_pos he]
    · simp only [mergeRemoteLocation] at hew ⊢
      rw [if_neg he] at hew ⊢
      by_cases hsrc : lsrc = .FromServer ∧ wsrc ≠ .FromServer
      · rw [if_pos hsrc] at hew
        exact absurd rfl hew
      · rw [if_neg hsrc]

theorem mergeRemoteLocation_result_l {wr lr : RemoteFileLocation}
    {wsrc lsrc : FileLocationSource} {f : FullRemoteFileLocation} (hl : lr = .full f)
    (hel : (mergeRemoteLocation wr lr wsrc lsrc).erase_loser ≠ some f) :
    (mergeRemoteLocation wr lr wsrc lsrc).result = .full f := by
  subst hl
  cases wr with
  | empty => rfl
  | part pw => rfl
  | full wf =>
    by_cases he : wf = f
    · simp only [mergeRemoteLocation]
      rw [if_pos he, he]
    · simp only [mergeRemoteLocation] at hel ⊢
      rw [if_neg he] at hel ⊢
      by_cases hsrc : lsrc = .FromServer ∧ wsrc ≠ .FromServer
      · rw [if_pos hsrc]
      · rw [if_neg hsrc] at hel
        exact absurd rfl hel

theorem mergeRemoteLocation_result_full {wr lr : RemoteFileLocation}
    {wsrc lsrc : FileLocationSource} {f : FullRemoteFileLocation}
    (h : (mergeRemoteLocation wr lr wsrc lsrc).result = .full f) :
    ((∀ g, (mergeRemoteLocation wr lr wsrc lsrc).erase_winner = some g → g ≠ f) ∧
      (∀ g, (mergeRemoteLocation wr lr wsrc lsrc).erase_loser = some g → g ≠ f)) ∧
    (wr = .full f ∨ lr = .full f) := by
  cases wr with
  | empty =>
    cases lr with
    | empty => exact absurd h (by simp [mergeRemoteLocation])
    | part pl => exact absurd h (by simp [mergeRemoteLocation])
    | full lf =>
      refine ⟨⟨fun g hg => absurd hg (by simp [mergeRemoteLocation]),
        fun g hg => absurd hg (by simp [mergeRemoteLocation])⟩, Or.inr ?_⟩
      have h' : RemoteFileLocation.full lf = .full f := h
      rw [h']
  | part pw =>
    cases lr with
    | empty => exact absurd h (by simp [mergeRemoteLocation])
    | part pl => exact absurd h (by simp [mergeRemoteLocation])
    | full lf =>
      refine ⟨⟨fun g hg => absurd hg (by simp [mergeRemoteLocation]),
        fun g hg => absurd hg (by simp [mergeRemoteLocation])⟩, Or.inr ?_⟩
      have h' : RemoteFileLocation.full lf = .full f := h
      rw [h']
  | full wf =>
    cases lr with
    | empty =>
      refine ⟨⟨fun g hg => absurd hg (by simp [mergeRemoteLocation]),
        fun g hg => absurd hg (by simp [mergeRemoteLocation])⟩, Or.inl ?_⟩
      have h' : RemoteFileLocation.full wf = .full f := h
      rw [h']
    | part pl =>
      refine ⟨⟨fun g hg => absurd hg (by simp [mergeRemoteLocation]),
        fun g hg => absurd hg (by simp [mergeRemoteLocation])⟩, Or.inl ?_⟩
      have h' : RemoteFileLocation.full wf = .full f := h
      rw [h']
    | full lf =>
      simp only [mergeRemoteLocation] at h ⊢
      by_cases he : wf = lf
      · rw [if_pos he] at h ⊢
        have hwf : wf = f := RemoteFileLocation.full.inj h
        exact ⟨⟨fun g hg => absurd hg (by simp), fun g hg => absurd hg (by simp)⟩,
          Or.inl (by rw [hwf])⟩
      · rw [if_neg he] at h ⊢
        by_cases hsrc : lsrc = .FromServer ∧ wsrc ≠ .FromServer
        · rw [if_pos hsrc] at h ⊢
          have hlf : lf = f := RemoteFileLocation.full.inj h
          refine ⟨⟨fun g hg => ?_, fun g hg => absurd hg (by simp)⟩, Or.inr (by rw [hlf])⟩
          have hg' : wf = g := Option.some.inj hg
          rw [← hg', ← hlf]
          exact he
        · rw [if_neg hsrc] at h ⊢
          have hwf : wf = f := RemoteFileLocation.full.inj h
          refine ⟨⟨fun g hg => absurd hg (by simp), fun g hg => ?_⟩, Or.inl (by rw [hwf])⟩
          have hg' : lf = g := Option.some.inj hg
          rw [← hg', ← hwf]
          exact fun hc => he hc.symm

theorem mergeGenerateLocation_result_w {wg lg : GenerateFileLocation}
    {f : FullGenerateFileLocation} (hw : wg = .full f) :
    (mergeGenerateLocation wg lg).result = .full f := by
  subst hw
  cases lg with
  | empty => rfl
  | full lf =>
    by_cases he : f = lf
    · simp only [mergeGenerateLocation]
      rw [if_pos he]
    · simp only [mergeGenerateLocation]
      rw [if_neg he]

theorem mergeGenerateLocation_result_l {wg lg : GenerateFileLocation}
    {f : FullGenerateFileLocation} (hl : lg = .full f)
    (hel : (mergeGenerateLocation wg lg).erase_loser ≠ some f) :
    (mergeGenerateLocation wg lg).result = .full f := by
  subst hl
  cases wg with
  | empty => rfl
  | full wf =>
    by_cases he : wf = f
    · simp only [mergeGenerateLocation]
      rw [if_pos he, he]
    · simp only [mergeGenerateLocation] at hel ⊢
      rw [if_neg he] at hel
      exact absurd rfl hel

theorem mergeGenerateLocation_result_full {wg lg : GenerateFileLocation}
    {f : FullGenerateFileLocation}
    (h : (mergeGenerateLocation wg lg).result = .full f) :
    (∀ g, (mergeGenerateLocation wg lg).erase_loser = some g → g ≠ f) ∧
      (wg = .full f ∨ lg = .full f) := by
  cases wg with
  | empty =>
    cases lg with
    | empty => exact absurd h (by simp [mergeGenerateLocation])
    | full lf =>
      refine ⟨fun g hg => absurd hg (by simp [mergeGenerateLocation]), Or.inr ?_⟩
      have h' : GenerateFileLocation.full lf = .full f := h
      rw [h']
  | full wf =>
    cases lg with
    | empty =>
      refine ⟨fun g hg => absurd hg (by simp [mergeGenerateLocation]), Or.inl ?_⟩
      have h' : GenerateFileLocation.full wf = .full f := h
      rw [h']
    | full lf =>
      simp only [mergeGenerateLocation] at h ⊢
      by_cases he : wf = lf
      · rw [if_pos he] at h ⊢
        have hwf : wf = f := GenerateFileLocation.full.inj h
        exact ⟨fun g hg => absurd hg (by simp), Or.inl (by rw [hwf])⟩
      · rw [if_neg he] at h ⊢
        have hwf : wf = f := GenerateFileLocation.full.inj h
        refine ⟨fun g hg => ?_, Or.inl (by rw [hwf])⟩
        have hg' : lf = g := Option.some.inj hg
        rw [← hg', ← hwf]
        exact fun hc => he hc.symm

theorem mergeLocalLocation_erase_winner_eq {fs : String → Option FsStat}
    {wl ll : LocalFileLocation} {g : FullLocalFileLocation}
    (h : (mergeLocalLocation fs wl ll).erase_winner = some g) : wl = .full g := by
  cases wl with
  | empty => cases ll <;> exact absurd h (by simp [mergeLocalLocation])
  | part pw => cases ll <;> exact absurd h (by simp [mergeLocalLocation])
  | full wf =>
    cases ll with
    | empty => exact absurd h (by simp [mergeLocalLocation])
    | part pl => exact absurd h (by simp [mergeLocalLocation])
    | full lf =>
      simp only [mergeLocalLocation] at h
      by_cases he : wf = lf
      · rw [if_pos he] at h
        exact absurd h (by simp)
      · rw [if_neg he] at h
        by_cases hfs : ((fs wf.path_).isSome : Prop)
        · rw [if_pos hfs] at h
          exact absurd h (by simp)
        · rw [if_neg hfs] at h
          rw [Option.some.inj h]

theorem mergeLocalLocation_erase_loser_eq {fs : String → Option FsStat}
    {wl ll : LocalFileLocation} {g : FullLocalFileLocation}
    (h : (mergeLocalLocation fs wl ll).erase_loser = some g) : ll = .full g := by
  cases wl with
  | empty => cases ll <;> exact absurd h (by simp [mergeLocalLocation])
  | part pw => cases ll <;> exact absurd h (by simp [mergeLocalLocation])
  | full wf =>
    cases ll with
    | empty => exact absurd h (by simp [mergeLocalLocation])
    | part pl => exact absurd h (by simp [mergeLocalLocation])
    | full lf =>
      simp only [mergeLocalLocation] at h
      by_cases he : wf = lf
      · rw [if_pos he] at h
        exact absurd h (by simp)
      · rw [if_neg he] at h
        by_cases hfs : ((fs wf.path_).isSome : Prop)
        · rw [if_pos hfs] at h
          rw [Option.some.inj h]
        · rw [if_neg hfs] at h
          exact absurd h (by simp)

theorem mergeRemoteLocation_erase_winner_eq {wr lr : RemoteFileLocation}
    {wsrc lsrc : FileLocationSource} {g : FullRemoteFileLocation}
    (h : (mergeRemoteLocation wr lr wsrc lsrc).erase_winner = some g) : wr = .full g := by
  cases wr with
  | empty => cases lr <;> exact absurd h (by simp [mergeRemoteLocation])
  | part pw => cases lr <;> exact absurd h (by simp [mergeRemoteLocation])
  | full wf =>
    cases lr with
    | empty => exact absurd h (by simp [mergeRemoteLocation])
    | part pl => exact absurd h (by simp [mergeRemoteLocation])
    | full lf =>
      simp only [mergeRemoteLocation] at h
      by_cases he : wf = lf
      · rw [if_pos he] at h
        exact absurd h (by simp)
      · rw [if_neg he] at h
        by_cases hsrc : lsrc = .FromServer ∧ wsrc ≠ .FromServer
        · rw [if_pos hsrc] at h
          rw [Option.some.inj h]
        · rw [if_neg hsrc] at h
          exact absurd h (by simp)

theorem mergeRemoteLocation_erase_loser_eq {wr lr : RemoteFileLocation}
    {wsrc lsrc : FileLocationSource} {g : FullRemoteFileLocation}
    (h : (mergeRemoteLocation wr lr wsrc lsrc).erase_loser = some g) : lr = .full g := by
  cases wr with
  | empty => cases lr <;> exact absurd h (by simp [mergeRemoteLocation])
  | part pw => cases lr <;> exact absurd h (by simp [mergeRemoteLocation])
  | full wf =>
    cases lr with
    | empty => exact absurd h (by simp [mergeRemoteLocation])
    | part pl => exact absurd h (by simp [mergeRemoteLocation])
    | full lf =>
      simp only [mergeRemoteLocation] at h
      by_cases he : wf = lf
      · rw [if_pos he] at h
        exact absurd h (by simp)
      · rw [if_neg he] at h
        by_cases hsrc : lsrc = .FromServer ∧ wsrc ≠ .FromServer
        · rw [if_pos hsrc] at h
          exact absurd h (by simp)
        · rw [if_neg hsrc] at h
          rw [Option.some.inj h]

theorem mergeGenerateLocation_erase_loser_eq {wg lg : GenerateFileLocation}
    {g : FullGenerateFileLocation}
    (h : (mergeGenerateLocation wg lg).erase_loser = some g) : lg = .full g := by
  cases wg with
  | empty => cases lg <;> exact absurd h (by simp [mergeGenerateLocation])
  | full wf =>
    cases lg with
    | empty => exact absurd h (by simp [mergeGenerateLocation])
    | full lf =>
      simp only [mergeGenerateLocation] at h
      by_cases he : wf = lf
      · rw [if_pos he] at h
        exact absurd h (by simp)
      · rw [if_neg he] at h
        rw [Option.some.inj h]


theorem mergeInto_length (s : FileManager) (w l : Nat) (wn ln : FileNode)
    (fs : String → Option FsStat) :
    (mergeInto s w l wn ln fs).file_nodes_.length = s.file_nodes_.length := by
  show ((s.file_nodes_.set w (some (mergeNode fs wn ln))).set l none).length = _
  rw [List.length_set, List.length_set]

theorem mergeInto_nodeIdOf (s : FileManager) (w l : Nat) (wn ln : FileNode)
    (fs : String → Option FsStat) (fid : Nat) :
    (mergeInto s w l wn ln fs).nodeIdOf fid =
      (s.nodeIdOf fid).map (fun k => if k = l then w else k) := by
  show ((s.file_id_info_.map (fun info =>
      if info.node_id_ = l then { info with node_id_ := w } else info))[fid]?).map
      FileIdInfo.node_id_ =
    ((s.file_id_info_[fid]?).map FileIdInfo.node_id_).map (fun k => if k = l then w else k)
  rw [List.getElem?_map]
  cases h : s.file_id_info_[fid]? with
  | none => rfl
  | some info =>
    simp only [Option.map_some']
    by_cases hc : info.node_id_ = l
    · rw [if_pos hc]
      show some w = some (if info.node_id_ = l then w else info.node_id_)
      rw [if_pos hc]
    · rw [if_neg hc]
      show some info.node_id_ = some (if info.node_id_ = l then w else info.node_id_)
      rw [if_neg hc]

theorem mergeInto_nodeAt_loser {s : FileManager} {w l : Nat} (wn ln : FileNode)
    (fs : String → Option FsStat) (hlt : l < s.file_nodes_.length) :
    (mergeInto s w l wn ln fs).nodeAt l = none := by
  show (((s.file_nodes_.set w (some (mergeNode fs wn ln))).set l none)[l]?).bind id = none
  rw [List.getElem?_set_self (by rw [List.length_set]; exact hlt)]
  rfl

theorem mergeInto_nodeAt_winner {s : FileManager} {w l : Nat} (wn ln : FileNode)
    (fs : String → Option FsStat) (hwl : w ≠ l) (hlt : w < s.file_nodes_.length) :
    (mergeInto s w l wn ln fs).nodeAt w = some (mergeNode fs wn ln) := by
  show (((s.file_nodes_.set w (some (mergeNode fs wn ln))).set l none)[w]?).bind id = _
  rw [List.getElem?_set_ne (fun he => hwl he.symm), List.getElem?_set_self hlt]
  rfl

theorem mergeInto_nodeAt_other {s : FileManager} {w l x : Nat} (wn ln : FileNode)
    (fs : String → Option FsStat) (hxw : x ≠ w) (hxl : x ≠ l) :
    (mergeInto s w l wn ln fs).nodeAt x = s.nodeAt x := by
  show (((s.file_nodes_.set w (some (mergeNode fs wn ln))).set l none)[x]?).bind id =
    (s.file_nodes_[x]?).bind id
  rw [List.getElem?_set_ne (fun he => hxl he.symm), List.getElem?_set_ne (fun he => hxw he.symm)]

theorem mergeInto_queries (s : FileManager) (w l : Nat) (wn ln : FileNode)
    (fs : String → Option FsStat) :
    (mergeInto s w l wn ln fs).queries_container_ =
      s.queries_container_.filter (fun p => decide (p.1 ∉ mergeCancelled wn ln)) := rfl

theorem mergeInto_next (s : FileManager) (w l : Nat) (wn ln : FileNode)
    (fs : String → Option FsStat) :
    (mergeInto s w l wn ln fs).next_query_id_ = s.next_query_id_ := rfl

theorem mergeInto_local_index (s : FileManager) (w l : Nat) (wn ln : FileNode)
    (fs : String → Option FsStat) :
    (mergeInto s w l wn ln fs).local_location_to_file_id_ =
      indexEraseOpt
        (indexEraseOpt s.local_location_to_file_id_
          (mergeLocalLocation fs wn.local_ ln.local_).erase_winner)
        (mergeLocalLocation fs wn.local_ ln.local_).erase_loser := rfl

theorem mergeInto_remote_index (s : FileManager) (w l : Nat) (wn ln : FileNode)
    (fs : String → Option FsStat) :
    (mergeInto s w l wn ln fs).remote_location_to_file_id_ =
      indexEraseOpt
        (indexEraseOpt s.remote_location_to_file_id_
          (mergeRemoteLocation wn.remote_ ln.remote_ wn.remote_source_
            ln.remote_source_).erase_winner)
        (mergeRemoteLocation wn.remote_ ln.remote_ wn.remote_source_
          ln.remote_source_).erase_loser := rfl

theorem mergeInto_generate_index (s : FileManager) (w l : Nat) (wn ln : FileNode)
    (fs : String → Option FsStat) :
    (mergeInto s w l wn ln fs).generate_location_to_file_id_ =
      indexEraseOpt s.generate_location_to_file_id_
        (mergeGenerateLocation wn.generate_ ln.generate_).erase_loser := rfl


theorem inv_mergeInto {s : FileManager} {w l : Nat} {wn ln : FileNode}
    (fs : String → Option FsStat) (hw : s.nodeAt w = some wn) (hl : s.nodeAt l = some ln)
    (hwl : w ≠ l) (h : Inv s) : Inv (mergeInto s w l wn ln fs) := by
  obtain ⟨h1, h2, h3, h4, h5, h6, h7, h8, h9, h10⟩ := h
  have hInv : Inv s := ⟨h1, h2, h3, h4, h5, h6, h7, h8, h9, h10⟩
  have hwlt := nodeAt_lt_length hw
  have hllt := nodeAt_lt_length hl
  have hNw : (mergeInto s w l wn ln fs).nodeAt w = some (mergeNode fs wn ln) :=
    mergeInto_nodeAt_winner wn ln fs hwl hwlt
  have hNl : (mergeInto s w l wn ln fs).nodeAt l = none :=
    mergeInto_nodeAt_loser wn ln fs hllt
  have hNo : ∀ x, x ≠ w → x ≠ l → (mergeInto s w l wn ln fs).nodeAt x = s.nodeAt x :=
    fun x hxw hxl => mergeInto_nodeAt_other wn ln fs hxw hxl
  have hId := mergeInto_nodeIdOf s w l wn ln fs
  have hIdw : ∀ fid, s.nodeIdOf fid = some w →
      (mergeInto s w l wn ln fs).nodeIdOf fid = some w := by
    intro fid hf
    rw [hId fid, hf]
    simp only [Option.map_some']
    rw [if_neg hwl]
  have hIdl : ∀ fid, s.nodeIdOf fid = some l →
      (mergeInto s w l wn ln fs).nodeIdOf fid = some w := by
    intro fid hf
    rw [hId fid, hf]
    simp
  have hIdo : ∀ fid k, k ≠ l → s.nodeIdOf fid = some k →
      (mergeInto s w l wn ln fs).nodeIdOf fid = some k := by
    intro fid k hk hf
    rw [hId fid, hf]
    simp only [Option.map_some']
    rw [if_neg hk]
  have hGw : ∀ fid, s.nodeIdOf fid = some w →
      (mergeInto s w l wn ln fs).get_file_node fid = some (w, mergeNode fs wn ln) :=
    fun fid hf => get_file_node_eq_some.mpr ⟨hIdw fid hf, hNw⟩
  have hGl : ∀ fid, s.nodeIdOf fid = some l →
      (mergeInto s w l wn ln fs).get_file_node fid = some (w, mergeNode fs wn ln) :=
    fun fid hf => get_file_node_eq_some.mpr ⟨hIdl fid hf, hNw⟩
  have hGo : ∀ fid k m, k ≠ w → k ≠ l → s.get_file_node fid = some (k, m) →
      (mergeInto s w l wn ln fs).get_file_node fid = some (k, m) := by
    intro fid k m hkw hkl hg
    obtain ⟨hg1, hg2⟩ := get_file_node_eq_some.mp hg
    exact get_file_node_eq_some.mpr ⟨hIdo fid k hkl hg1, by rw [hNo k hkw hkl]; exact hg2⟩
  have hQmem : ∀ p, p ∈ (mergeInto s w l wn ln fs).queries_container_ →
      p ∈ s.queries_container_ ∧ p.1 ∉ mergeCancelled wn ln := by
    intro p hp
    rw [mergeInto_queries] at hp
    have hp' := List.mem_filter.mp hp
    exact ⟨hp'.1, of_decide_eq_true hp'.2⟩
  have hQget : ∀ qid q, indexGet s.queries_container_ qid = some q →
      qid ∉ mergeCancelled wn ln →
      indexGet (mergeInto s w l wn ln fs).queries_container_ qid = some q := by
    intro qid q hq hnc
    rw [mergeInto_queries]
    exact indexGet_filter hq (decide_eq_true hnc)
  have hNCl : ∀ k : WorkerKind, wn.queryIdOfKind k = 0 → ln.queryIdOfKind k ≠ 0 →
      ln.queryIdOfKind k ∉ mergeCancelled wn ln := by
    intro k hwk hk hmem
    obtain ⟨k', he, hl', hw'⟩ := mem_mergeCancelled hmem
    have hinj := slot_inj hInv hl hl hk hl' he
    rw [hinj.2] at hwk
    exact hw' hwk
  have hNCo : ∀ x n k, s.nodeAt x = some n → x ≠ l → n.queryIdOfKind k ≠ 0 →
      n.queryIdOfKind k ∉ mergeCancelled wn ln := by
    intro x n k hx hxl hk hmem
    obtain ⟨k', he, hl', hw'⟩ := mem_mergeCancelled hmem
    have hinj := slot_inj hInv hx hl hk hl' he
    exact hxl hinj.1
  constructor
  · -- MainOK
    intro x hx
    rw [mergeInto_length] at hx
    by_cases hxl : x = l
    · rw [hxl, hNl]
      exact trivial
    · by_cases hxw : x = w
      · rw [hxw, hNw]
        simp only [optAll_some, mergeNode_main]
        apply hIdw
        have hc := h1 w hwlt
        rw [hw] at hc
        exact hc
      · rw [hNo x hxw hxl]
        cases hnx : s.nodeAt x with
        | none => exact trivial
        | some m =>
          simp only [optAll_some]
          have hc := h1 x hx
          rw [hnx] at hc
          simp only [optAll_some] at hc
          exact hIdo m.main_file_id_ x hxl hc
  · -- NextOK
    show 1 ≤ (mergeInto s w l wn ln fs).next_query_id_
    rw [mergeInto_next]
    exact h2
  · -- LocalIndexOK
    intro p hp
    rw [mergeInto_local_index] at hp
    have hpE : p ∈ indexEraseOpt s.local_location_to_file_id_
        (mergeLocalLocation fs wn.local_ ln.local_).erase_winner := mem_indexEraseOpt hp
    have hps : p ∈ s.local_location_to_file_id_ := mem_indexEraseOpt hpE
    have hc := h3 p hps
    cases hgf : s.get_file_node p.2 with
    | none => rw [hgf] at hc; exact absurd hc id
    | some pr =>
      rw [hgf] at hc
      simp only [optIs_some] at hc
      obtain ⟨hg1, hg2⟩ := get_file_node_eq_some.mp hgf
      by_cases hkw : pr.1 = w
      · rw [hkw, hw] at hg2
        have hmk := Option.some.inj hg2
        have hwlloc : wn.local_ = .full p.1 := by rw [hmk]; exact hc
        have hew : (mergeLocalLocation fs wn.local_ ln.local_).erase_winner ≠ some p.1 := by
          intro hewe
          rw [hewe] at hpE
          have hpE' : p ∈ indexErase s.local_location_to_file_id_ p.1 := hpE
          exact absurd rfl (mem_indexErase.mp hpE').2
        have hres := mergeLocalLocation_result_w hwlloc hew
        rw [hkw] at hg1
        rw [hGw p.2 hg1]
        simp only [optIs_some]
        show (mergeNode fs wn ln).local_ = .full p.1
        rw [mergeNode_local, hres]
      · by_cases hkl : pr.1 = l
        · rw [hkl, hl] at hg2
          have hmk := Option.some.inj hg2
          have hlloc : ln.local_ = .full p.1 := by rw [hmk]; exact hc
          have hel : (mergeLocalLocation fs wn.local_ ln.local_).erase_loser ≠ some p.1 := by
            intro hele
            rw [hele] at hp
            have hp2 : p ∈ indexErase (indexEraseOpt s.local_location_to_file_id_
                (mergeLocalLocation fs wn.local_ ln.local_).erase_winner) p.1 := hp
            exact absurd rfl (mem_indexErase.mp hp2).2
          have hres := mergeLocalLocation_result_l hlloc hel
          rw [hkl] at hg1
          rw [hGl p.2 hg1]
          simp only [optIs_some]
          show (mergeNode fs wn ln).local_ = .full p.1
          rw [mergeNode_local, hres]
        · rw [hGo p.2 pr.1 pr.2 hkw hkl (by rw [hgf])]
          simp only [optIs_some]
          exact hc
  · -- RemoteIndexOK
    intro p hp
    rw [mergeInto_remote_index] at hp
    have hpE : p ∈ indexEraseOpt s.remote_location_to_file_id_
        (mergeRemoteLocation wn.remote_ ln.remote_ wn.remote_source_
          ln.remote_source_).erase_winner := mem_indexEraseOpt hp
    have hps : p ∈ s.remote_location_to_file_id_ := mem_indexEraseOpt hpE
    have hc := h4 p hps
    cases hgf : s.get_file_node p.2 with
    | none => rw [hgf] at hc; exact absurd hc id
    | some pr =>
      rw [hgf] at hc
      simp only [optIs_some] at hc
      obtain ⟨hg1, hg2⟩ := get_file_node_eq_some.mp hgf
      by_cases hkw : pr.1 = w
      · rw [hkw, hw] at hg2
        have hmk := Option.some.inj hg2
        have hwlloc : wn.remote_ = .full p.1 := by rw [hmk]; exact hc
        have hew : (mergeRemoteLocation wn.remote_ ln.remote_ wn.remote_source_
            ln.remote_source_).erase_winner ≠ some p.1 := by
          intro hewe
          rw [hewe] at hpE
          have hpE' : p ∈ indexErase s.remote_location_to_file_id_ p.1 := hpE
          exact absurd rfl (mem_indexErase.mp hpE').2
        have hres := mergeRemoteLocation_result_w hwlloc hew
        rw [hkw] at hg1
        rw [hGw p.2 hg1]
        simp only [optIs_some]
        show (mergeNode fs wn ln).remote_ = .full p.1
        rw [mergeNode_remote, hres]
      · by_cases hkl : pr.1 = l
        · rw [hkl, hl] at hg2
          have hmk := Option.some.inj hg2
          have hlloc : ln.remote_ = .full p.1 := by rw [hmk]; exact hc
          have hel : (mergeRemoteLocation wn.remote_ ln.remote_ wn.remote_source_
              ln.remote_source_).erase_loser ≠ some p.1 := by
            intro hele
            rw [hele] at hp
            have hp2 : p ∈ indexErase (indexEraseOpt s.remote_location_to_file_id_
                (mergeRemoteLocation wn.remote_ ln.remote_ wn.remote_source_
                  ln.remote_source_).erase_winner) p.1 := hp
            exact absurd rfl (mem_indexErase.mp hp2).2
          have hres := mergeRemoteLocation_result_l hlloc hel
          rw [hkl] at hg1
          rw [hGl p.2 hg1]
          simp only [optIs_some]
          show (mergeNode fs wn ln).remote_ = .full p.1
          rw [mergeNode_remote, hres]
        · rw [hGo p.2 pr.1 pr.2 hkw hkl (by rw [hgf])]
          simp only [optIs_some]
          exact hc
  · -- GenerateIndexOK
    intro p hp
    rw [mergeInto_generate_index] at hp
    have hps : p ∈ s.generate_location_to_file_id_ := mem_indexEraseOpt hp
    have hc := h5 p hps
    cases hgf : s.get_file_node p.2 with
    | none => rw [hgf] at hc; exact absurd hc id
    | some pr =>
      rw [hgf] at hc
      simp only [optIs_some] at hc
      obtain ⟨hg1, hg2⟩ := get_file_node_eq_some.mp hgf
      by_cases hkw : pr.1 = w
      · rw [hkw, hw] at hg2
        have hmk := Option.some.inj hg2
        have hwlloc : wn.generate_ = .full p.1 := by rw [hmk]; exact hc
        have hres : (mergeGenerateLocation wn.generate_ ln.generate_).result = .full p.1 :=
          mergeGenerateLocation_result_w hwlloc
        rw [hkw] at hg1
        rw [hGw p.2 hg1]
        simp only [optIs_some]
        show (mergeNode fs wn ln).generate_ = .full p.1
        rw [mergeNode_generate, hres]
      · by_cases hkl : pr.1 = l
        · rw [hkl, hl] at hg2
          have hmk := Option.some.inj hg2
          have hlloc : ln.generate_ = .full p.1 := by rw [hmk]; exact hc
          have hel : (mergeGenerateLocation wn.generate_ ln.generate_).erase_loser ≠
              some p.1 := by
            intro hele
            rw [hele] at hp
            have hp2 : p ∈ indexErase s.generate_location_to_file_id_ p.1 := hp
            exact absurd rfl (mem_indexErase.mp hp2).2
          have hres := mergeGenerateLocation_result_l hlloc hel
          rw [hkl] at hg1
          rw [hGl p.2 hg1]
          simp only [optIs_some]
          show (mergeNode fs wn ln).generate_ = .full p.1
          rw [mergeNode_generate, hres]
        · rw [hGo p.2 pr.1 pr.2 hkw hkl (by rw [hgf])]
          simp only [optIs_some]
          exact hc
  · -- LocalCompleteOK
    intro x hx
    rw [mergeInto_length] at hx
    by_cases hxl : x = l
    · rw [hxl, hNl]
      exact trivial
    · by_cases hxw : x = w
      · rw [hxw, hNw]
        simp only [optAll_some]
        cases hfull : (mergeNode fs wn ln).local_.fullOf with
        | none => exact trivial
        | some f =>
          simp only [optAll_some]
          have hres : (mergeLocalLocation fs wn.local_ ln.local_).result = .full f := by
            rw [← mergeNode_local]
            exact localFullOf_eq_some.mp hfull
          obtain ⟨⟨hewf, helf⟩, hside⟩ := mergeLocalLocation_result_full hres
          have hidx_eq : indexGet (mergeInto s w l wn ln fs).local_location_to_file_id_ f =
              indexGet s.local_location_to_file_id_ f := by
            rw [mergeInto_local_index,
              indexGet_indexEraseOpt_ne_of_ne _ (fun g hg => (helf g hg).symm),
              indexGet_indexEraseOpt_ne_of_ne _ (fun g hg => (hewf g hg).symm)]
          rw [hidx_eq]
          rcases hside with hside | hside
          · have hc := h6 w hwlt
            rw [hw] at hc
            simp only [optAll_some] at hc
            rw [show wn.local_.fullOf = some f from
              localFullOf_eq_some.mpr hside] at hc
            simp only [optAll_some] at hc
            cases hlook : indexGet s.local_location_to_file_id_ f with
            | none => rw [hlook] at hc; exact absurd hc id
            | some fid =>
              rw [hlook] at hc
              simp only [optIs_some] at hc ⊢
              exact hIdw fid hc
          · have hc := h6 l hllt
            rw [hl] at hc
            simp only [optAll_some] at hc
            rw [show ln.local_.fullOf = some f from
              localFullOf_eq_some.mpr hside] at hc
            simp only [optAll_some] at hc
            cases hlook : indexGet s.local_location_to_file_id_ f with
            | none => rw [hlook] at hc; exact absurd hc id
            | some fid =>
              rw [hlook] at hc
              simp only [optIs_some] at hc ⊢
              exact hIdl fid hc
      · rw [hNo x hxw hxl]
        cases hnx : s.nodeAt x with
        | none => exact trivial
        | some m =>
          simp only [optAll_some]
          cases hfm : m.local_.fullOf with
          | none => exact trivial
          | some f =>
            simp only [optAll_some]
            have hfw : ∀ g, (mergeLocalLocation fs wn.local_ ln.local_).erase_winner =
                some g → g ≠ f := by
              intro g hg he
              rw [he] at hg
              have hview := mergeLocalLocation_erase_winner_eq hg
              exact hxw (local_full_uniq h6 hnx hfm hw
                (localFullOf_eq_some.mpr hview))
            have hfl : ∀ g, (mergeLocalLocation fs wn.local_ ln.local_).erase_loser =
                some g → g ≠ f := by
              intro g hg he
              rw [he] at hg
              have hview := mergeLocalLocation_erase_loser_eq hg
              exact hxl (local_full_uniq h6 hnx hfm hl
                (localFullOf_eq_some.mpr hview))
            rw [mergeInto_local_index,
              indexGet_indexEraseOpt_ne_of_ne _ (fun g hg => (hfl g hg).symm),
              indexGet_indexEraseOpt_ne_of_ne _ (fun g hg => (hfw g hg).symm)]
            have hc := h6 x hx
            rw [hnx] at hc
            simp only [optAll_some] at hc
            rw [hfm] at hc
            simp only [optAll_some] at hc
            cases hlook : indexGet s.local_location_to_file_id_ f with
            | none => rw [hlook] at hc; exact absurd hc id
            | some fid =>
              rw [hlook] at hc
              simp only [optIs_some] at hc ⊢
              exact hIdo fid x hxl hc
  · -- RemoteCompleteOK
    intro x hx
    rw [mergeInto_length] at hx
    by_cases hxl : x = l
    · rw [hxl, hNl]
      exact trivial
    · by_cases hxw : x = w
      · rw [hxw, hNw]
        simp only [optAll_some]
        cases hfull : (mergeNode fs wn ln).remote_.fullOf with
        | none => exact trivial
        | some f =>
          simp only [optAll_some]
          have hres : (mergeRemoteLocation wn.remote_ ln.remote_ wn.remote_source_
              ln.remote_source_).result = .full f := by
            rw [← mergeNode_remote]
            exact remoteFullOf_eq_some.mp hfull
          obtain ⟨⟨hewf, helf⟩, hside⟩ := mergeRemoteLocation_result_full hres
          have hidx_eq : indexGet (mergeInto s w l wn ln fs).remote_location_to_file_id_ f =
              indexGet s.remote_location_to_file_id_ f := by
            rw [mergeInto_remote_index,
              indexGet_indexEraseOpt_ne_of_ne _ (fun g hg => (helf g hg).symm),
              indexGet_indexEraseOpt_ne_of_ne _ (fun g hg => (hewf g hg).symm)]
          rw [hidx_eq]
          rcases hside with hside | hside
          · have hc := h7 w hwlt
            rw [hw] at hc
            simp only [optAll_some] at hc
            rw [show wn.remote_.fullOf = some f from
              remoteFullOf_eq_some.mpr hside] at hc
            simp only [optAll_some] at hc
            cases hlook : indexGet s.remote_location_to_file_id_ f with
            | none => rw [hlook] at hc; exact absurd hc id
            | some fid =>
              rw [hlook] at hc
              simp only [optIs_some] at hc ⊢
              exact hIdw fid hc
          · have hc := h7 l hllt
            rw [hl] at hc
            simp only [optAll_some] at hc
            rw [show ln.remote_.fullOf = some f from
              remoteFullOf_eq_some.mpr hside] at hc
            simp only [optAll_some] at hc
            cases hlook : indexGet s.remote_location_to_file_id_ f with
            | none => rw [hlook] at hc; exact absurd hc id
            | some fid =>
              rw [hlook] at hc
              simp only [optIs_some] at hc ⊢
              exact hIdl fid hc
      · rw [hNo x hxw hxl]
        cases hnx : s.nodeAt x with
        | none => exact trivial
        | some m =>
          simp only [optAll_some]
          cases hfm : m.remote_.fullOf with
          | none => exact trivial
          | some f =>
            simp only [optAll_some]
            have hfw : ∀ g, (mergeRemoteLocation wn.remote_ ln.remote_ wn.remote_source_
                ln.remote_source_).erase_winner = some g → g ≠ f := by
              intro g hg he
              rw [he] at hg
              have hview := mergeRemoteLocation_erase_winner_eq hg
              exact hxw (remote_full_uniq h7 hnx hfm hw
                (remoteFullOf_eq_some.mpr hview))
            have hfl : ∀ g, (mergeRemoteLocation wn.remote_ ln.remote_ wn.remote_source_
                ln.remote_source_).erase_loser = some g → g ≠ f := by
              intro g hg he
              rw [he] at hg
              have hview := mergeRemoteLocation_erase_loser_eq hg
              exact hxl (remote_full_uniq h7 hnx hfm hl
                (remoteFullOf_eq_some.mpr hview))
            rw [mergeInto_remote_index,
              indexGet_indexEraseOpt_ne_of_ne _ (fun g hg => (hfl g hg).symm),
              indexGet_indexEraseOpt_ne_of_ne _ (fun g hg => (hfw g hg).symm)]
            have hc := h7 x hx
            rw [hnx] at hc
            simp only [optAll_some] at hc
            rw [hfm] at hc
            simp only [optAll_some] at hc
            cases hlook : indexGet s.remote_location_to_file_id_ f with
            | none => rw [hlook] at hc; exact absurd hc id
            | some fid =>
              rw [hlook] at hc
              simp only [optIs_some] at hc ⊢
              exact hIdo fid x hxl hc
  · -- GenerateCompleteOK
    intro x hx
    rw [mergeInto_length] at hx
    by_cases hxl : x = l
    · rw [hxl, hNl]
      exact trivial
    · by_cases hxw : x = w
      · rw [hxw, hNw]
        simp only [optAll_some]
        cases hfull : (mergeNode fs wn ln).generate_.fullOf with
        | none => exact trivial
        | some f =>
          simp only [optAll_some]
          have hres : (mergeGenerateLocation wn.generate_ ln.generate_).result = .full f := by
            rw [← mergeNode_generate]
            exact generateFullOf_eq_some.mp hfull
          obtain ⟨helf, hside⟩ := mergeGenerateLocation_result_full hres
          have hidx_eq : indexGet
              (mergeInto s w l wn ln fs).generate_location_to_file_id_ f =
              indexGet s.generate_location_to_file_id_ f := by
            rw [mergeInto_generate_index,
              indexGet_indexEraseOpt_ne_of_ne _ (fun g hg => (helf g hg).symm)]
          rw [hidx_eq]
          rcases hside with hside | hside
          · have hc := h8 w hwlt
            rw [hw] at hc
            simp only [optAll_some] at hc
            rw [show wn.generate_.fullOf = some f from
              generateFullOf_eq_some.mpr hside] at hc
            simp only [optAll_some] at hc
            cases hlook : indexGet s.generate_location_to_file_id_ f with
            | none => rw [hlook] at hc; exact absurd hc id
            | some fid =>
              rw [hlook] at hc
              simp only [optIs_some] at hc ⊢
              exact hIdw fid hc
          · have hc := h8 l hllt
            rw [hl] at hc
            simp only [optAll_some] at hc
            rw [show ln.generate_.fullOf = some f from
              generateFullOf_eq_some.mpr hside] at hc
            simp only [optAll_some] at hc
            cases hlook : indexGet s.generate_location_to_file_id_ f with
            | none => rw [hlook] at hc; exact absurd hc id
            | some fid =>
              rw [hlook] at hc
              simp only [optIs_some] at hc ⊢
              exact hIdl fid hc
      · rw [hNo x hxw hxl]
        cases hnx : s.nodeAt x with
        | none => exact trivial
        | some m =>
          simp only [optAll_some]
          cases hfm : m.generate_.fullOf with
          | none => exact trivial
          | some f =>
            simp only [optAll_some]
            have hfl : ∀ g, (mergeGenerateLocation wn.generate_ ln.generate_).erase_loser =
                some g → g ≠ f := by
              intro g hg he
              rw [he] at hg
              have hview := mergeGenerateLocation_erase_loser_eq hg
              exact hxl (generate_full_uniq h8 hnx hfm hl
                (generateFullOf_eq_some.mpr hview))
            rw [mergeInto_generate_index,
              indexGet_indexEraseOpt_ne_of_ne _ (fun g hg => (hfl g hg).symm)]
            have hc := h8 x hx
            rw [hnx] at hc
            simp only [optAll_some] at hc
            rw [hfm] at hc
            simp only [optAll_some] at hc
            cases hlook : indexGet s.generate_location_to_file_id_ f with
            | none => rw [hlook] at hc; exact absurd hc id
            | some fid =>
              rw [hlook] at hc
              simp only [optIs_some] at hc ⊢
              exact hIdo fid x hxl hc
  · -- QueriesOK
    intro p hp
    obtain ⟨hps, hpnc⟩ := hQmem p hp
    obtain ⟨hp0, hplt, hpres⟩ := h9 p hps
    refine ⟨hp0, ?_, ?_⟩
    · show p.1 < (mergeInto s w l wn ln fs).next_query_id_
      rw [mergeInto_next]
      exact hplt
    · cases hgf : s.get_file_node p.2.file_id_ with
      | none => rw [hgf] at hpres; exact absurd hpres id
      | some pr =>
        rw [hgf] at hpres
        simp only [optIs_some] at hpres
        obtain ⟨hg1, hg2⟩ := get_file_node_eq_some.mp hgf
        by_cases hkw : pr.1 = w
        · rw [hkw, hw] at hg2
          have hmk := Option.some.inj hg2
          have hwk : wn.queryIdOfKind (kindOfQueryType p.2.type_) = p.1 := by
            rw [hmk]
            exact hpres
          rw [hkw] at hg1
          rw [hGw _ hg1]
          simp only [optIs_some]
          show (mergeNode fs wn ln).queryIdOfKind (kindOfQueryType p.2.type_) = p.1
          rw [mergeNode_queryIdOfKind, mergeQueryIds_fst_pos (by rw [hwk]; exact hp0)]
          exact hwk
        · by_cases hkl : pr.1 = l
          · rw [hkl, hl] at hg2
            have hmk := Option.some.inj hg2
            have hlk : ln.queryIdOfKind (kindOfQueryType p.2.type_) = p.1 := by
              rw [hmk]
              exact hpres
            have hwk0 : wn.queryIdOfKind (kindOfQueryType p.2.type_) = 0 := by
              by_contra hwk0
              apply hpnc
              rw [← hlk]
              exact mergeCancelled_mem _ (by rw [hlk]; exact hp0) hwk0
            rw [hkl] at hg1
            rw [hGl _ hg1]
            simp only [optIs_some]
            show (mergeNode fs wn ln).queryIdOfKind (kindOfQueryType p.2.type_) = p.1
            rw [mergeNode_queryIdOfKind, mergeQueryIds_fst_zero hwk0]
            exact hlk
          · rw [hGo p.2.file_id_ pr.1 pr.2 hkw hkl (by rw [hgf])]
            simp only [optIs_some]
            exact hpres
  · -- NodeQueryOK
    intro x hx
    rw [mergeInto_length] at hx
    by_cases hxl : x = l
    · rw [hxl, hNl]
      exact trivial
    · by_cases hxw : x = w
      · rw [hxw, hNw]
        simp only [optAll_some]
        intro k
        rw [mergeNode_queryIdOfKind]
        by_cases hwk : wn.queryIdOfKind k = 0
        · by_cases hlk : ln.queryIdOfKind k = 0
          · left
            rw [mergeQueryIds_fst_zero hwk]
            exact hlk
          · right
            rw [mergeQueryIds_fst_zero hwk]
            obtain ⟨q, hq, hkind, m₂, hres⟩ := slot_entry hInv hl hlk
            rw [hQget _ q hq (hNCl k hwk hlk)]
            simp only [optIs_some]
            refine ⟨hkind, ?_⟩
            obtain ⟨hg1, hg2⟩ := get_file_node_eq_some.mp hres
            rw [hGl q.file_id_ hg1]
            try exact rfl
        · right
          rw [mergeQueryIds_fst_pos hwk]
          obtain ⟨q, hq, hkind, m₂, hres⟩ := slot_entry hInv hw hwk
          rw [hQget _ q hq (hNCo w wn k hw hwl hwk)]
          simp only [optIs_some]
          refine ⟨hkind, ?_⟩
          obtain ⟨hg1, hg2⟩ := get_file_node_eq_some.mp hres
          rw [hGw q.file_id_ hg1]
          try exact rfl
      · rw [hNo x hxw hxl]
        cases hnx : s.nodeAt x with
        | none => exact trivial
        | some m =>
          simp only [optAll_some]
          intro k
          by_cases hmk : m.queryIdOfKind k = 0
          · exact Or.inl hmk
          · right
            obtain ⟨q, hq, hkind, m₂, hres⟩ := slot_entry hInv hnx hmk
            rw [hQget _ q hq (hNCo x m k hnx hxl hmk)]
            simp only [optIs_some]
            refine ⟨hkind, ?_⟩
            obtain ⟨hg1, hg2⟩ := get_file_node_eq_some.mp hres
            rw [hGo q.file_id_ x m₂ hxw hxl hres]
            try exact rfl


theorem inv_run_download {s : FileManager} (i : Nat) (h : Inv s) : Inv (run_download s i) := by
  unfold run_download
  cases hnd : s.nodeAt i with
  | none => exact h
  | some n =>
    show Inv (if 0 < effectiveDownloadPriority s n ∧ n.local_.fullOf = none ∧
        (n.remote_.fullOf).isSome then
        if n.download_id_ ≠ 0 then s else startQuery s i .Download
      else cancelQuery s i .download)
    by_cases hg : 0 < effectiveDownloadPriority s n ∧ n.local_.fullOf = none ∧
        (n.remote_.fullOf).isSome
    · rw [if_pos hg]
      by_cases hdz : n.download_id_ ≠ 0
      · rw [if_pos hdz]
        exact h
      · rw [if_neg hdz]
        refine inv_startQuery ?_ h
        rw [hnd]
        simp only [optAll_some]
        show n.download_id_ = 0
        exact not_not.mp hdz
    · rw [if_neg hg]
      exact inv_cancelQuery i .download h

theorem inv_run_upload {s : FileManager} (i : Nat) (h : Inv s) : Inv (run_upload s i) := by
  unfold run_upload
  cases hnd : s.nodeAt i with
  | none => exact h
  | some n =>
    show Inv (if n.upload_pause_.isSome then s
      else if 0 < effectiveUploadPriority s n ∧ (n.local_.fullOf).isSome ∧
          n.remote_.fullOf = none then
        if n.upload_id_ ≠ 0 then s
        else startQuery s i (if n.get_by_hash_ then .UploadByHash else .Upload)
      else cancelQuery s i .upload)
    by_cases hp : n.upload_pause_.isSome
    · rw [if_pos hp]
      exact h
    · rw [if_neg hp]
      by_cases hg : 0 < effectiveUploadPriority s n ∧ (n.local_.fullOf).isSome ∧
          n.remote_.fullOf = none
      · rw [if_pos hg]
        by_cases huz : n.upload_id_ ≠ 0
        · rw [if_pos huz]
          exact h
        · rw [if_neg huz]
          refine inv_startQuery ?_ h
          rw [hnd]
          simp only [optAll_some]
          cases hgb : n.get_by_hash_ with
          | true =>
            show n.upload_id_ = 0
            exact not_not.mp huz
          | false =>
            show n.upload_id_ = 0
            exact not_not.mp huz
      · rw [if_neg hg]
        exact inv_cancelQuery i .upload h

theorem inv_run_generate {s : FileManager} (i : Nat) (h : Inv s) : Inv (run_generate s i) := by
  unfold run_generate
  cases hnd : s.nodeAt i with
  | none => exact h
  | some n =>
    show Inv (if 0 < max n.generate_download_priority_ n.generate_upload_priority_ ∧
        (n.generate_.fullOf).isSome ∧ n.local_.fullOf = none then
        if n.generate_id_ ≠ 0 then s else startQuery s i .Generate
      else cancelQuery s i .generate)
    by_cases hg : 0 < max n.generate_download_priority_ n.generate_upload_priority_ ∧
        (n.generate_.fullOf).isSome ∧ n.local_.fullOf = none
    · rw [if_pos hg]
      by_cases hdz : n.generate_id_ ≠ 0
      · rw [if_pos hdz]
        exact h
      · rw [if_neg hdz]
        refine inv_startQuery ?_ h
        rw [hnd]
        simp only [optAll_some]
        show n.generate_id_ = 0
        exact not_not.mp hdz
    · rw [if_neg hg]
      exact inv_cancelQuery i .generate h

theorem inv_download {s : FileManager} (fid : Nat) (callback : Option Nat)
    (new_priority : Nat) (h : Inv s) : Inv (s.download fid callback new_priority) := by
  unfold download
  cases hgf : s.get_file_node fid with
  | none => exact h
  | some pr =>
    show Inv (run_download (s.modifyInfoAt fid (fun info =>
      { info with download_priority_ := new_priority, download_callback_ := callback })) pr.1)
    exact inv_run_download pr.1 (inv_modifyInfoAt (fun _ => rfl) h)

theorem inv_upload {s : FileManager} (fid : Nat) (callback : Option Nat)
    (new_priority upload_order : Nat) (h : Inv s) :
    Inv (s.upload fid callback new_priority upload_order) := by
  unfold upload
  cases hgf : s.get_file_node fid with
  | none => exact h
  | some pr =>
    obtain ⟨hg1, hnd⟩ := get_file_node_eq_some.mp hgf
    show Inv (run_upload (((if pr.2.upload_pause_ = some fid then
        s.setNodeAt pr.1 { pr.2 with upload_pause_ := none } else s)).modifyInfoAt fid
      (fun info =>
        { info with
            upload_priority_ := new_priority
            upload_order_ := upload_order
            upload_callback_ := callback })) pr.1)
    have h₁ : Inv (if pr.2.upload_pause_ = some fid then
        s.setNodeAt pr.1 { pr.2 with upload_pause_ := none } else s) := by
      by_cases hp : pr.2.upload_pause_ = some fid
      · rw [if_pos hp]
        have heq : s.modifyNodeAt pr.1 (fun m => { m with upload_pause_ := none }) =
            s.setNodeAt pr.1 { pr.2 with upload_pause_ := none } := by
          unfold modifyNodeAt
          rw [hnd]
        rw [← heq]
        exact inv_modifyNodeAt_compat (fun m => ⟨rfl, rfl, rfl, rfl, fun _ => rfl⟩) h
      · rw [if_neg hp]
        exact h
    exact inv_run_upload pr.1 (inv_modifyInfoAt (fun _ => rfl) h₁)

theorem inv_resume_upload {s : FileManager} (fid : Nat) (bad_parts : List Nat)
    (callback : Option Nat) (new_priority upload_order : Nat) (h : Inv s) :
    Inv (s.resume_upload fid bad_parts callback new_priority upload_order) := by
  unfold resume_upload
  cases hgf : s.get_file_node fid with
  | none => exact h
  | some pr =>
    obtain ⟨hg1, hnd⟩ := get_file_node_eq_some.mp hgf
    show Inv (run_upload ((s.setNodeAt pr.1
        { pr.2 with upload_pause_ := none }).modifyInfoAt fid
      (fun info =>
        { info with
            upload_priority_ := new_priority
            upload_order_ := upload_order
            upload_callback_ := callback })) pr.1)
    have heq : s.modifyNodeAt pr.1 (fun m => { m with upload_pause_ := none }) =
        s.setNodeAt pr.1 { pr.2 with upload_pause_ := none } := by
      unfold modifyNodeAt
      rw [hnd]
    have h₁ : Inv (s.setNodeAt pr.1 { pr.2 with upload_pause_ := none }) := by
      rw [← heq]
      exact inv_modifyNodeAt_compat (fun m => ⟨rfl, rfl, rfl, rfl, fun _ => rfl⟩) h
    exact inv_run_upload pr.1 (inv_modifyInfoAt (fun _ => rfl) h₁)

theorem cancelQuery_nodeAt_self {s : FileManager} {i : Nat} {n : FileNode} (k : WorkerKind)
    (hnd : s.nodeAt i = some n) : ∃ n', (cancelQuery s i k).nodeAt i = some n' ∧
      n'.local_ = n.local_ ∧ n'.remote_ = n.remote_ ∧ n'.generate_ = n.generate_ := by
  unfold cancelQuery
  rw [hnd]
  show ∃ n', ((if n.queryIdOfKind k = 0 then s
      else (s.removeQuery (n.queryIdOfKind k)).setNodeAt i (n.setQueryIdOfKind k 0)).nodeAt i =
      some n') ∧ n'.local_ = n.local_ ∧ n'.remote_ = n.remote_ ∧ n'.generate_ = n.generate_
  by_cases hz : n.queryIdOfKind k = 0
  · rw [if_pos hz]
    exact ⟨n, hnd, rfl, rfl, rfl⟩
  · rw [if_neg hz]
    refine ⟨n.setQueryIdOfKind k 0, ?_, ?_, ?_, ?_⟩
    · exact nodeAt_setNodeAt_self _
        (show (s.removeQuery (n.queryIdOfKind k)).nodeAt i = some n from hnd)
    · cases k <;> rfl
    · cases k <;> rfl
    · cases k <;> rfl

theorem inv_clearRemoteNonFull {s : FileManager} {i : Nat}
    (hnf : ∀ n, s.nodeAt i = some n → n.remote_.fullOf = none) (h : Inv s) :
    Inv (s.modifyNodeAt i (fun m =>
      { m with
          remote_ := .empty
          remote_ready_size_ := 0
          upload_pause_ := none
          pmc_changed_flag_ := true })) := by
  unfold modifyNodeAt
  cases hnd : s.nodeAt i with
  | none => exact h
  | some n =>
    obtain ⟨h1, h2, h3, h4, h5, h6, h7, h8, h9, h10⟩ := h
    have hInv : Inv s := ⟨h1, h2, h3, h4, h5, h6, h7, h8, h9, h10⟩
    set n' : FileNode :=
      { n with
          remote_ := .empty
          remote_ready_size_ := 0
          upload_pause_ := none
          pmc_changed_flag_ := true } with hn'
    have hset_i : (s.setNodeAt i n').nodeAt i = some n' := nodeAt_setNodeAt_self n' hnd
    apply inv_remote_surgery ?_ ?_ ?_ ?_ ?_ ?_ ?_ ?_ ?_ ?_ hInv
    · exact length_setNodeAt s i n'
    · exact fun _ => rfl
    · rfl
    · rfl
    · rfl
    · rfl
    · intro x m hm
      by_cases hxe : x = i
      · subst hxe
        rw [hm] at hnd
        injection hnd with he
        subst he
        exact ⟨n', hset_i, rfl, rfl, rfl, fun _ => rfl⟩
      · refine ⟨m, ?_, rfl, rfl, rfl, fun _ => rfl⟩
        rw [nodeAt_setNodeAt_ne n' hxe]
        exact hm
    · intro x hm
      have hxe : x ≠ i := by
        intro he
        rw [he, hnd] at hm
        exact absurd hm (by simp)
      rw [nodeAt_setNodeAt_ne n' hxe]
      exact hm
    · intro p hp
      have hc := h4 p hp
      cases hgf : s.get_file_node p.2 with
      | none => rw [hgf] at hc; exact absurd hc id
      | some pr =>
        rw [hgf] at hc
        simp only [optIs_some] at hc
        obtain ⟨hg1, hg2⟩ := get_file_node_eq_some.mp hgf
        by_cases hpi : pr.1 = i
        · exfalso
          rw [hpi, hnd] at hg2
          injection hg2 with he
          have hful : n.remote_.fullOf = some p.1 := by
            rw [← he] at hc
            exact remoteFullOf_eq_some.mpr hc
          rw [hnf n hnd] at hful
          exact Option.noConfusion hful
        · have hg' : (s.setNodeAt i n').get_file_node p.2 = some pr := by
            apply get_file_node_eq_some.mpr
            refine ⟨hg1, ?_⟩
            rw [nodeAt_setNodeAt_ne n' hpi]
            exact hg2
          rw [hg']
          simp only [optIs_some]
          exact hc
    · intro x hx
      have hx' : x < s.file_nodes_.length := by
        rw [length_setNodeAt] at hx
        exact hx
      by_cases hxe : x = i
      · subst hxe
        rw [hset_i]
        simp only [optAll_some]
        show optAll (RemoteFileLocation.empty.fullOf) _
        exact trivial
      · rw [nodeAt_setNodeAt_ne n' hxe]
        cases hnx : s.nodeAt x with
        | none => exact trivial
        | some m =>
          have hc := h7 x hx'
          rw [hnx] at hc
          simp only [optAll_some] at hc ⊢
          cases hfm : m.remote_.fullOf with
          | none => exact trivial
          | some r₂ =>
            rw [hfm] at hc
            simp only [optAll_some] at hc ⊢
            show optIs (indexGet s.remote_location_to_file_id_ r₂)
              (fun fid => (s.setNodeAt i n').nodeIdOf fid = some x)
            cases hlook : indexGet s.remote_location_to_file_id_ r₂ with
            | none =>
              rw [hlook] at hc
              exact absurd hc id
            | some fid₂ =>
              rw [hlook] at hc
              simp only [optIs_some] at hc ⊢
              exact hc

theorem inv_delete_partial_remote_location {s : FileManager} (fid : Nat) (h : Inv s) :
    Inv (s.delete_partial_remote_location fid).2 := by
  unfold delete_partial_remote_location
  cases hgf : s.get_file_node fid with
  | none => exact h
  | some pr =>
    obtain ⟨hg1, hnd⟩ := get_file_node_eq_some.mp hgf
    show Inv ((match pr.2.remote_ with
      | RemoteFileLocation.full _ => ((false, s) : Bool × FileManager)
      | _ =>
        ((true, run_upload ((cancelQuery s pr.1 .upload).modifyNodeAt pr.1 (fun m =>
          { m with
              remote_ := .empty
              remote_ready_size_ := 0
              upload_pause_ := none
              pmc_changed_flag_ := true })) pr.1) : Bool × FileManager)).2)
    have hcore : pr.2.remote_.fullOf = none →
        Inv (run_upload ((cancelQuery s pr.1 .upload).modifyNodeAt pr.1 (fun m =>
          { m with
              remote_ := .empty
              remote_ready_size_ := 0
              upload_pause_ := none
              pmc_changed_flag_ := true })) pr.1) := by
      intro hful
      have hInv₁ : Inv (cancelQuery s pr.1 .upload) := inv_cancelQuery pr.1 .upload h
      obtain ⟨n₁, hn₁, hl₁, hr₁, hgen₁⟩ := cancelQuery_nodeAt_self .upload hnd
      have hnf : ∀ m, (cancelQuery s pr.1 .upload).nodeAt pr.1 = some m →
          m.remote_.fullOf = none := by
        intro m hm
        rw [hn₁] at hm
        have hmn : m = n₁ := (Option.some.inj hm).symm
        rw [hmn, hr₁]
        exact hful
      exact inv_run_upload pr.1 (inv_clearRemoteNonFull hnf hInv₁)
    cases hrem : pr.2.remote_ with
    | full rf => exact h
    | empty =>
      show Inv (run_upload ((cancelQuery s pr.1 .upload).modifyNodeAt pr.1 (fun m =>
        { m with
            remote_ := .empty
            remote_ready_size_ := 0
            upload_pause_ := none
            pmc_changed_flag_ := true })) pr.1)
      apply hcore
      rw [hrem]
      rfl
    | part prt =>
      show Inv (run_upload ((cancelQuery s pr.1 .upload).modifyNodeAt pr.1 (fun m =>
        { m with
            remote_ := .empty
            remote_ready_size_ := 0
            upload_pause_ := none
            pmc_changed_flag_ := true })) pr.1)
      apply hcore
      rw [hrem]
      rfl

theorem inv_set_encryption_key {s : FileManager} (fid : Nat) (key : FileEncryptionKey)
    (h : Inv s) : Inv (s.set_encryption_key fid key).2 := by
  unfold set_encryption_key
  cases hgf : s.get_file_node fid with
  | none => exact h
  | some pr =>
    obtain ⟨hg1, hnd⟩ := get_file_node_eq_some.mp hgf
    show Inv ((if pr.2.encryption_key_ = ([] : List Nat) then
        ((true, s.setNodeAt pr.1
          { pr.2 with encryption_key_ := key, pmc_changed_flag_ := true }) :
          Bool × FileManager)
      else if pr.2.encryption_key_ = key then ((true, s) : Bool × FileManager)
      else ((false, s) : Bool × FileManager)).2)
    by_cases hk : pr.2.encryption_key_ = ([] : List Nat)
    · rw [if_pos hk]
      show Inv (s.setNodeAt pr.1 { pr.2 with encryption_key_ := key, pmc_changed_flag_ := true })
      have heq : s.modifyNodeAt pr.1 (fun m =>
          { m with encryption_key_ := key, pmc_changed_flag_ := true }) =
          s.setNodeAt pr.1 { pr.2 with encryption_key_ := key, pmc_changed_flag_ := true } := by
        unfold modifyNodeAt
        rw [hnd]
      rw [← heq]
      exact inv_modifyNodeAt_compat (fun m => ⟨rfl, rfl, rfl, rfl, fun _ => rfl⟩) h
    · rw [if_neg hk]
      by_cases hk2 : pr.2.encryption_key_ = key
      · rw [if_pos hk2]
        exact h
      · rw [if_neg hk2]
        exact h

theorem inv_delete_file {s : FileManager} (fid : Nat) (h : Inv s) :
    Inv (s.delete_file fid) := by
  unfold delete_file
  cases hgf : s.get_file_node fid with
  | none => exact h
  | some pr =>
    show Inv (run_download ((demoteLocal s pr.1).modifyNodeAt pr.1 (fun n =>
      { n with is_download_started_ := false, pmc_changed_flag_ := true })) pr.1)
    exact inv_run_download pr.1 (inv_modifyNodeAt_compat
      (fun m => ⟨rfl, rfl, rfl, rfl, fun _ => rfl⟩) (inv_demoteLocal pr.1 h))


theorem inv_register_remote {s : FileManager} (location : FullRemoteFileLocation)
    (owner_dialog_id : Int) (size expected_size : Nat) (name : String) (h : Inv s) :
    Inv (s.register_remote location owner_dialog_id size expected_size name).2 := by
  unfold register_remote
  cases hA : indexGet s.remote_location_to_file_id_ location with
  | some fid0 =>
    show Inv ((match s.nodeIdOf fid0 with
      | none => ((fid0, s) : Nat × FileManager)
      | some i =>
        let pr := s.addAlias i
        ((pr.1, pr.2.modifyNodeAt i (fun n =>
          { n with
            size_ := if n.size_ = 0 then size else n.size_,
            expected_size_ := max n.expected_size_ expected_size,
            name_ := if n.name_ = "" then name else n.name_ })) : Nat × FileManager)).2)
    cases hB : s.nodeIdOf fid0 with
    | none => exact h
    | some i =>
      show Inv ((s.addAlias i).2.modifyNodeAt i (fun n =>
        { n with
          size_ := if n.size_ = 0 then size else n.size_,
          expected_size_ := max n.expected_size_ expected_size,
          name_ := if n.name_ = "" then name else n.name_ }))
      exact inv_modifyNodeAt_compat (fun m => ⟨rfl, rfl, rfl, rfl, fun _ => rfl⟩)
        (inv_addAlias i h)
  | none =>
    refine inv_createNodeIndexed rfl rfl rfl ?_ ?_ ?_ h
    · intro l hl
      exact Option.noConfusion hl
    · intro r hr
      have hr' : some location = some r := hr
      rw [← Option.some.inj hr']
      exact hA
    · intro g hg
      exact Option.noConfusion hg

theorem inv_register_local_impl {s : FileManager} (location : FullLocalFileLocation)
    (owner_dialog_id : Int) (size : Nat) (get_by_hash : Bool) (h : Inv s) :
    Inv (register_local_impl s location owner_dialog_id size get_by_hash).2 := by
  unfold register_local_impl
  cases hA : indexGet s.local_location_to_file_id_ location with
  | some fid0 =>
    show Inv ((match s.nodeIdOf fid0 with
      | none => ((fid0, s) : Nat × FileManager)
      | some i =>
        let pr := s.addAlias i
        ((pr.1, pr.2.modifyNodeAt i (fun n =>
          { n with
            size_ := if n.size_ = 0 then size else n.size_,
            get_by_hash_ := n.get_by_hash_ || get_by_hash })) : Nat × FileManager)).2)
    cases hB : s.nodeIdOf fid0 with
    | none => exact h
    | some i =>
      show Inv ((s.addAlias i).2.modifyNodeAt i (fun n =>
        { n with
          size_ := if n.size_ = 0 then size else n.size_,
          get_by_hash_ := n.get_by_hash_ || get_by_hash }))
      exact inv_modifyNodeAt_compat (fun m => ⟨rfl, rfl, rfl, rfl, fun _ => rfl⟩)
        (inv_addAlias i h)
  | none =>
    refine inv_createNodeIndexed rfl rfl rfl ?_ ?_ ?_ h
    · intro l hl
      have hl' : some location = some l := hl
      rw [← Option.some.inj hl']
      exact hA
    · intro r hr
      exact Option.noConfusion hr
    · intro g hg
      exact Option.noConfusion hg

theorem inv_register_local {s : FileManager} (fs : String → Option FsStat)
    (location : FullLocalFileLocation) (owner_dialog_id : Int) (size : Nat)
    (get_by_hash force : Bool) (h : Inv s) :
    Inv (s.register_local fs location owner_dialog_id size get_by_hash force).2 := by
  unfold register_local
  cases force with
  | true => exact inv_register_local_impl location owner_dialog_id size get_by_hash h
  | false =>
    show Inv ((if location.path_ ∈ s.bad_paths_ then
        ((.error .LocalFileGone, s) : Except FmError Nat × FileManager)
      else match checkLocalLocation fs location with
        | none => (.error .LocalFileGone,
            { s with bad_paths_ := location.path_ :: s.bad_paths_ })
        | some observed_size =>
          let pr := register_local_impl s location owner_dialog_id observed_size get_by_hash
          (.ok pr.1, pr.2)).2)
    by_cases hbp : location.path_ ∈ s.bad_paths_
    · rw [if_pos hbp]
      exact h
    · rw [if_neg hbp]
      cases hck : checkLocalLocation fs location with
      | none =>
        show Inv ({ s with bad_paths_ := location.path_ :: s.bad_paths_ } : FileManager)
        refine inv_congr ?_ ?_ ?_ ?_ ?_ ?_ ?_ h
        · rfl
        · exact fun fid j hj => hj
        · rfl
        · rfl
        · rfl
        · rfl
        · rfl
      | some observed_size =>
        exact inv_register_local_impl location owner_dialog_id observed_size get_by_hash h

theorem inv_register_generate {s : FileManager} (file_type : FileType)
    (original_path conversion : String) (owner_dialog_id : Int) (expected_size : Nat)
    (h : Inv s) :
    Inv (s.register_generate file_type original_path conversion owner_dialog_id
      expected_size).2 := by
  unfold register_generate
  show Inv ((match indexGet s.generate_location_to_file_id_ ({ file_type_ := file_type, original_path_ := original_path, conversion_ := conversion } : FullGenerateFileLocation) with | some fid0 => (match s.nodeIdOf fid0 with | none => ((Except.ok fid0, s) : Except FmError Nat × FileManager) | some i => (let pr := s.addAlias i; ((Except.ok pr.1, pr.2.modifyNodeAt i (fun n => { n with expected_size_ := max n.expected_size_ expected_size })) : Except FmError Nat × FileManager))) | none => (let pr := s.createNodeIndexed { generate_ := .full { file_type_ := file_type, original_path_ := original_path, conversion_ := conversion }, expected_size_ := expected_size, owner_dialog_id_ := owner_dialog_id }; ((Except.ok pr.1, pr.2) : Except FmError Nat × FileManager))).2)
  cases hA : indexGet s.generate_location_to_file_id_ ({ file_type_ := file_type, original_path_ := original_path, conversion_ := conversion } : FullGenerateFileLocation) with
  | some fid0 =>
    show Inv ((match s.nodeIdOf fid0 with
      | none => ((Except.ok fid0, s) : Except FmError Nat × FileManager)
      | some i =>
        let pr := s.addAlias i
        ((Except.ok pr.1, pr.2.modifyNodeAt i (fun n =>
          { n with expected_size_ := max n.expected_size_ expected_size })) :
          Except FmError Nat × FileManager)).2)
    cases hB : s.nodeIdOf fid0 with
    | none => exact h
    | some i =>
      show Inv ((s.addAlias i).2.modifyNodeAt i (fun n =>
        { n with expected_size_ := max n.expected_size_ expected_size }))
      exact inv_modifyNodeAt_compat (fun m => ⟨rfl, rfl, rfl, rfl, fun _ => rfl⟩)
        (inv_addAlias i h)
  | none =>
    refine inv_createNodeIndexed rfl rfl rfl ?_ ?_ ?_ h
    · intro l hl
      exact Option.noConfusion hl
    · intro r hr
      exact Option.noConfusion hr
    · intro g hg
      have hg' : some ({ file_type_ := file_type, original_path_ := original_path, conversion_ := conversion } : FullGenerateFileLocation) = some g := hg
      rw [← Option.some.inj hg']
      exact hA

theorem inv_register_empty {s : FileManager} (file_type : FileType) (h : Inv s) :
    Inv (s.register_empty file_type).2 := by
  unfold register_empty
  exact inv_createNodeIndexed rfl rfl rfl (fun l hl => Option.noConfusion hl)
    (fun r hr => Option.noConfusion hr) (fun g hg => Option.noConfusion hg) h

theorem inv_dup_file_id {s : FileManager} (fid : Nat) (h : Inv s) :
    Inv (s.dup_file_id fid).2 := by
  unfold dup_file_id
  cases hgf : s.get_file_node fid with
  | none => exact h
  | some pr => exact inv_addAlias pr.1 h

theorem inv_from_persistent_id {s : FileManager} (persistent_id : List Char)
    (file_type : FileType) (h : Inv s) :
    Inv (s.from_persistent_id persistent_id file_type).2 := by
  unfold from_persistent_id
  cases hd : base64Decode persistent_id with
  | none => exact h
  | some body0 =>
    cases body0 with
    | nil => exact h
    | cons v body =>
      show Inv ((if v ≠ PERSISTENT_ID_VERSION then
          ((.error .InvalidPersistentId, s) : Except FmError Nat × FileManager)
        else match deserializeRemote body with
          | none => (.error .InvalidPersistentId, s)
          | some (remote, rest) =>
            if rest = [fileTypeCode remote.file_type_] ∧ remote.file_type_ = file_type then
              let pr := register_remote s remote 0 remote.size_ remote.size_ ""
              (.ok pr.1, pr.2)
            else (.error .InvalidPersistentId, s)).2)
      by_cases hv : v ≠ PERSISTENT_ID_VERSION
      · rw [if_pos hv]
        exact h
      · rw [if_neg hv]
        cases hdr : deserializeRemote body with
        | none => exact h
        | some pr2 =>
          show Inv ((if pr2.2 = [fileTypeCode pr2.1.file_type_] ∧
              pr2.1.file_type_ = file_type then
              let pr := register_remote s pr2.1 0 pr2.1.size_ pr2.1.size_ ""
              ((.ok pr.1, pr.2) : Except FmError Nat × FileManager)
            else ((.error .InvalidPersistentId, s) : Except FmError Nat × FileManager)).2)
          by_cases hok : pr2.2 = [fileTypeCode pr2.1.file_type_] ∧
              pr2.1.file_type_ = file_type
          · rw [if_pos hok]
            exact inv_register_remote pr2.1 0 pr2.1.size_ pr2.1.size_ "" h
          · rw [if_neg hok]
            exact h

theorem inv_merge {s : FileManager} (x_file_id y_file_id : Nat) (no_sync : Bool)
    (fs : String → Option FsStat) (h : Inv s) :
    Inv (s.merge x_file_id y_file_id no_sync fs).2 := by
  unfold merge
  cases hgx : s.get_file_node x_file_id with
  | none => exact h
  | some prx =>
    cases hgy : s.get_file_node y_file_id with
    | none => exact h
    | some pry =>
      show Inv ((if prx.1 = pry.1 then
          ((.ok prx.2.main_file_id_, s) : Except FmError Nat × FileManager)
        else if prx.2.encryption_key_ ≠ ([] : List Nat) ∧
            pry.2.encryption_key_ ≠ ([] : List Nat) ∧
            prx.2.encryption_key_ ≠ pry.2.encryption_key_ then
          ((.error .MergeConflict, s) : Except FmError Nat × FileManager)
        else if pickFirstWins prx.1 prx.2 pry.1 pry.2 then
          ((.ok (mergeNode fs prx.2 pry.2).main_file_id_,
            mergeInto s prx.1 pry.1 prx.2 pry.2 fs) : Except FmError Nat × FileManager)
        else
          ((.ok (mergeNode fs pry.2 prx.2).main_file_id_,
            mergeInto s pry.1 prx.1 pry.2 prx.2 fs) :
            Except FmError Nat × FileManager)).2)
      obtain ⟨hgx1, hgx2⟩ := get_file_node_eq_some.mp hgx
      obtain ⟨hgy1, hgy2⟩ := get_file_node_eq_some.mp hgy
      by_cases hxy : prx.1 = pry.1
      · rw [if_pos hxy]
        exact h
      · rw [if_neg hxy]
        by_cases hkey : prx.2.encryption_key_ ≠ ([] : List Nat) ∧
            pry.2.encryption_key_ ≠ ([] : List Nat) ∧
            prx.2.encryption_key_ ≠ pry.2.encryption_key_
        · rw [if_pos hkey]
          exact h
        · rw [if_neg hkey]
          by_cases hpw : pickFirstWins prx.1 prx.2 pry.1 pry.2 = true
          · rw [if_pos hpw]
            exact inv_mergeInto fs hgx2 hgy2 hxy h
          · rw [if_neg hpw]
            exact inv_mergeInto fs hgy2 hgx2 (fun he => hxy he.symm) h


theorem inv_on_start_download {s : FileManager} (query_id : Nat) (h : Inv s) :
    Inv (s.on_start_download query_id) := by
  unfold on_start_download
  cases hq : indexGet s.queries_container_ query_id with
  | none => exact h
  | some q =>
    show Inv (match s.get_file_node q.file_id_ with
      | none => s
      | some (i, _) => s.modifyNodeAt i (fun n => { n with is_download_started_ := true }))
    cases hgf : s.get_file_node q.file_id_ with
    | none => exact h
    | some pr =>
      show Inv (s.modifyNodeAt pr.1 (fun n => { n with is_download_started_ := true }))
      exact inv_modifyNodeAt_compat (fun m => ⟨rfl, rfl, rfl, rfl, fun _ => rfl⟩) h

theorem inv_on_partial_download {s : FileManager} (query_id : Nat)
    (partial_local : PartialLocalFileLocation) (ready_size : Nat) (h : Inv s) :
    Inv (s.on_partial_download query_id partial_local ready_size) := by
  unfold on_partial_download
  cases hq : indexGet s.queries_container_ query_id with
  | none => exact h
  | some q =>
    show Inv (match s.get_file_node q.file_id_ with
      | none => s
      | some (i, _) => s.modifyNodeAt i (fun n =>
          match n.local_ with
          | .full _ => n
          | _ =>
            { n with
              local_ := .part partial_local
              local_ready_size_ := ready_size
              info_changed_flag_ := true }))
    cases hgf : s.get_file_node q.file_id_ with
    | none => exact h
    | some pr =>
      show Inv (s.modifyNodeAt pr.1 (fun n =>
        match n.local_ with
        | .full _ => n
        | _ =>
          { n with
            local_ := .part partial_local
            local_ready_size_ := ready_size
            info_changed_flag_ := true }))
      refine inv_modifyNodeAt_compat ?_ h
      intro m
      beta_reduce
      cases hml : m.local_ with
      | full lf =>
        refine ⟨?_, rfl, rfl, rfl, fun _ => rfl⟩
        show m.local_.fullOf = (LocalFileLocation.full lf).fullOf
        rw [hml]
      | empty => exact ⟨rfl, rfl, rfl, rfl, fun _ => rfl⟩
      | part pp => exact ⟨rfl, rfl, rfl, rfl, fun _ => rfl⟩

theorem inv_on_partial_upload {s : FileManager} (query_id : Nat)
    (partial_remote : PartialRemoteFileLocation) (ready_size : Nat) (h : Inv s) :
    Inv (s.on_partial_upload query_id partial_remote ready_size) := by
  unfold on_partial_upload
  cases hq : indexGet s.queries_container_ query_id with
  | none => exact h
  | some q =>
    show Inv (match s.get_file_node q.file_id_ with
      | none => s
      | some (i, _) => s.modifyNodeAt i (fun n =>
          match n.remote_ with
          | .full _ => n
          | _ =>
            { n with
              remote_ := .part partial_remote
              remote_ready_size_ := ready_size
              info_changed_flag_ := true }))
    cases hgf : s.get_file_node q.file_id_ with
    | none => exact h
    | some pr =>
      show Inv (s.modifyNodeAt pr.1 (fun n =>
        match n.remote_ with
        | .full _ => n
        | _ =>
          { n with
            remote_ := .part partial_remote
            remote_ready_size_ := ready_size
            info_changed_flag_ := true }))
      refine inv_modifyNodeAt_compat ?_ h
      intro m
      beta_reduce
      cases hmr : m.remote_ with
      | full rf =>
        refine ⟨rfl, ?_, rfl, rfl, fun _ => rfl⟩
        show m.remote_.fullOf = (RemoteFileLocation.full rf).fullOf
        rw [hmr]
      | empty => exact ⟨rfl, rfl, rfl, rfl, fun _ => rfl⟩
      | part pp => exact ⟨rfl, rfl, rfl, rfl, fun _ => rfl⟩

theorem inv_on_download_ok {s : FileManager} (query_id : Nat)
    (location : FullLocalFileLocation) (size : Nat) (h : Inv s) :
    Inv (s.on_download_ok query_id location size) := by
  unfold on_download_ok
  cases hfq : finishQueryOnNode s query_id with
  | mk fst snd =>
    have hsnd : Inv snd := by
      have hfin := inv_finishQueryOnNode query_id h
      rw [hfq] at hfin
      exact hfin
    cases fst with
    | none => exact hsnd
    | some pri =>
      show Inv ((setFullLocalIndexed snd pri.2 location).modifyNodeAt pri.2 (fun n =>
        { n with size_ := size, local_ready_size_ := size, is_download_started_ := false }))
      exact inv_modifyNodeAt_compat (fun m => ⟨rfl, rfl, rfl, rfl, fun _ => rfl⟩)
        (inv_setFullLocalIndexed pri.2 location hsnd)

theorem inv_on_upload_ok {s : FileManager} (query_id : Nat) (file_type : FileType)
    (partial_remote : PartialRemoteFileLocation) (size : Nat) (h : Inv s) :
    Inv (s.on_upload_ok query_id file_type partial_remote size) := by
  unfold on_upload_ok
  cases hfq : finishQueryOnNode s query_id with
  | mk fst snd =>
    have hsnd : Inv snd := by
      have hfin := inv_finishQueryOnNode query_id h
      rw [hfq] at hfin
      exact hfin
    cases fst with
    | none => exact hsnd
    | some pri =>
      show Inv (snd.modifyNodeAt pri.2 (fun n =>
        { n with
          remote_ := (match n.remote_ with
            | .full f => .full f
            | _ => .part partial_remote)
          size_ := if n.size_ = 0 then size else n.size_
          upload_pause_ := some pri.1.file_id_ }))
      refine inv_modifyNodeAt_compat ?_ hsnd
      intro m
      beta_reduce
      cases hmr : m.remote_ <;> exact ⟨rfl, rfl, rfl, rfl, fun _ => rfl⟩

theorem inv_on_upload_full_ok {s : FileManager} (query_id : Nat)
    (remote : FullRemoteFileLocation) (h : Inv s) :
    Inv (s.on_upload_full_ok query_id remote) := by
  unfold on_upload_full_ok
  cases hfq : finishQueryOnNode s query_id with
  | mk fst snd =>
    have hsnd : Inv snd := by
      have hfin := inv_finishQueryOnNode query_id h
      rw [hfq] at hfin
      exact hfin
    cases fst with
    | none => exact hsnd
    | some pri => exact inv_setFullRemoteIndexed pri.2 remote hsnd

theorem inv_on_error {s : FileManager} (query_id : Nat) (status : FmError) (h : Inv s) :
    Inv (s.on_error query_id status) := by
  unfold on_error
  cases hfq : finishQueryOnNode s query_id with
  | mk fst snd =>
    have hsnd : Inv snd := by
      have hfin := inv_finishQueryOnNode query_id h
      rw [hfq] at hfin
      exact hfin
    cases fst with
    | none => exact hsnd
    | some pri =>
      show Inv (if status = .LocalFileGone then
          (demoteLocal snd pri.2).modifyNodeAt pri.2 (fun n =>
            { n with is_download_started_ := false })
        else clearPriorities snd pri.2 (kindOfQueryType pri.1.type_))
      by_cases hst : status = .LocalFileGone
      · rw [if_pos hst]
        exact inv_modifyNodeAt_compat (fun m => ⟨rfl, rfl, rfl, rfl, fun _ => rfl⟩)
          (inv_demoteLocal pri.2 hsnd)
      · rw [if_neg hst]
        exact inv_clearPriorities pri.2 (kindOfQueryType pri.1.type_) hsnd

theorem inv_on_partial_generate {s : FileManager} (query_id : Nat)
    (partial_local : PartialLocalFileLocation) (expected_size : Nat) (h : Inv s) :
    Inv (s.on_partial_generate query_id partial_local expected_size) := by
  unfold on_partial_generate
  cases hq : indexGet s.queries_container_ query_id with
  | none => exact h
  | some q =>
    show Inv (match s.get_file_node q.file_id_ with
      | none => s
      | some (i, _) => s.modifyNodeAt i (fun n =>
          match n.local_ with
          | .full _ => n
          | _ =>
            { n with
              local_ := .part partial_local
              expected_size_ := expected_size
              info_changed_flag_ := true }))
    cases hgf : s.get_file_node q.file_id_ with
    | none => exact h
    | some pr =>
      show Inv (s.modifyNodeAt pr.1 (fun n =>
        match n.local_ with
        | .full _ => n
        | _ =>
          { n with
            local_ := .part partial_local
            expected_size_ := expected_size
            info_changed_flag_ := true }))
      refine inv_modifyNodeAt_compat ?_ h
      intro m
      beta_reduce
      cases hml : m.local_ with
      | full lf =>
        refine ⟨?_, rfl, rfl, rfl, fun _ => rfl⟩
        show m.local_.fullOf = (LocalFileLocation.full lf).fullOf
        rw [hml]
      | empty => exact ⟨rfl, rfl, rfl, rfl, fun _ => rfl⟩
      | part pp => exact ⟨rfl, rfl, rfl, rfl, fun _ => rfl⟩

theorem inv_on_generate_ok {s : FileManager} (query_id : Nat)
    (location : FullLocalFileLocation) (h : Inv s) :
    Inv (s.on_generate_ok query_id location) := by
  unfold on_generate_ok
  cases hfq : finishQueryOnNode s query_id with
  | mk fst snd =>
    have hsnd : Inv snd := by
      have hfin := inv_finishQueryOnNode query_id h
      rw [hfq] at hfin
      exact hfin
    cases fst with
    | none => exact hsnd
    | some pri => exact inv_setFullLocalIndexed pri.2 location hsnd

end FileManager

/-- Every public operation and worker callback preserves the manager
invariant. -/
theorem inv_applyOp {s : FileManager} (op : Op) (h : FileManager.Inv s) :
    FileManager.Inv (applyOp s op) := by
  cases op with
  | registerEmpty t => exact FileManager.inv_register_empty t h
  | registerLocal fs loc owner size gbh force =>
    exact FileManager.inv_register_local fs loc owner size gbh force h
  | registerRemote loc owner size expected name =>
    exact FileManager.inv_register_remote loc owner size expected name h
  | registerGenerate t orig conv owner expected =>
    exact FileManager.inv_register_generate t orig conv owner expected h
  | mergeOp x y ns fs => exact FileManager.inv_merge x y ns fs h
  | dupFileId fid => exact FileManager.inv_dup_file_id fid h
  | downloadOp fid cb prio => exact FileManager.inv_download fid cb prio h
  | uploadOp fid cb prio ord => exact FileManager.inv_upload fid cb prio ord h
  | resumeUploadOp fid bad cb prio ord =>
    exact FileManager.inv_resume_upload fid bad cb prio ord h
  | deletePartialRemoteLocationOp fid =>
    exact FileManager.inv_delete_partial_remote_location fid h
  | setEncryptionKeyOp fid key => exact FileManager.inv_set_encryption_key fid key h
  | deleteFileOp fid => exact FileManager.inv_delete_file fid h
  | fromPersistentIdOp pid t => exact FileManager.inv_from_persistent_id pid t h
  | onStartDownloadOp qid => exact FileManager.inv_on_start_download qid h
  | onPartialDownloadOp qid pl ready =>
    exact FileManager.inv_on_partial_download qid pl ready h
  | onPartialUploadOp qid pr ready => exact FileManager.inv_on_partial_upload qid pr ready h
  | onDownloadOkOp qid l size => exact FileManager.inv_on_download_ok qid l size h
  | onUploadOkOp qid t pr size => exact FileManager.inv_on_upload_ok qid t pr size h
  | onUploadFullOkOp qid r => exact FileManager.inv_on_upload_full_ok qid r h
  | onErrorOp qid status => exact FileManager.inv_on_error qid status h
  | onPartialGenerateOp qid pl expected =>
    exact FileManager.inv_on_partial_generate qid pl expected h
  | onGenerateOkOp qid l => exact FileManager.inv_on_generate_ok qid l h

/-- The invariant holds along every trace. -/
theorem inv_applyOps {s : FileManager} (ops : List Op) (h : FileManager.Inv s) :
    FileManager.Inv (applyOps s ops) := by
  induction ops generalizing s with
  | nil => exact h
  | cons op rest ih => exact ih (inv_applyOp op h)

/-- The freshly constructed manager satisfies the invariant. -/
theorem inv_initState : FileManager.Inv initState := by
  constructor <;> decide

namespace FileManager


theorem persistent_bytes_lt (r : FullRemoteFileLocation) :
    ∀ b ∈ PERSISTENT_ID_VERSION :: serializeRemote r ++ [fileTypeCode r.file_type_],
      b < 256 := by
  intro b hb
  rcases List.mem_cons.mp hb with hb0 | hb'
  · rw [hb0]
    decide
  · rcases List.mem_append.mp hb' with hb2 | hb3
    · exact serializeRemote_lt_256 r b hb2
    · rw [List.mem_singleton.mp hb3]
      exact fileTypeCode_lt _

theorem base64Decode_get_persistent_id (r : FullRemoteFileLocation) :
    base64Decode (get_persistent_id r) =
      some (PERSISTENT_ID_VERSION :: serializeRemote r ++ [fileTypeCode r.file_type_]) :=
  base64Decode_encode _ (persistent_bytes_lt r)

theorem addAlias_handle (s : FileManager) (i : Nat) :
    (s.addAlias i).2.nodeIdOf (s.addAlias i).1 = some i := by
  show (({ s with file_id_info_ := s.file_id_info_ ++ [{ node_id_ := i }] } :
      FileManager).modifyNodeAt i (fun n =>
      { n with file_ids_ := n.file_ids_ ++ [s.file_id_info_.length] })).nodeIdOf
      s.file_id_info_.length = some i
  rw [nodeIdOf_modifyNodeAt]
  show ((s.file_id_info_ ++ [({ node_id_ := i } : FileIdInfo)])[s.file_id_info_.length]?).map
    FileIdInfo.node_id_ = some i
  rw [List.getElem?_append_right (Nat.le_refl _), Nat.sub_self]
  rfl

theorem register_remote_hit {s : FileManager} {r : FullRemoteFileLocation} {fid₂ i : Nat}
    (hlook : indexGet s.remote_location_to_file_id_ r = some fid₂)
    (hid : s.nodeIdOf fid₂ = some i) (owner : Int) (size expected : Nat) (name : String) :
    (s.register_remote r owner size expected name).2.nodeIdOf
      (s.register_remote r owner size expected name).1 = some i := by
  unfold register_remote
  rw [hlook]
  show ((match s.nodeIdOf fid₂ with
    | none => ((fid₂, s) : Nat × FileManager)
    | some i =>
      let pr := s.addAlias i
      ((pr.1, pr.2.modifyNodeAt i (fun n =>
        { n with
          size_ := if n.size_ = 0 then size else n.size_,
          expected_size_ := max n.expected_size_ expected,
          name_ := if n.name_ = "" then name else n.name_ })) : Nat × FileManager)).2).nodeIdOf
    ((match s.nodeIdOf fid₂ with
    | none => ((fid₂, s) : Nat × FileManager)
    | some i =>
      let pr := s.addAlias i
      ((pr.1, pr.2.modifyNodeAt i (fun n =>
        { n with
          size_ := if n.size_ = 0 then size else n.size_,
          expected_size_ := max n.expected_size_ expected,
          name_ := if n.name_ = "" then name else n.name_ })) : Nat × FileManager)).1) = some i
  rw [hid]
  show ((s.addAlias i).2.modifyNodeAt i (fun n =>
    { n with
      size_ := if n.size_ = 0 then size else n.size_,
      expected_size_ := max n.expected_size_ expected,
      name_ := if n.name_ = "" then name else n.name_ })).nodeIdOf (s.addAlias i).1 = some i
  rw [nodeIdOf_modifyNodeAt]
  exact addAlias_handle s i

/-- C1: in every state reachable by the public operations, distinct live
nodes have pairwise disjoint Full locations (no shared Full local path,
Full remote reference, or Full generate recipe), and each location index
maps every Full location held by a live node back to exactly that node. -/
theorem c1_full_locations_disjoint (ops : List Op) (i j : Nat) (ni nj : FileNode)
    (hi : (applyOps initState ops).nodeAt i = some ni)
    (hj : (applyOps initState ops).nodeAt j = some nj) (hij : i ≠ j) :
    ((∀ l, ¬(ni.local_ = .full l ∧ nj.local_ = .full l)) ∧
      (∀ r, ¬(ni.remote_ = .full r ∧ nj.remote_ = .full r)) ∧
      (∀ g, ¬(ni.generate_ = .full g ∧ nj.generate_ = .full g))) ∧
    ((∀ l, ni.local_ = .full l →
        optIs (indexGet (applyOps initState ops).local_location_to_file_id_ l)
          (fun fid => (applyOps initState ops).nodeIdOf fid = some i)) ∧
      (∀ r, ni.remote_ = .full r →
        optIs (indexGet (applyOps initState ops).remote_location_to_file_id_ r)
          (fun fid => (applyOps initState ops).nodeIdOf fid = some i)) ∧
      (∀ g, ni.generate_ = .full g →
        optIs (indexGet (applyOps initState ops).generate_location_to_file_id_ g)
          (fun fid => (applyOps initState ops).nodeIdOf fid = some i))) := by
  have hInv := inv_applyOps ops inv_initState
  refine ⟨⟨?_, ?_, ?_⟩, ?_, ?_, ?_⟩
  · rintro l ⟨ha, hb⟩
    exact hij (local_full_uniq hInv.local_complete_ok hi (localFullOf_eq_some.mpr ha) hj
      (localFullOf_eq_some.mpr hb))
  · rintro r ⟨ha, hb⟩
    exact hij (remote_full_uniq hInv.remote_complete_ok hi (remoteFullOf_eq_some.mpr ha) hj
      (remoteFullOf_eq_some.mpr hb))
  · rintro g ⟨ha, hb⟩
    exact hij (generate_full_uniq hInv.generate_complete_ok hi
      (generateFullOf_eq_some.mpr ha) hj (generateFullOf_eq_some.mpr hb))
  · intro l hl
    have hc := hInv.local_complete_ok i (nodeAt_lt_length hi)
    rw [hi] at hc
    simp only [optAll_some] at hc
    rw [localFullOf_eq_some.mpr hl] at hc
    simp only [optAll_some] at hc
    exact hc
  · intro r hr
    have hc := hInv.remote_complete_ok i (nodeAt_lt_length hi)
    rw [hi] at hc
    simp only [optAll_some] at hc
    rw [remoteFullOf_eq_some.mpr hr] at hc
    simp only [optAll_some] at hc
    exact hc
  · intro g hg
    have hc := hInv.generate_complete_ok i (nodeAt_lt_length hi)
    rw [hi] at hc
    simp only [optAll_some] at hc
    rw [generateFullOf_eq_some.mpr hg] at hc
    simp only [optAll_some] at hc
    exact hc

theorem c1_witness :
    ((∀ l, ¬(({ main_file_id_ := 0, file_ids_ := [0] } : FileNode).local_ = .full l ∧
        ({ main_file_id_ := 1, file_ids_ := [1] } : FileNode).local_ = .full l)) ∧
      (∀ r, ¬(({ main_file_id_ := 0, file_ids_ := [0] } : FileNode).remote_ = .full r ∧
        ({ main_file_id_ := 1, file_ids_ := [1] } : FileNode).remote_ = .full r)) ∧
      (∀ g, ¬(({ main_file_id_ := 0, file_ids_ := [0] } : FileNode).generate_ = .full g ∧
        ({ main_file_id_ := 1, file_ids_ := [1] } : FileNode).generate_ = .full g))) ∧
    ((∀ l, ({ main_file_id_ := 0, file_ids_ := [0] } : FileNode).local_ = .full l →
        optIs (indexGet (applyOps initState
            [Op.registerEmpty .Photo, Op.registerEmpty .Photo]).local_location_to_file_id_ l)
          (fun fid => (applyOps initState
            [Op.registerEmpty .Photo, Op.registerEmpty .Photo]).nodeIdOf fid = some 0)) ∧
      (∀ r, ({ main_file_id_ := 0, file_ids_ := [0] } : FileNode).remote_ = .full r →
        optIs (indexGet (applyOps initState
            [Op.registerEmpty .Photo, Op.registerEmpty .Photo]).remote_location_to_file_id_ r)
          (fun fid => (applyOps initState
            [Op.registerEmpty .Photo, Op.registerEmpty .Photo]).nodeIdOf fid = some 0)) ∧
      (∀ g, ({ main_file_id_ := 0, file_ids_ := [0] } : FileNode).generate_ = .full g →
        optIs (indexGet (applyOps initState
            [Op.registerEmpty .Photo, Op.registerEmpty .Photo]).generate_location_to_file_id_
            g)
          (fun fid => (applyOps initState
            [Op.registerEmpty .Photo, Op.registerEmpty .Photo]).nodeIdOf fid = some 0))) :=
  c1_full_locations_disjoint [Op.registerEmpty .Photo, Op.registerEmpty .Photo] 0 1
    { main_file_id_ := 0, file_ids_ := [0] } { main_file_id_ := 1, file_ids_ := [1] }
    (by decide) (by decide) (by decide)

/-- C2: in every reachable state, a node has at most one in-flight worker
query per kind — two container entries of the same kind that resolve to
the same node have the same query id. -/
theorem c2_one_query_per_kind (ops : List Op) (i : Nat) (k : WorkerKind) (p q : Nat × Query)
    (hp : p ∈ (applyOps initState ops).queries_container_)
    (hq : q ∈ (applyOps initState ops).queries_container_)
    (hpk : kindOfQueryType p.2.type_ = k) (hqk : kindOfQueryType q.2.type_ = k)
    (hpi : optIs ((applyOps initState ops).get_file_node p.2.file_id_)
      (fun pr => pr.1 = i))
    (hqi : optIs ((applyOps initState ops).get_file_node q.2.file_id_)
      (fun pr => pr.1 = i)) :
    p.1 = q.1 := by
  have hInv := inv_applyOps ops inv_initState
  obtain ⟨-, -, hpres⟩ := hInv.queries_ok p hp
  obtain ⟨-, -, hqres⟩ := hInv.queries_ok q hq
  cases hgp : (applyOps initState ops).get_file_node p.2.file_id_ with
  | none => rw [hgp] at hpres; exact absurd hpres id
  | some prp =>
    rw [hgp] at hpres hpi
    simp only [optIs_some] at hpres hpi
    cases hgq : (applyOps initState ops).get_file_node q.2.file_id_ with
    | none => rw [hgq] at hqres; exact absurd hqres id
    | some prq =>
      rw [hgq] at hqres hqi
      simp only [optIs_some] at hqres hqi
      obtain ⟨hp1, hp2⟩ := get_file_node_eq_some.mp (show (applyOps initState ops).get_file_node p.2.file_id_ = some (prp.1, prp.2) from by rw [hgp])
      obtain ⟨hq1, hq2⟩ := get_file_node_eq_some.mp (show (applyOps initState ops).get_file_node q.2.file_id_ = some (prq.1, prq.2) from by rw [hgq])
      rw [hpi] at hp2
      rw [hqi] at hq2
      rw [hp2] at hq2
      have hnode : prp.2 = prq.2 := Option.some.inj hq2
      rw [← hpres, ← hqres, hnode, hpk, hqk]

theorem c2_witness : ((1, ({ file_id_ := 0, type_ := .Download } : Query)) : Nat × Query).1 =
    ((1, ({ file_id_ := 0, type_ := .Download } : Query)) : Nat × Query).1 :=
  c2_one_query_per_kind
    [Op.registerRemote { file_type_ := .Photo, server_ref_ := 7, size_ := 5 } 0 5 5 "",
      Op.downloadOp 0 none 1]
    0 .download (1, { file_id_ := 0, type_ := .Download })
    (1, { file_id_ := 0, type_ := .Download }) (by decide) (by decide) (by decide)
    (by decide) (by decide) (by decide)

/-- C4: a persistent identifier decodes to bytes starting with version
byte 2 (PERSISTENT_ID_VERSION) and is URL-safe base64 (every character in
the 64-letter URL alphabet, hence no padding), and from_persistent_id
rejects any token whose leading decoded byte differs from the version
with InvalidPersistentId. -/
theorem c4_persistent_id_version (r : FullRemoteFileLocation) (s : FileManager)
    (pid : List Char) (file_type : FileType) (v : Nat) (body : List Nat)
    (hd : base64Decode pid = some (v :: body)) (hv : v ≠ PERSISTENT_ID_VERSION) :
    base64Decode (get_persistent_id r) =
      some (PERSISTENT_ID_VERSION :: serializeRemote r ++ [fileTypeCode r.file_type_]) ∧
    PERSISTENT_ID_VERSION = 2 ∧
    (∀ c ∈ get_persistent_id r, c ∈ base64Chars) ∧
    (s.from_persistent_id pid file_type).1 = .error .InvalidPersistentId := by
  refine ⟨base64Decode_get_persistent_id r, rfl, ?_, ?_⟩
  · intro c hc
    exact base64Encode_mem_alphabet _ c hc
  · unfold from_persistent_id
    rw [hd]
    show ((if v ≠ PERSISTENT_ID_VERSION then
        ((.error .InvalidPersistentId, s) : Except FmError Nat × FileManager)
      else match deserializeRemote body with
        | none => (.error .InvalidPersistentId, s)
        | some (remote, rest) =>
          if rest = [fileTypeCode remote.file_type_] ∧ remote.file_type_ = file_type then
            let pr := register_remote s remote 0 remote.size_ remote.size_ ""
            (.ok pr.1, pr.2)
          else (.error .InvalidPersistentId, s)) :
      Except FmError Nat × FileManager).1 = .error .InvalidPersistentId
    rw [if_pos hv]

theorem c4_witness :
    (base64Decode (get_persistent_id { file_type_ := .Photo, server_ref_ := 7, size_ := 5 }) =
      some (PERSISTENT_ID_VERSION ::
        serializeRemote { file_type_ := .Photo, server_ref_ := 7, size_ := 5 } ++
        [fileTypeCode
          ({ file_type_ := .Photo, server_ref_ := 7, size_ := 5 } :
            FullRemoteFileLocation).file_type_]) ∧
    PERSISTENT_ID_VERSION = 2 ∧
    (∀ c ∈ get_persistent_id { file_type_ := .Photo, server_ref_ := 7, size_ := 5 },
      c ∈ base64Chars) ∧
    (initState.from_persistent_id (base64Encode [3]) .Photo).1 =
      .error .InvalidPersistentId) :=
  c4_persistent_id_version { file_type_ := .Photo, server_ref_ := 7, size_ := 5 } initState
    (base64Encode [3]) .Photo 3 [] (by decide) (by decide)

/-- C6: when the node behind a handle has a Full remote location,
delete_partial_remote_location returns false and leaves the manager state
unchanged. -/
theorem c6_delete_partial_full_remote_noop (s : FileManager) (fid i : Nat) (n : FileNode)
    (r : FullRemoteFileLocation) (hg : s.get_file_node fid = some (i, n))
    (hr : n.remote_ = .full r) : s.delete_partial_remote_location fid = (false, s) := by
  unfold delete_partial_remote_location
  rw [hg]
  show (match n.remote_ with
    | RemoteFileLocation.full _ => ((false, s) : Bool × FileManager)
    | _ =>
      ((true, run_upload ((cancelQuery s i .upload).modifyNodeAt i (fun m =>
        { m with
            remote_ := .empty
            remote_ready_size_ := 0
            upload_pause_ := none
            pmc_changed_flag_ := true })) i) : Bool × FileManager)) = (false, s)
  rw [hr]

theorem c6_witness :
    (applyOps initState
      [Op.registerRemote { file_type_ := .Photo, server_ref_ := 7, size_ := 5 } 0 5 5
        "x"]).delete_partial_remote_location 0 =
    (false, applyOps initState
      [Op.registerRemote { file_type_ := .Photo, server_ref_ := 7, size_ := 5 } 0 5 5 "x"]) :=
  c6_delete_partial_full_remote_noop
    (applyOps initState
      [Op.registerRemote { file_type_ := .Photo, server_ref_ := 7, size_ := 5 } 0 5 5 "x"])
    0 0
    { remote_ := .full { file_type_ := .Photo, server_ref_ := 7, size_ := 5 },
      size_ := 5, expected_size_ := 5, name_ := "x",
      main_file_id_ := 0, file_ids_ := [0] }
    { file_type_ := .Photo, server_ref_ := 7, size_ := 5 } (by decide) (by decide)

/-- C7: setting a conflicting nonempty encryption key returns false and
changes nothing, and merge of two nodes with differing nonempty keys
fails with MergeConflict leaving the state unchanged (no node destroyed). -/
theorem c7_encryption_key_conflict (s : FileManager) (fid i : Nat) (n : FileNode)
    (key : FileEncryptionKey) (hg : s.get_file_node fid = some (i, n))
    (hk1 : n.encryption_key_ ≠ ([] : List Nat)) (hne : n.encryption_key_ ≠ key) :
    s.set_encryption_key fid key = (false, s) ∧
    ∀ a b ns fs j j' na nb, s.get_file_node a = some (j, na) →
      s.get_file_node b = some (j', nb) → j ≠ j' →
      na.encryption_key_ ≠ ([] : List Nat) → nb.encryption_key_ ≠ ([] : List Nat) →
      na.encryption_key_ ≠ nb.encryption_key_ →
      s.merge a b ns fs = (.error .MergeConflict, s) := by
  constructor
  · unfold set_encryption_key
    rw [hg]
    show (if n.encryption_key_ = ([] : List Nat) then
        ((true, s.setNodeAt i { n with encryption_key_ := key, pmc_changed_flag_ := true }) :
          Bool × FileManager)
      else if n.encryption_key_ = key then ((true, s) : Bool × FileManager)
      else ((false, s) : Bool × FileManager)) = (false, s)
    rw [if_neg hk1, if_neg hne]
  · intro a b ns fs j j' na nb hga hgb hjj hka hkb hkne
    unfold merge
    rw [hga, hgb]
    show (if j = j' then ((.ok na.main_file_id_, s) : Except FmError Nat × FileManager)
      else if na.encryption_key_ ≠ ([] : List Nat) ∧ nb.encryption_key_ ≠ ([] : List Nat) ∧
          na.encryption_key_ ≠ nb.encryption_key_ then
        ((.error .MergeConflict, s) : Except FmError Nat × FileManager)
      else if pickFirstWins j na j' nb then
        ((.ok (mergeNode fs na nb).main_file_id_, mergeInto s j j' na nb fs) :
          Except FmError Nat × FileManager)
      else
        ((.ok (mergeNode fs nb na).main_file_id_, mergeInto s j' j nb na fs) :
          Except FmError Nat × FileManager)) = (.error .MergeConflict, s)
    rw [if_neg hjj, if_pos ⟨hka, hkb, hkne⟩]

theorem c7_witness :
    (applyOps initState
      [Op.registerEmpty .Photo, Op.setEncryptionKeyOp 0 [1]]).set_encryption_key 0 [2] =
      (false, applyOps initState [Op.registerEmpty .Photo, Op.setEncryptionKeyOp 0 [1]]) :=
  (c7_encryption_key_conflict
    (applyOps initState [Op.registerEmpty .Photo, Op.setEncryptionKeyOp 0 [1]]) 0 0
    { encryption_key_ := [1], pmc_changed_flag_ := true, main_file_id_ := 0,
      file_ids_ := [0] }
    [2] (by decide) (by decide) (by decide)).1

/-- C8: registering a local path that fails the existence check with
force=false fails with LocalFileGone and records the path in bad_paths_;
a repeat call with the same path short-circuits identically regardless of
the filesystem; with force=true the registration succeeds via
register_local_impl, recording the path as-is. -/
theorem c8_bad_paths (s : FileManager) (fs fs' : String → Option FsStat)
    (location : FullLocalFileLocation) (owner_dialog_id : Int) (size : Nat)
    (get_by_hash : Bool) (hmiss : checkLocalLocation fs location = none)
    (hnotbad : location.path_ ∉ s.bad_paths_) :
    (s.register_local fs location owner_dialog_id size get_by_hash false).1 =
      .error .LocalFileGone ∧
    location.path_ ∈
      (s.register_local fs location owner_dialog_id size get_by_hash false).2.bad_paths_ ∧
    (s.register_local fs location owner_dialog_id size get_by_hash false).2.register_local
      fs' location owner_dialog_id size get_by_hash false =
      (.error .LocalFileGone,
        (s.register_local fs location owner_dialog_id size get_by_hash false).2) ∧
    s.register_local fs location owner_dialog_id size get_by_hash true =
      (.ok (register_local_impl s location owner_dialog_id size get_by_hash).1,
        (register_local_impl s location owner_dialog_id size get_by_hash).2) := by
  have hfirst : s.register_local fs location owner_dialog_id size get_by_hash false =
      (.error .LocalFileGone,
        { s with bad_paths_ := location.path_ :: s.bad_paths_ }) := by
    unfold register_local
    show (if location.path_ ∈ s.bad_paths_ then
        ((.error .LocalFileGone, s) : Except FmError Nat × FileManager)
      else match checkLocalLocation fs location with
        | none => (.error .LocalFileGone,
            { s with bad_paths_ := location.path_ :: s.bad_paths_ })
        | some observed_size =>
          let pr := register_local_impl s location owner_dialog_id observed_size get_by_hash
          (.ok pr.1, pr.2)) = _
    rw [if_neg hnotbad, hmiss]
  refine ⟨by rw [hfirst], ?_, ?_, ?_⟩
  · rw [hfirst]
    exact List.mem_cons_self _ _
  · rw [hfirst]
    unfold register_local
    show (if location.path_ ∈ ({ s with
        bad_paths_ := location.path_ :: s.bad_paths_ } : FileManager).bad_paths_ then
        ((.error .LocalFileGone,
          ({ s with bad_paths_ := location.path_ :: s.bad_paths_ } : FileManager)) :
          Except FmError Nat × FileManager)
      else match checkLocalLocation fs' location with
        | none => (.error .LocalFileGone,
            { ({ s with bad_paths_ := location.path_ :: s.bad_paths_ } : FileManager) with
              bad_paths_ := location.path_ ::
                ({ s with bad_paths_ := location.path_ :: s.bad_paths_ } :
                  FileManager).bad_paths_ })
        | some observed_size =>
          let pr := register_local_impl
            { s with bad_paths_ := location.path_ :: s.bad_paths_ } location
            owner_dialog_id observed_size get_by_hash
          (.ok pr.1, pr.2)) = _
    rw [if_pos (List.mem_cons_self _ _)]
  · unfold register_local
    rfl

theorem c8_witness :
    (initState.register_local (fun _ => none)
      { file_type_ := .Photo, path_ := "p", mtime_nsec_ := 0 } 0 5 false false).1 =
      .error .LocalFileGone :=
  (c8_bad_paths initState (fun _ => none) (fun _ => none)
    { file_type_ := .Photo, path_ := "p", mtime_nsec_ := 0 } 0 5 false (by decide)
    (by decide)).1

/-- C10: FileView::get_type follows the fixed precedence Full local, then
Full remote, then Full generate, then Temp, and is_encrypted holds exactly
when that type is Encrypted, independently of the stored encryption key. -/
theorem c10_get_type_precedence (v : FileView) :
    (∀ l, v.node_.local_ = .full l → v.get_type = l.file_type_) ∧
    (v.node_.local_.fullOf = none →
      ∀ r, v.node_.remote_ = .full r → v.get_type = r.file_type_) ∧
    (v.node_.local_.fullOf = none → v.node_.remote_.fullOf = none →
      ∀ g, v.node_.generate_ = .full g → v.get_type = g.file_type_) ∧
    (v.node_.local_.fullOf = none → v.node_.remote_.fullOf = none →
      v.node_.generate_.fullOf = none → v.get_type = FileType.Temp) ∧
    (v.is_encrypted = true ↔ v.get_type = FileType.Encrypted) ∧
    (∀ key : FileEncryptionKey,
      FileView.is_encrypted ⟨{ v.node_ with encryption_key_ := key }⟩ = v.is_encrypted) := by
  refine ⟨?_, ?_, ?_, ?_, ?_, ?_⟩
  · intro l hl
    unfold FileView.get_type
    rw [hl]
  · intro hl r hr
    unfold FileView.get_type
    cases hloc : v.node_.local_ with
    | full lf =>
      rw [hloc] at hl
      exact Option.noConfusion hl
    | empty => rw [hr]
    | part pp => rw [hr]
  · intro hl hrm g hg
    unfold FileView.get_type
    cases hloc : v.node_.local_ with
    | full lf =>
      rw [hloc] at hl
      exact Option.noConfusion hl
    | empty =>
      cases hrem : v.node_.remote_ with
      | full rf =>
        rw [hrem] at hrm
        exact Option.noConfusion hrm
      | empty => rw [hg]
      | part pp => rw [hg]
    | part pq =>
      cases hrem : v.node_.remote_ with
      | full rf =>
        rw [hrem] at hrm
        exact Option.noConfusion hrm
      | empty => rw [hg]
      | part pp => rw [hg]
  · intro hl hrm hgn
    unfold FileView.get_type
    cases hloc : v.node_.local_ with
    | full lf =>
      rw [hloc] at hl
      exact Option.noConfusion hl
    | empty =>
      cases hrem : v.node_.remote_ with
      | full rf =>
        rw [hrem] at hrm
        exact Option.noConfusion hrm
      | empty =>
        cases hgen : v.node_.generate_ with
        | full gf =>
          rw [hgen] at hgn
          exact Option.noConfusion hgn
        | empty => rfl
      | part pp =>
        cases hgen : v.node_.generate_ with
        | full gf =>
          rw [hgen] at hgn
          exact Option.noConfusion hgn
        | empty => rfl
    | part pq =>
      cases hrem : v.node_.remote_ with
      | full rf =>
        rw [hrem] at hrm
        exact Option.noConfusion hrm
      | empty =>
        cases hgen : v.node_.generate_ with
        | full gf =>
          rw [hgen] at hgn
          exact Option.noConfusion hgn
        | empty => rfl
      | part pp =>
        cases hgen : v.node_.generate_ with
        | full gf =>
          rw [hgen] at hgn
          exact Option.noConfusion hgn
        | empty => rfl
  · unfold FileView.is_encrypted
    constructor
    · intro hb
      exact of_decide_eq_true hb
    · intro he
      exact decide_eq_true he
  · intro key
    unfold FileView.is_encrypted
    have hty : FileView.get_type ⟨{ v.node_ with encryption_key_ := key }⟩ = v.get_type := by
      unfold FileView.get_type
      rfl
    rw [hty]

theorem c10_witness :
    FileView.get_type
      ⟨{ local_ := .full { file_type_ := .Photo, path_ := "p", mtime_nsec_ := 0 } }⟩ =
      FileType.Photo :=
  (c10_get_type_precedence
    ⟨{ local_ := .full { file_type_ := .Photo, path_ := "p", mtime_nsec_ := 0 } }⟩).1
    { file_type_ := .Photo, path_ := "p", mtime_nsec_ := 0 } (by decide)


/-- C5: merge is idempotent — after a successful merge both handles
resolve to the same node, so running the same merge again returns the
state unchanged. -/
theorem c5_merge_idempotent (s : FileManager) (a b : Nat) (ns ns' : Bool)
    (fs fs' : String → Option FsStat) (v : Nat)
    (hok : (s.merge a b ns fs).1 = .ok v) :
    ((s.merge a b ns fs).2.merge a b ns' fs').2 = (s.merge a b ns fs).2 ∧
    ∃ i na nb, (s.merge a b ns fs).2.get_file_node a = some (i, na) ∧
      (s.merge a b ns fs).2.get_file_node b = some (i, nb) := by
  have hsame : ∀ (t : FileManager) (i₂ : Nat) (na nb : FileNode),
      t.get_file_node a = some (i₂, na) → t.get_file_node b = some (i₂, nb) →
      (t.merge a b ns' fs').2 = t := by
    intro t i₂ na nb hta htb
    unfold merge
    rw [hta, htb]
    show ((if i₂ = i₂ then ((.ok na.main_file_id_, t) : Except FmError Nat × FileManager)
      else if na.encryption_key_ ≠ ([] : List Nat) ∧ nb.encryption_key_ ≠ ([] : List Nat) ∧
          na.encryption_key_ ≠ nb.encryption_key_ then
        ((.error .MergeConflict, t) : Except FmError Nat × FileManager)
      else if pickFirstWins i₂ na i₂ nb then
        ((.ok (mergeNode fs' na nb).main_file_id_, mergeInto t i₂ i₂ na nb fs') :
          Except FmError Nat × FileManager)
      else
        ((.ok (mergeNode fs' nb na).main_file_id_, mergeInto t i₂ i₂ nb na fs') :
          Except FmError Nat × FileManager)) :
      Except FmError Nat × FileManager).2 = t
    rw [if_pos rfl]
  have hchar : ∃ i₂ na nb, (s.merge a b ns fs).2.get_file_node a = some (i₂, na) ∧
      (s.merge a b ns fs).2.get_file_node b = some (i₂, nb) := by
    cases hgx : s.get_file_node a with
    | none =>
      unfold merge at hok
      rw [hgx] at hok
      exact Except.noConfusion hok
    | some prx =>
      cases hgy : s.get_file_node b with
      | none =>
        unfold merge at hok
        rw [hgx, hgy] at hok
        exact Except.noConfusion hok
      | some pry =>
        unfold merge at hok
        rw [hgx, hgy] at hok
        obtain ⟨hgx1, hgx2⟩ := get_file_node_eq_some.mp
          (show s.get_file_node a = some (prx.1, prx.2) from by rw [hgx])
        obtain ⟨hgy1, hgy2⟩ := get_file_node_eq_some.mp
          (show s.get_file_node b = some (pry.1, pry.2) from by rw [hgy])
        have hok' : ((if prx.1 = pry.1 then
            ((.ok prx.2.main_file_id_, s) : Except FmError Nat × FileManager)
          else if prx.2.encryption_key_ ≠ ([] : List Nat) ∧
              pry.2.encryption_key_ ≠ ([] : List Nat) ∧
              prx.2.encryption_key_ ≠ pry.2.encryption_key_ then
            ((.error .MergeConflict, s) : Except FmError Nat × FileManager)
          else if pickFirstWins prx.1 prx.2 pry.1 pry.2 then
            ((.ok (mergeNode fs prx.2 pry.2).main_file_id_,
              mergeInto s prx.1 pry.1 prx.2 pry.2 fs) : Except FmError Nat × FileManager)
          else
            ((.ok (mergeNode fs pry.2 prx.2).main_file_id_,
              mergeInto s pry.1 prx.1 pry.2 prx.2 fs) :
              Except FmError Nat × FileManager)) :
          Except FmError Nat × FileManager).1 = .ok v := hok
        have hmerge : s.merge a b ns fs = (if prx.1 = pry.1 then
            ((.ok prx.2.main_file_id_, s) : Except FmError Nat × FileManager)
          else if prx.2.encryption_key_ ≠ ([] : List Nat) ∧
              pry.2.encryption_key_ ≠ ([] : List Nat) ∧
              prx.2.encryption_key_ ≠ pry.2.encryption_key_ then
            ((.error .MergeConflict, s) : Except FmError Nat × FileManager)
          else if pickFirstWins prx.1 prx.2 pry.1 pry.2 then
            ((.ok (mergeNode fs prx.2 pry.2).main_file_id_,
              mergeInto s prx.1 pry.1 prx.2 pry.2 fs) : Except FmError Nat × FileManager)
          else
            ((.ok (mergeNode fs pry.2 prx.2).main_file_id_,
              mergeInto s pry.1 prx.1 pry.2 prx.2 fs) :
              Except FmError Nat × FileManager)) := by
          unfold merge
          rw [hgx, hgy]
        by_cases h12 : prx.1 = pry.1
        · rw [hmerge, if_pos h12]
          refine ⟨prx.1, prx.2, pry.2, ?_, ?_⟩
          · show s.get_file_node a = some (prx.1, prx.2)
            rw [hgx]
          · show s.get_file_node b = some (prx.1, pry.2)
            rw [h12, hgy]
        · rw [if_neg h12] at hok'
          rw [hmerge, if_neg h12]
          by_cases hkey : prx.2.encryption_key_ ≠ ([] : List Nat) ∧
              pry.2.encryption_key_ ≠ ([] : List Nat) ∧
              prx.2.encryption_key_ ≠ pry.2.encryption_key_
          · rw [if_pos hkey] at hok'
            exact Except.noConfusion hok'
          · rw [if_neg hkey]
            by_cases hpw : pickFirstWins prx.1 prx.2 pry.1 pry.2 = true
            · rw [if_pos hpw]
              refine ⟨prx.1, mergeNode fs prx.2 pry.2, mergeNode fs prx.2 pry.2, ?_, ?_⟩
              · show (mergeInto s prx.1 pry.1 prx.2 pry.2 fs).get_file_node a =
                  some (prx.1, mergeNode fs prx.2 pry.2)
                apply get_file_node_eq_some.mpr
                constructor
                · rw [mergeInto_nodeIdOf, hgx1]
                  simp only [Option.map_some']
                  rw [if_neg h12]
                · exact mergeInto_nodeAt_winner _ _ _ h12 (nodeAt_lt_length hgx2)
              · show (mergeInto s prx.1 pry.1 prx.2 pry.2 fs).get_file_node b =
                  some (prx.1, mergeNode fs prx.2 pry.2)
                apply get_file_node_eq_some.mpr
                constructor
                · rw [mergeInto_nodeIdOf, hgy1]
                  simp
                · exact mergeInto_nodeAt_winner _ _ _ h12 (nodeAt_lt_length hgx2)
            · rw [if_neg hpw]
              have h21 : pry.1 ≠ prx.1 := fun he => h12 he.symm
              refine ⟨pry.1, mergeNode fs pry.2 prx.2, mergeNode fs pry.2 prx.2, ?_, ?_⟩
              · show (mergeInto s pry.1 prx.1 pry.2 prx.2 fs).get_file_node a =
                  some (pry.1, mergeNode fs pry.2 prx.2)
                apply get_file_node_eq_some.mpr
                constructor
                · rw [mergeInto_nodeIdOf, hgx1]
                  simp
                · exact mergeInto_nodeAt_winner _ _ _ h21 (nodeAt_lt_length hgy2)
              · show (mergeInto s pry.1 prx.1 pry.2 prx.2 fs).get_file_node b =
                  some (pry.1, mergeNode fs pry.2 prx.2)
                apply get_file_node_eq_some.mpr
                constructor
                · rw [mergeInto_nodeIdOf, hgy1]
                  simp only [Option.map_some']
                  rw [if_neg h21]
                · exact mergeInto_nodeAt_winner _ _ _ h21 (nodeAt_lt_length hgy2)
  obtain ⟨i₂, na, nb, hta, htb⟩ := hchar
  exact ⟨hsame _ i₂ na nb hta htb, ⟨i₂, na, nb, hta, htb⟩⟩

theorem c5_witness :
    ((((applyOps initState [Op.registerEmpty .Photo, Op.registerEmpty .Photo]).merge 0 1
        false (fun _ => none)).2.merge 0 1 false (fun _ => none)).2) =
      ((applyOps initState [Op.registerEmpty .Photo, Op.registerEmpty .Photo]).merge 0 1
        false (fun _ => none)).2 :=
  (c5_merge_idempotent
    (applyOps initState [Op.registerEmpty .Photo, Op.registerEmpty .Photo]) 0 1 false false
    (fun _ => none) (fun _ => none) 0 rfl).1

/-- C3: persistent-identifier round trip — a handle whose node carries a
Full remote location yields a token via to_persistent_id, and
from_persistent_id on that token with the matching file type succeeds
with a handle that resolves to the same node. -/
theorem c3_persistent_id_round_trip (s : FileManager) (fid i : Nat) (n : FileNode)
    (r : FullRemoteFileLocation) (h : Inv s) (hg : s.get_file_node fid = some (i, n))
    (hr : n.remote_ = .full r) :
    s.nodeIdOf fid = some i ∧
    ∃ pid, s.to_persistent_id fid = .ok pid ∧
      ∃ fid', (s.from_persistent_id pid r.file_type_).1 = .ok fid' ∧
        (s.from_persistent_id pid r.file_type_).2.nodeIdOf fid' = some i := by
  have hnd : s.nodeAt i = some n := (get_file_node_eq_some.mp hg).2
  have hc := h.remote_complete_ok i (nodeAt_lt_length hnd)
  rw [hnd] at hc
  simp only [optAll_some] at hc
  rw [remoteFullOf_eq_some.mpr hr] at hc
  simp only [optAll_some] at hc
  refine ⟨(get_file_node_eq_some.mp hg).1, get_persistent_id r, ?_, ?_⟩
  · unfold to_persistent_id
    rw [hg]
    show (match n.remote_.fullOf with
      | none => (Except.error FmError.RemoteUnavailable : Except FmError (List Char))
      | some r => .ok (get_persistent_id r)) = .ok (get_persistent_id r)
    rw [remoteFullOf_eq_some.mpr hr]
  · have hfp : s.from_persistent_id (get_persistent_id r) r.file_type_ =
        (.ok (s.register_remote r 0 r.size_ r.size_ "").1,
          (s.register_remote r 0 r.size_ r.size_ "").2) := by
      unfold from_persistent_id
      rw [base64Decode_get_persistent_id r]
      show (if PERSISTENT_ID_VERSION ≠ PERSISTENT_ID_VERSION then
          ((.error .InvalidPersistentId, s) : Except FmError Nat × FileManager)
        else match deserializeRemote (serializeRemote r ++ [fileTypeCode r.file_type_]) with
          | none => (.error .InvalidPersistentId, s)
          | some (remote, rest) =>
            if rest = [fileTypeCode remote.file_type_] ∧
                remote.file_type_ = r.file_type_ then
              let pr := register_remote s remote 0 remote.size_ remote.size_ ""
              (.ok pr.1, pr.2)
            else (.error .InvalidPersistentId, s)) = _
      rw [if_neg (fun hcon => hcon rfl), deserializeRemote_serialize]
      show (if [fileTypeCode r.file_type_] = [fileTypeCode r.file_type_] ∧
          r.file_type_ = r.file_type_ then
          let pr := register_remote s r 0 r.size_ r.size_ ""
          ((Except.ok pr.1, pr.2) : Except FmError Nat × FileManager)
        else ((.error .InvalidPersistentId, s) : Except FmError Nat × FileManager)) = _
      rw [if_pos ⟨rfl, rfl⟩]
    cases hlook : indexGet s.remote_location_to_file_id_ r with
    | none =>
      rw [hlook] at hc
      exact absurd hc id
    | some fid₂ =>
      rw [hlook] at hc
      simp only [optIs_some] at hc
      refine ⟨(s.register_remote r 0 r.size_ r.size_ "").1, ?_, ?_⟩
      · rw [hfp]
      · rw [hfp]
        exact register_remote_hit hlook hc 0 r.size_ r.size_ ""

theorem c3_witness :
    (applyOps initState
        [Op.registerRemote { file_type_ := .Photo, server_ref_ := 7, size_ := 5 } 0 5 5
          "x"]).nodeIdOf 0 = some 0 ∧
    ∃ pid, (applyOps initState
        [Op.registerRemote { file_type_ := .Photo, server_ref_ := 7, size_ := 5 } 0 5 5
          "x"]).to_persistent_id 0 = .ok pid ∧
      ∃ fid', ((applyOps initState
          [Op.registerRemote { file_type_ := .Photo, server_ref_ := 7, size_ := 5 } 0 5 5
            "x"]).from_persistent_id pid FileType.Photo).1 = .ok fid' ∧
        ((applyOps initState
          [Op.registerRemote { file_type_ := .Photo, server_ref_ := 7, size_ := 5 } 0 5 5
            "x"]).from_persistent_id pid FileType.Photo).2.nodeIdOf fid' = some 0 :=
  c3_persistent_id_round_trip
    (applyOps initState
      [Op.registerRemote { file_type_ := .Photo, server_ref_ := 7, size_ := 5 } 0 5 5 "x"])
    0 0
    { remote_ := .full { file_type_ := .Photo, server_ref_ := 7, size_ := 5 },
      size_ := 5, expected_size_ := 5, name_ := "x", main_file_id_ := 0, file_ids_ := [0] }
    { file_type_ := .Photo, server_ref_ := 7, size_ := 5 }
    (inv_applyOps _ inv_initState) (by decide) (by decide)

theorem queries_setNodeAt (s : FileManager) (i : Nat) (n : FileNode) :
    (s.setNodeAt i n).queries_container_ = s.queries_container_ := rfl

theorem queries_modifyInfoAt (s : FileManager) (fid : Nat) (f : FileIdInfo → FileIdInfo) :
    (s.modifyInfoAt fid f).queries_container_ = s.queries_container_ := by
  unfold modifyInfoAt
  cases s.file_id_info_[fid]? with
  | none => rfl
  | some info => rfl

theorem nodeAt_modifyInfoAt (s : FileManager) (fid : Nat) (f : FileIdInfo → FileIdInfo)
    (i : Nat) : (s.modifyInfoAt fid f).nodeAt i = s.nodeAt i := by
  unfold modifyInfoAt
  cases s.file_id_info_[fid]? with
  | none => rfl
  | some info => rfl

theorem nodeIdOf_modifyInfoAt (f : FileIdInfo → FileIdInfo)
    (hf : ∀ info, (f info).node_id_ = info.node_id_) (s : FileManager) (fid fid' : Nat) :
    (s.modifyInfoAt fid f).nodeIdOf fid' = s.nodeIdOf fid' := by
  unfold modifyInfoAt
  cases hinfo : s.file_id_info_[fid]? with
  | none => rfl
  | some info =>
    have hlt : fid < s.file_id_info_.length := by
      obtain ⟨hl, -⟩ := List.getElem?_eq_some.mp hinfo
      exact hl
    show ({ s with file_id_info_ := s.file_id_info_.set fid (f info) } :
        FileManager).nodeIdOf fid' = s.nodeIdOf fid'
    unfold nodeIdOf
    simp only []
    by_cases he : fid' = fid
    · subst he
      rw [List.getElem?_set_self hlt, hinfo]
      simp only [Option.map_some']
      rw [hf info]
    · rw [List.getElem?_set_ne (fun hee => he hee.symm)]

theorem queries_addAlias (s : FileManager) (i : Nat) :
    (s.addAlias i).2.queries_container_ = s.queries_container_ := by
  unfold addAlias
  exact queries_modifyNodeAt _ i _

theorem queries_addAlias_modify (s : FileManager) (i : Nat) (f : FileNode → FileNode) :
    ((s.addAlias i).2.modifyNodeAt i f).queries_container_ = s.queries_container_ :=
  (queries_modifyNodeAt _ i f).trans (queries_addAlias s i)

theorem queries_register_empty (s : FileManager) (t : FileType) :
    (s.register_empty t).2.queries_container_ = s.queries_container_ := rfl

theorem queries_register_local_impl (s : FileManager) (location : FullLocalFileLocation)
    (owner_dialog_id : Int) (size : Nat) (get_by_hash : Bool) :
    (register_local_impl s location owner_dialog_id size get_by_hash).2.queries_container_ =
      s.queries_container_ := by
  unfold register_local_impl
  repeat' split
  all_goals first
    | rfl
    | exact queries_addAlias_modify _ _ _

theorem queries_register_local (s : FileManager) (fs : String → Option FsStat)
    (location : FullLocalFileLocation) (owner_dialog_id : Int) (size : Nat)
    (get_by_hash force : Bool) :
    (s.register_local fs location owner_dialog_id size get_by_hash force).2.queries_container_ =
      s.queries_container_ := by
  unfold register_local
  repeat' split
  all_goals first
    | rfl
    | exact queries_register_local_impl _ _ _ _ _

theorem queries_register_remote (s : FileManager) (location : FullRemoteFileLocation)
    (owner_dialog_id : Int) (size expected_size : Nat) (name : String) :
    (s.register_remote location owner_dialog_id size expected_size name).2.queries_container_ =
      s.queries_container_ := by
  unfold register_remote
  repeat' split
  all_goals first
    | rfl
    | exact queries_addAlias_modify _ _ _

theorem queries_register_generate (s : FileManager) (file_type : FileType)
    (original_path conversion : String) (owner_dialog_id : Int) (expected_size : Nat) :
    (s.register_generate file_type original_path conversion owner_dialog_id
      expected_size).2.queries_container_ = s.queries_container_ := by
  unfold register_generate
  dsimp only []
  repeat' split
  all_goals first
    | rfl
    | exact queries_addAlias_modify _ _ _

theorem queries_dup_file_id (s : FileManager) (fid : Nat) :
    (s.dup_file_id fid).2.queries_container_ = s.queries_container_ := by
  unfold dup_file_id
  repeat' split
  all_goals first
    | rfl
    | exact queries_addAlias _ _

theorem queries_from_persistent_id (s : FileManager) (pid : List Char) (t : FileType) :
    (s.from_persistent_id pid t).2.queries_container_ = s.queries_container_ := by
  unfold from_persistent_id
  repeat' split
  all_goals first
    | rfl
    | exact queries_register_remote _ _ _ _ _ _

theorem queries_set_encryption_key (s : FileManager) (fid : Nat) (key : FileEncryptionKey) :
    (s.set_encryption_key fid key).2.queries_container_ = s.queries_container_ := by
  unfold set_encryption_key
  repeat' split
  all_goals rfl

theorem queries_on_start_download (s : FileManager) (qid : Nat) :
    (s.on_start_download qid).queries_container_ = s.queries_container_ := by
  unfold on_start_download
  repeat' split
  all_goals first
    | rfl
    | exact queries_modifyNodeAt _ _ _

theorem queries_on_partial_download (s : FileManager) (qid : Nat)
    (pl : PartialLocalFileLocation) (ready : Nat) :
    (s.on_partial_download qid pl ready).queries_container_ = s.queries_container_ := by
  unfold on_partial_download
  repeat' split
  all_goals first
    | rfl
    | exact queries_modifyNodeAt _ _ _

theorem queries_on_partial_upload (s : FileManager) (qid : Nat)
    (prm : PartialRemoteFileLocation) (ready : Nat) :
    (s.on_partial_upload qid prm ready).queries_container_ = s.queries_container_ := by
  unfold on_partial_upload
  repeat' split
  all_goals first
    | rfl
    | exact queries_modifyNodeAt _ _ _

theorem queries_on_partial_generate (s : FileManager) (qid : Nat)
    (pl : PartialLocalFileLocation) (expected : Nat) :
    (s.on_partial_generate qid pl expected).queries_container_ = s.queries_container_ := by
  unfold on_partial_generate
  repeat' split
  all_goals first
    | rfl
    | exact queries_modifyNodeAt _ _ _

theorem queries_setFullLocalIndexed (s : FileManager) (i : Nat) (l : FullLocalFileLocation) :
    (setFullLocalIndexed s i l).queries_container_ = s.queries_container_ := by
  unfold setFullLocalIndexed
  cases hn : s.nodeAt i with
  | none => rfl
  | some n =>
    show (match indexGet (indexEraseOpt s.local_location_to_file_id_ n.local_.fullOf) l with
      | none => s
      | some fid0 =>
        match s.nodeIdOf fid0 with
        | none => s
        | some j => s.modifyNodeAt j
            (fun m => { m with local_ := .empty, local_ready_size_ := 0 })).queries_container_
      = s.queries_container_
    repeat' split
    all_goals first
      | rfl
      | exact queries_modifyNodeAt _ _ _

theorem queries_setFullRemoteIndexed (s : FileManager) (i : Nat)
    (r : FullRemoteFileLocation) :
    (setFullRemoteIndexed s i r).queries_container_ = s.queries_container_ := by
  unfold setFullRemoteIndexed
  cases hn : s.nodeAt i with
  | none => rfl
  | some n =>
    show (match indexGet (indexEraseOpt s.remote_location_to_file_id_ n.remote_.fullOf) r with
      | none => s
      | some fid0 =>
        match s.nodeIdOf fid0 with
        | none => s
        | some j => s.modifyNodeAt j
            (fun m => { m with remote_ := .empty, remote_ready_size_ := 0 })).queries_container_
      = s.queries_container_
    repeat' split
    all_goals first
      | rfl
      | exact queries_modifyNodeAt _ _ _

theorem queries_demoteLocal (s : FileManager) (i : Nat) :
    (demoteLocal s i).queries_container_ = s.queries_container_ := by
  unfold demoteLocal
  cases s.nodeAt i with
  | none => rfl
  | some n => rfl

theorem queries_foldl_modifyInfoAt (g : Nat → FileIdInfo → FileIdInfo) (l : List Nat) :
    ∀ s : FileManager,
      (l.foldl (fun acc fid => acc.modifyInfoAt fid (g fid)) s).queries_container_ =
        s.queries_container_ := by
  induction l with
  | nil => exact fun s => rfl
  | cons a t ih => exact fun s => (ih _).trans (queries_modifyInfoAt s a (g a))

theorem queries_clearPriorities (s : FileManager) (i : Nat) (k : WorkerKind) :
    (clearPriorities s i k).queries_container_ = s.queries_container_ := by
  unfold clearPriorities
  cases s.nodeAt i with
  | none => rfl
  | some n => exact queries_foldl_modifyInfoAt _ n.file_ids_ s

theorem mem_removeQuery_queries {s : FileManager} {qid : Nat} {p : Nat × Query}
    (h : p ∈ (s.removeQuery qid).queries_container_) : p ∈ s.queries_container_ :=
  (mem_indexErase.mp h).1

theorem mem_cancelQuery_queries {s : FileManager} {i : Nat} {k : WorkerKind} {p : Nat × Query}
    (h : p ∈ (cancelQuery s i k).queries_container_) : p ∈ s.queries_container_ := by
  unfold cancelQuery at h
  cases hn : s.nodeAt i with
  | none =>
    rw [hn] at h
    exact h
  | some n =>
    rw [hn] at h
    have h' : p ∈ (if n.queryIdOfKind k = 0 then s
        else (s.removeQuery (n.queryIdOfKind k)).setNodeAt i
          (n.setQueryIdOfKind k 0)).queries_container_ := h
    split at h'
    · exact h'
    · exact mem_removeQuery_queries
        (show p ∈ (s.removeQuery (n.queryIdOfKind k)).queries_container_ from h')

theorem mem_finishQueryOnNode_queries {s : FileManager} {qid : Nat} {p : Nat × Query}
    (h : p ∈ (finishQueryOnNode s qid).2.queries_container_) : p ∈ s.queries_container_ := by
  unfold finishQueryOnNode at h
  cases hq : indexGet s.queries_container_ qid with
  | none =>
    rw [hq] at h
    exact h
  | some q =>
    rw [hq] at h
    have h' : p ∈ (match (s.removeQuery qid).get_file_node q.file_id_ with
      | none => ((none : Option (Query × Nat)), s.removeQuery qid)
      | some (i, n) => (some (q, i), (s.removeQuery qid).setNodeAt i
          (n.setQueryIdOfKind (kindOfQueryType q.type_) 0))).2.queries_container_ := h
    cases hg : (s.removeQuery qid).get_file_node q.file_id_ with
    | none =>
      rw [hg] at h'
      exact mem_removeQuery_queries h'
    | some pr =>
      rw [hg] at h'
      exact mem_removeQuery_queries
        (show p ∈ (s.removeQuery qid).queries_container_ from h')

theorem mem_fq_pair {s : FileManager} {qid : Nat} {o : Option (Query × Nat)}
    {s₁ : FileManager} (hf : finishQueryOnNode s qid = (o, s₁)) {p : Nat × Query}
    (h : p ∈ s₁.queries_container_) : p ∈ s.queries_container_ := by
  have hs : s₁ = (finishQueryOnNode s qid).2 := by rw [hf]
  rw [hs] at h
  exact mem_finishQueryOnNode_queries h

theorem mem_startQuery_queries {s : FileManager} {i : Nat} {ty : QueryType} {p : Nat × Query}
    (h : p ∈ (startQuery s i ty).queries_container_) :
    p ∈ s.queries_container_ ∨
      ∃ n, s.nodeAt i = some n ∧ p.2.file_id_ = n.main_file_id_ ∧ p.2.type_ = ty := by
  unfold startQuery at h
  cases hn : s.nodeAt i with
  | none =>
    rw [hn] at h
    exact .inl h
  | some n =>
    rw [hn] at h
    have h' : p ∈ ((s.next_query_id_,
        ({ file_id_ := n.main_file_id_, type_ := ty } : Query)) :: s.queries_container_) := h
    cases h' with
    | head => exact .inr ⟨n, rfl, rfl, rfl⟩
    | tail _ hmem => exact .inl hmem

theorem mem_run_download_queries {s : FileManager} {i : Nat} {p : Nat × Query}
    (h : p ∈ (run_download s i).queries_container_) :
    p ∈ s.queries_container_ ∨ p.2.type_ = .Download := by
  unfold run_download at h
  cases hn : s.nodeAt i with
  | none =>
    rw [hn] at h
    exact .inl h
  | some n =>
    rw [hn] at h
    have h' : p ∈ (if 0 < effectiveDownloadPriority s n ∧ n.local_.fullOf = none ∧
        (n.remote_.fullOf).isSome then
          if n.download_id_ ≠ 0 then s else startQuery s i .Download
        else cancelQuery s i .download).queries_container_ := h
    split at h'
    · split at h'
      · exact .inl h'
      · rcases mem_startQuery_queries h' with hm | ⟨m, _, _, hty⟩
        · exact .inl hm
        · exact .inr hty
    · exact .inl (mem_cancelQuery_queries h')

theorem run_upload_of_paused {s : FileManager} {i : Nat} {n : FileNode}
    (hn : s.nodeAt i = some n) (hp : n.upload_pause_.isSome = true) :
    run_upload s i = s := by
  unfold run_upload
  rw [hn]
  show (if n.upload_pause_.isSome = true then s
    else if 0 < effectiveUploadPriority s n ∧ (n.local_.fullOf).isSome ∧
        n.remote_.fullOf = none then
      if n.upload_id_ ≠ 0 then s
      else startQuery s i (if n.get_by_hash_ = true then QueryType.UploadByHash
        else QueryType.Upload)
    else cancelQuery s i .upload) = s
  rw [if_pos hp]

theorem mem_run_upload_queries {s : FileManager} {i : Nat} {p : Nat × Query}
    (h : p ∈ (run_upload s i).queries_container_) :
    p ∈ s.queries_container_ ∨
      ∃ n, s.nodeAt i = some n ∧ p.2.file_id_ = n.main_file_id_ := by
  unfold run_upload at h
  cases hn : s.nodeAt i with
  | none =>
    rw [hn] at h
    exact .inl h
  | some n =>
    rw [hn] at h
    have h' : p ∈ (if n.upload_pause_.isSome = true then s
        else if 0 < effectiveUploadPriority s n ∧ (n.local_.fullOf).isSome ∧
            n.remote_.fullOf = none then
          if n.upload_id_ ≠ 0 then s
          else startQuery s i (if n.get_by_hash_ = true then QueryType.UploadByHash
            else QueryType.Upload)
        else cancelQuery s i .upload).queries_container_ := h
    split at h'
    · exact .inl h'
    · split at h'
      · split at h'
        · exact .inl h'
        · rcases mem_startQuery_queries h' with hm | ⟨m, hm1, hm2, -⟩
          · exact .inl hm
          · exact .inr ⟨m, hn.symm.trans hm1, hm2⟩
      · exact .inl (mem_cancelQuery_queries h')

theorem setQueryIdOfKind_pause (n : FileNode) (k : WorkerKind) (v : Nat) :
    (n.setQueryIdOfKind k v).upload_pause_ = n.upload_pause_ := by
  cases k <;> rfl

theorem nodeAt_startQuery_self {s : FileManager} {i : Nat} {n : FileNode} (ty : QueryType)
    (hn : s.nodeAt i = some n) :
    (startQuery s i ty).nodeAt i =
      some (n.setQueryIdOfKind (kindOfQueryType ty) s.next_query_id_) := by
  unfold startQuery
  rw [hn]
  exact nodeAt_setNodeAt_self _ (show ({ s with
    queries_container_ := (s.next_query_id_,
      ({ file_id_ := n.main_file_id_, type_ := ty } : Query)) :: s.queries_container_,
    next_query_id_ := s.next_query_id_ + 1 } : FileManager).nodeAt i = some n from hn)

theorem run_upload_pause_none {s : FileManager} {i : Nat} {n : FileNode}
    (hn : s.nodeAt i = some n) (hp : n.upload_pause_ = none) :
    optAll ((run_upload s i).nodeAt i) (fun m => m.upload_pause_ = none) := by
  unfold run_upload
  rw [hn]
  show optAll ((if n.upload_pause_.isSome = true then s
      else if 0 < effectiveUploadPriority s n ∧ (n.local_.fullOf).isSome ∧
          n.remote_.fullOf = none then
        if n.upload_id_ ≠ 0 then s
        else startQuery s i (if n.get_by_hash_ = true then QueryType.UploadByHash
          else QueryType.Upload)
      else cancelQuery s i .upload).nodeAt i) (fun m => m.upload_pause_ = none)
  split
  · rw [hn]
    exact hp
  · split
    · split
      · rw [hn]
        exact hp
      · rw [nodeAt_startQuery_self _ hn]
        exact (setQueryIdOfKind_pause n _ _).trans hp
    · unfold cancelQuery
      rw [hn]
      show optAll ((if n.queryIdOfKind .upload = 0 then s
        else (s.removeQuery (n.queryIdOfKind .upload)).setNodeAt i
          (n.setQueryIdOfKind .upload 0)).nodeAt i) (fun m => m.upload_pause_ = none)
      split
      · rw [hn]
        exact hp
      · rw [nodeAt_setNodeAt_self _
          (show (s.removeQuery (n.queryIdOfKind .upload)).nodeAt i = some n from hn)]
        exact (setQueryIdOfKind_pause n _ _).trans hp

theorem nodeIdOf_startQuery (s : FileManager) (i : Nat) (ty : QueryType) (fid : Nat) :
    (startQuery s i ty).nodeIdOf fid = s.nodeIdOf fid := by
  unfold startQuery
  cases s.nodeAt i with
  | none => rfl
  | some n => rfl

theorem nodeIdOf_cancelQuery (s : FileManager) (i : Nat) (k : WorkerKind) (fid : Nat) :
    (cancelQuery s i k).nodeIdOf fid = s.nodeIdOf fid := by
  unfold cancelQuery
  cases s.nodeAt i with
  | none => rfl
  | some n =>
    show (if n.queryIdOfKind k = 0 then s
      else (s.removeQuery (n.queryIdOfKind k)).setNodeAt i
        (n.setQueryIdOfKind k 0)).nodeIdOf fid = s.nodeIdOf fid
    split <;> rfl

theorem nodeIdOf_run_upload (s : FileManager) (i fid : Nat) :
    (run_upload s i).nodeIdOf fid = s.nodeIdOf fid := by
  unfold run_upload
  cases s.nodeAt i with
  | none => rfl
  | some n =>
    show (if n.upload_pause_.isSome = true then s
      else if 0 < effectiveUploadPriority s n ∧ (n.local_.fullOf).isSome ∧
          n.remote_.fullOf = none then
        if n.upload_id_ ≠ 0 then s
        else startQuery s i (if n.get_by_hash_ = true then QueryType.UploadByHash
          else QueryType.Upload)
      else cancelQuery s i .upload).nodeIdOf fid = s.nodeIdOf fid
    split
    · rfl
    · split
      · split
        · rfl
        · exact nodeIdOf_startQuery s i _ fid
      · exact nodeIdOf_cancelQuery s i .upload fid

theorem main_resolves {s : FileManager} (h : Inv s) {j : Nat} {m : FileNode}
    (hm : s.nodeAt j = some m) : s.nodeIdOf m.main_file_id_ = some j := by
  have hh := h.main_ok j (nodeAt_lt_length hm)
  rw [hm] at hh
  exact hh

theorem cancelQuery_nodeAt_main {s : FileManager} {i : Nat} {n : FileNode} (k : WorkerKind)
    (hnd : s.nodeAt i = some n) : ∃ n', (cancelQuery s i k).nodeAt i = some n' ∧
      n'.main_file_id_ = n.main_file_id_ ∧ n'.upload_pause_ = n.upload_pause_ := by
  unfold cancelQuery
  rw [hnd]
  show ∃ n', ((if n.queryIdOfKind k = 0 then s
      else (s.removeQuery (n.queryIdOfKind k)).setNodeAt i (n.setQueryIdOfKind k 0)).nodeAt i =
      some n') ∧ n'.main_file_id_ = n.main_file_id_ ∧ n'.upload_pause_ = n.upload_pause_
  split
  · exact ⟨n, hnd, rfl, rfl⟩
  · refine ⟨n.setQueryIdOfKind k 0, ?_, setQueryIdOfKind_main n k 0, setQueryIdOfKind_pause n k 0⟩
    exact nodeAt_setNodeAt_self _
      (show (s.removeQuery (n.queryIdOfKind k)).nodeAt i = some n from hnd)

theorem mem_merge_queries {s : FileManager} {x y : Nat} {ns : Bool}
    {fs : String → Option FsStat} {p : Nat × Query}
    (h : p ∈ (s.merge x y ns fs).2.queries_container_) : p ∈ s.queries_container_ := by
  unfold merge at h
  cases hgx : s.get_file_node x with
  | none =>
    rw [hgx] at h
    exact h
  | some prx =>
    cases hgy : s.get_file_node y with
    | none =>
      rw [hgx, hgy] at h
      exact h
    | some pry =>
      rw [hgx, hgy] at h
      have h' : p ∈ ((if prx.1 = pry.1 then
          ((.ok prx.2.main_file_id_, s) : Except FmError Nat × FileManager)
        else if prx.2.encryption_key_ ≠ ([] : List Nat) ∧
            pry.2.encryption_key_ ≠ ([] : List Nat) ∧
            prx.2.encryption_key_ ≠ pry.2.encryption_key_ then
          ((.error .MergeConflict, s) : Except FmError Nat × FileManager)
        else if pickFirstWins prx.1 prx.2 pry.1 pry.2 then
          ((.ok (mergeNode fs prx.2 pry.2).main_file_id_,
            mergeInto s prx.1 pry.1 prx.2 pry.2 fs) : Except FmError Nat × FileManager)
        else
          ((.ok (mergeNode fs pry.2 prx.2).main_file_id_,
            mergeInto s pry.1 prx.1 pry.2 prx.2 fs) :
            Except FmError Nat × FileManager)) :
        Except FmError Nat × FileManager).2.queries_container_ := h
      split at h'
      · exact h'
      · split at h'
        · exact h'
        · split at h'
          · exact (List.mem_filter.mp (show p ∈ s.queries_container_.filter
              (fun r => decide (r.1 ∉ mergeCancelled prx.2 pry.2)) from h')).1
          · exact (List.mem_filter.mp (show p ∈ s.queries_container_.filter
              (fun r => decide (r.1 ∉ mergeCancelled pry.2 prx.2)) from h')).1

theorem mem_on_download_ok_queries {s : FileManager} {qid : Nat}
    {l : FullLocalFileLocation} {size : Nat} {p : Nat × Query}
    (h : p ∈ (s.on_download_ok qid l size).queries_container_) :
    p ∈ s.queries_container_ := by
  unfold on_download_ok at h
  cases hf : finishQueryOnNode s qid with
  | mk o s₁ =>
    rw [hf] at h
    cases o with
    | none => exact mem_fq_pair hf h
    | some pr =>
      have h' : p ∈ ((setFullLocalIndexed s₁ pr.2 l).modifyNodeAt pr.2 (fun n => { n with size_ := size, local_ready_size_ := size, is_download_started_ := false })).queries_container_ := h
      rw [queries_modifyNodeAt, queries_setFullLocalIndexed] at h'
      exact mem_fq_pair hf h'

theorem mem_on_upload_ok_queries {s : FileManager} {qid : Nat} {t : FileType}
    {prm : PartialRemoteFileLocation} {size : Nat} {p : Nat × Query}
    (h : p ∈ (s.on_upload_ok qid t prm size).queries_container_) :
    p ∈ s.queries_container_ := by
  unfold on_upload_ok at h
  cases hf : finishQueryOnNode s qid with
  | mk o s₁ =>
    rw [hf] at h
    cases o with
    | none => exact mem_fq_pair hf h
    | some pr =>
      have h' : p ∈ (s₁.modifyNodeAt pr.2 (fun n => { n with remote_ := (match n.remote_ with | .full f => .full f | _ => .part prm), size_ := if n.size_ = 0 then size else n.size_, upload_pause_ := some pr.1.file_id_ })).queries_container_ := h
      rw [queries_modifyNodeAt] at h'
      exact mem_fq_pair hf h'

theorem mem_on_upload_full_ok_queries {s : FileManager} {qid : Nat}
    {r : FullRemoteFileLocation} {p : Nat × Query}
    (h : p ∈ (s.on_upload_full_ok qid r).queries_container_) :
    p ∈ s.queries_container_ := by
  unfold on_upload_full_ok at h
  cases hf : finishQueryOnNode s qid with
  | mk o s₁ =>
    rw [hf] at h
    cases o with
    | none => exact mem_fq_pair hf h
    | some pr =>
      have h' : p ∈ (setFullRemoteIndexed s₁ pr.2 r).queries_container_ := h
      rw [queries_setFullRemoteIndexed] at h'
      exact mem_fq_pair hf h'

theorem mem_on_generate_ok_queries {s : FileManager} {qid : Nat}
    {l : FullLocalFileLocation} {p : Nat × Query}
    (h : p ∈ (s.on_generate_ok qid l).queries_container_) :
    p ∈ s.queries_container_ := by
  unfold on_generate_ok at h
  cases hf : finishQueryOnNode s qid with
  | mk o s₁ =>
    rw [hf] at h
    cases o with
    | none => exact mem_fq_pair hf h
    | some pr =>
      have h' : p ∈ (setFullLocalIndexed s₁ pr.2 l).queries_container_ := h
      rw [queries_setFullLocalIndexed] at h'
      exact mem_fq_pair hf h'

theorem mem_on_error_queries {s : FileManager} {qid : Nat} {status : FmError}
    {p : Nat × Query} (h : p ∈ (s.on_error qid status).queries_container_) :
    p ∈ s.queries_container_ := by
  unfold on_error at h
  cases hf : finishQueryOnNode s qid with
  | mk o s₁ =>
    rw [hf] at h
    cases o with
    | none => exact mem_fq_pair hf h
    | some pr =>
      have h' : p ∈ (if status = FmError.LocalFileGone then
          (demoteLocal s₁ pr.2).modifyNodeAt pr.2
            (fun n => { n with is_download_started_ := false })
        else clearPriorities s₁ pr.2 (kindOfQueryType pr.1.type_)).queries_container_ := h
      split at h'
      · rw [queries_modifyNodeAt, queries_demoteLocal] at h'
        exact mem_fq_pair hf h'
      · rw [queries_clearPriorities] at h'
        exact mem_fq_pair hf h'

/-- C9: an on_upload_ok completion pauses the node — its upload_pause_ is
set to the completing query's handle — and while a node stays paused no
step starts a new upload worker for it: for every public operation or
worker callback, if the node is paused before and after the step, every
upload-kind query of the post-step container that resolves to that node
was already in the container before the step; the pause is released only
by the operations that clear upload_pause_ (an explicit upload on the
pausing handle, resume_upload, delete_partial_remote_location, merge). -/
theorem c9_upload_pause_suppresses (s : FileManager) (h : Inv s) :
    (∀ qid q j n t prm size, indexGet s.queries_container_ qid = some q →
      s.get_file_node q.file_id_ = some (j, n) →
      optIs ((s.on_upload_ok qid t prm size).nodeAt j)
        (fun m => m.upload_pause_ = some q.file_id_)) ∧
    (∀ op i n n', s.nodeAt i = some n → n.upload_pause_.isSome = true →
      (applyOp s op).nodeAt i = some n' → n'.upload_pause_.isSome = true →
      ∀ p ∈ (applyOp s op).queries_container_,
        kindOfQueryType p.2.type_ = WorkerKind.upload →
        (applyOp s op).nodeIdOf p.2.file_id_ = some i →
        p ∈ s.queries_container_) := by
  constructor
  · intro qid q j n t prm size hq hg
    have hfq : finishQueryOnNode s qid = (some (q, j),
        (s.removeQuery qid).setNodeAt j
          (n.setQueryIdOfKind (kindOfQueryType q.type_) 0)) := by
      unfold finishQueryOnNode
      rw [hq]
      show (match (s.removeQuery qid).get_file_node q.file_id_ with
        | none => ((none : Option (Query × Nat)), s.removeQuery qid)
        | some (i, n) => (some (q, i), (s.removeQuery qid).setNodeAt i
            (n.setQueryIdOfKind (kindOfQueryType q.type_) 0))) = _
      rw [show (s.removeQuery qid).get_file_node q.file_id_ = some (j, n) from hg]
    have hn1 : ((s.removeQuery qid).setNodeAt j
        (n.setQueryIdOfKind (kindOfQueryType q.type_) 0)).nodeAt j =
        some (n.setQueryIdOfKind (kindOfQueryType q.type_) 0) :=
      nodeAt_setNodeAt_self _
        (show (s.removeQuery qid).nodeAt j = some n from (get_file_node_eq_some.mp hg).2)
    unfold on_upload_ok
    rw [hfq]
    show optIs ((((s.removeQuery qid).setNodeAt j
        (n.setQueryIdOfKind (kindOfQueryType q.type_) 0)).modifyNodeAt j
        (fun m => { m with remote_ := (match m.remote_ with | .full f => .full f | _ => .part prm), size_ := if m.size_ = 0 then size else m.size_, upload_pause_ := some q.file_id_ })).nodeAt j)
      (fun m => m.upload_pause_ = some q.file_id_)
    rw [nodeAt_modifyNodeAt_self _ hn1]
    exact rfl
  · intro op i n n' hn hp hn' hp' p hmem hkind hres
    cases op with
    | registerEmpty t =>
      have h1 : p ∈ (s.register_empty t).2.queries_container_ := hmem
      rw [queries_register_empty] at h1
      exact h1
    | registerLocal fs loc owner size gbh force =>
      have h1 : p ∈ (s.register_local fs loc owner size gbh force).2.queries_container_ := hmem
      rw [queries_register_local] at h1
      exact h1
    | registerRemote loc owner size expected name =>
      have h1 : p ∈ (s.register_remote loc owner size expected name).2.queries_container_ := hmem
      rw [queries_register_remote] at h1
      exact h1
    | registerGenerate t orig conv owner expected =>
      have h1 : p ∈ (s.register_generate t orig conv owner expected).2.queries_container_ := hmem
      rw [queries_register_generate] at h1
      exact h1
    | mergeOp x y ns fs =>
      exact mem_merge_queries (show p ∈ (s.merge x y ns fs).2.queries_container_ from hmem)
    | dupFileId fid =>
      have h1 : p ∈ (s.dup_file_id fid).2.queries_container_ := hmem
      rw [queries_dup_file_id] at h1
      exact h1
    | downloadOp fid cb prio =>
      have h1 : p ∈ (s.download fid cb prio).queries_container_ := hmem
      unfold download at h1
      cases hg : s.get_file_node fid with
      | none =>
        rw [hg] at h1
        exact h1
      | some pr =>
        rw [hg] at h1
        have h2 : p ∈ (run_download (s.modifyInfoAt fid (fun info => { info with download_priority_ := prio, download_callback_ := cb })) pr.1).queries_container_ := h1
        rcases mem_run_download_queries h2 with hm | hty
        · rw [queries_modifyInfoAt] at hm
          exact hm
        · rw [hty] at hkind
          exact absurd hkind (by decide)
    | uploadOp fid cb prio ord =>
      have h1 : p ∈ (s.upload fid cb prio ord).queries_container_ := hmem
      have h3 : (s.upload fid cb prio ord).nodeAt i = some n' := hn'
      have h4 : (s.upload fid cb prio ord).nodeIdOf p.2.file_id_ = some i := hres
      unfold upload at h1 h3 h4
      cases hg : s.get_file_node fid with
      | none =>
        rw [hg] at h1
        exact h1
      | some pr =>
        rw [hg] at h1 h3 h4
        have h2 : p ∈ (run_upload ((if pr.2.upload_pause_ = some fid then s.setNodeAt pr.1 { pr.2 with upload_pause_ := none } else s).modifyInfoAt fid (fun info => { info with upload_priority_ := prio, upload_order_ := ord, upload_callback_ := cb })) pr.1).queries_container_ := h1
        have h3' : (run_upload ((if pr.2.upload_pause_ = some fid then s.setNodeAt pr.1 { pr.2 with upload_pause_ := none } else s).modifyInfoAt fid (fun info => { info with upload_priority_ := prio, upload_order_ := ord, upload_callback_ := cb })) pr.1).nodeAt i = some n' := h3
        have h4' : (run_upload ((if pr.2.upload_pause_ = some fid then s.setNodeAt pr.1 { pr.2 with upload_pause_ := none } else s).modifyInfoAt fid (fun info => { info with upload_priority_ := prio, upload_order_ := ord, upload_callback_ := cb })) pr.1).nodeIdOf p.2.file_id_ = some i := h4
        by_cases hcl : pr.2.upload_pause_ = some fid
        · rw [if_pos hcl] at h2 h3' h4'
          by_cases hji : pr.1 = i
          · have hS1 : (s.setNodeAt pr.1 { pr.2 with upload_pause_ := none }).nodeAt pr.1 = some { pr.2 with upload_pause_ := none } := nodeAt_setNodeAt_self _ (get_file_node_eq_some.mp hg).2
            have hS2 : ((s.setNodeAt pr.1 { pr.2 with upload_pause_ := none }).modifyInfoAt fid (fun info => { info with upload_priority_ := prio, upload_order_ := ord, upload_callback_ := cb })).nodeAt pr.1 = some { pr.2 with upload_pause_ := none } := (nodeAt_modifyInfoAt _ fid _ pr.1).trans hS1
            have hopt := run_upload_pause_none hS2 rfl
            rw [← hji] at h3'
            rw [h3'] at hopt
            have hno : n'.upload_pause_ = none := hopt
            rw [hno] at hp'
            exact Bool.noConfusion hp'
          · rcases mem_run_upload_queries h2 with hm | ⟨mq, hm1, hm2⟩
            · rw [queries_modifyInfoAt, queries_setNodeAt] at hm
              exact hm
            · have hS1 : (s.setNodeAt pr.1 { pr.2 with upload_pause_ := none }).nodeAt pr.1 = some { pr.2 with upload_pause_ := none } := nodeAt_setNodeAt_self _ (get_file_node_eq_some.mp hg).2
              rw [nodeAt_modifyInfoAt] at hm1
              have hmN : mq = { pr.2 with upload_pause_ := none } := Option.some.inj (hm1.symm.trans hS1)
              rw [nodeIdOf_run_upload] at h4'
              have hid : ∀ fidq, ((s.setNodeAt pr.1 { pr.2 with upload_pause_ := none }).modifyInfoAt fid (fun info => { info with upload_priority_ := prio, upload_order_ := ord, upload_callback_ := cb })).nodeIdOf fidq = (s.setNodeAt pr.1 { pr.2 with upload_pause_ := none }).nodeIdOf fidq := fun fidq => nodeIdOf_modifyInfoAt (fun info => { info with upload_priority_ := prio, upload_order_ := ord, upload_callback_ := cb }) (fun _ => rfl) _ fid fidq
              rw [hid] at h4'
              have h5 : s.nodeIdOf pr.2.main_file_id_ = some i := by
                have h6 : s.nodeIdOf mq.main_file_id_ = some i := by
                  rw [← hm2]
                  exact h4'
                rw [hmN] at h6
                exact h6
              exact absurd (Option.some.inj ((main_resolves h (get_file_node_eq_some.mp hg).2).symm.trans h5)) hji
        · rw [if_neg hcl] at h2 h3' h4'
          · by_cases hji : pr.1 = i
            · have hnp : pr.2.upload_pause_.isSome = true := by
                have he : n = pr.2 := by
                  have hx : s.nodeAt i = some pr.2 := by
                    rw [← hji]
                    exact (get_file_node_eq_some.mp hg).2
                  exact Option.some.inj (hn.symm.trans hx)
                rw [← he]
                exact hp
              have hS2n : (s.modifyInfoAt fid (fun info => { info with upload_priority_ := prio, upload_order_ := ord, upload_callback_ := cb })).nodeAt pr.1 = some pr.2 := (nodeAt_modifyInfoAt _ fid _ pr.1).trans (get_file_node_eq_some.mp hg).2
              have hru : run_upload (s.modifyInfoAt fid (fun info => { info with upload_priority_ := prio, upload_order_ := ord, upload_callback_ := cb })) pr.1 = s.modifyInfoAt fid (fun info => { info with upload_priority_ := prio, upload_order_ := ord, upload_callback_ := cb }) := run_upload_of_paused hS2n hnp
              rw [hru] at h2
              rw [queries_modifyInfoAt] at h2
              exact h2
            · rcases mem_run_upload_queries h2 with hm | ⟨mq, hm1, hm2⟩
              · rw [queries_modifyInfoAt] at hm
                exact hm
              · rw [nodeAt_modifyInfoAt] at hm1
                have hmN : mq = pr.2 := Option.some.inj (hm1.symm.trans (get_file_node_eq_some.mp hg).2)
                rw [nodeIdOf_run_upload] at h4'
                have hid : ∀ fidq, (s.modifyInfoAt fid (fun info => { info with upload_priority_ := prio, upload_order_ := ord, upload_callback_ := cb })).nodeIdOf fidq = s.nodeIdOf fidq := fun fidq => nodeIdOf_modifyInfoAt (fun info => { info with upload_priority_ := prio, upload_order_ := ord, upload_callback_ := cb }) (fun _ => rfl) _ fid fidq
                rw [hid] at h4'
                have h5 : s.nodeIdOf pr.2.main_file_id_ = some i := by
                  have h6 : s.nodeIdOf mq.main_file_id_ = some i := by
                    rw [← hm2]
                    exact h4'
                  rw [hmN] at h6
                  exact h6
                exact absurd (Option.some.inj ((main_resolves h (get_file_node_eq_some.mp hg).2).symm.trans h5)) hji
    | resumeUploadOp fid bad cb prio ord =>
      have h1 : p ∈ (s.resume_upload fid bad cb prio ord).queries_container_ := hmem
      have h3 : (s.resume_upload fid bad cb prio ord).nodeAt i = some n' := hn'
      have h4 : (s.resume_upload fid bad cb prio ord).nodeIdOf p.2.file_id_ = some i := hres
      unfold resume_upload at h1 h3 h4
      cases hg : s.get_file_node fid with
      | none =>
        rw [hg] at h1
        exact h1
      | some pr =>
        rw [hg] at h1 h3 h4
        have h2 : p ∈ (run_upload ((s.setNodeAt pr.1 { pr.2 with upload_pause_ := none }).modifyInfoAt fid (fun info => { info with upload_priority_ := prio, upload_order_ := ord, upload_callback_ := cb })) pr.1).queries_container_ := h1
        have h3' : (run_upload ((s.setNodeAt pr.1 { pr.2 with upload_pause_ := none }).modifyInfoAt fid (fun info => { info with upload_priority_ := prio, upload_order_ := ord, upload_callback_ := cb })) pr.1).nodeAt i = some n' := h3
        have h4' : (run_upload ((s.setNodeAt pr.1 { pr.2 with upload_pause_ := none }).modifyInfoAt fid (fun info => { info with upload_priority_ := prio, upload_order_ := ord, upload_callback_ := cb })) pr.1).nodeIdOf p.2.file_id_ = some i := h4
        by_cases hji : pr.1 = i
        · have hS1 : (s.setNodeAt pr.1 { pr.2 with upload_pause_ := none }).nodeAt pr.1 = some { pr.2 with upload_pause_ := none } := nodeAt_setNodeAt_self _ (get_file_node_eq_some.mp hg).2
          have hS2 : ((s.setNodeAt pr.1 { pr.2 with upload_pause_ := none }).modifyInfoAt fid (fun info => { info with upload_priority_ := prio, upload_order_ := ord, upload_callback_ := cb })).nodeAt pr.1 = some { pr.2 with upload_pause_ := none } := (nodeAt_modifyInfoAt _ fid _ pr.1).trans hS1
          have hopt := run_upload_pause_none hS2 rfl
          rw [← hji] at h3'
          rw [h3'] at hopt
          have hno : n'.upload_pause_ = none := hopt
          rw [hno] at hp'
          exact Bool.noConfusion hp'
        · rcases mem_run_upload_queries h2 with hm | ⟨mq, hm1, hm2⟩
          · rw [queries_modifyInfoAt, queries_setNodeAt] at hm
            exact hm
          · have hS1 : (s.setNodeAt pr.1 { pr.2 with upload_pause_ := none }).nodeAt pr.1 = some { pr.2 with upload_pause_ := none } := nodeAt_setNodeAt_self _ (get_file_node_eq_some.mp hg).2
            rw [nodeAt_modifyInfoAt] at hm1
            have hmN : mq = { pr.2 with upload_pause_ := none } := Option.some.inj (hm1.symm.trans hS1)
            rw [nodeIdOf_run_upload] at h4'
            have hid : ∀ fidq, ((s.setNodeAt pr.1 { pr.2 with upload_pause_ := none }).modifyInfoAt fid (fun info => { info with upload_priority_ := prio, upload_order_ := ord, upload_callback_ := cb })).nodeIdOf fidq = (s.setNodeAt pr.1 { pr.2 with upload_pause_ := none }).nodeIdOf fidq := fun fidq => nodeIdOf_modifyInfoAt (fun info => { info with upload_priority_ := prio, upload_order_ := ord, upload_callback_ := cb }) (fun _ => rfl) _ fid fidq
            rw [hid] at h4'
            have h5 : s.nodeIdOf pr.2.main_file_id_ = some i := by
              have h6 : s.nodeIdOf mq.main_file_id_ = some i := by
                rw [← hm2]
                exact h4'
              rw [hmN] at h6
              exact h6
            exact absurd (Option.some.inj ((main_resolves h (get_file_node_eq_some.mp hg).2).symm.trans h5)) hji
    | deletePartialRemoteLocationOp fid =>
      have h1 : p ∈ (s.delete_partial_remote_location fid).2.queries_container_ := hmem
      have h3 : (s.delete_partial_remote_location fid).2.nodeAt i = some n' := hn'
      have h4 : (s.delete_partial_remote_location fid).2.nodeIdOf p.2.file_id_ = some i := hres
      unfold delete_partial_remote_location at h1 h3 h4
      cases hg : s.get_file_node fid with
      | none =>
        rw [hg] at h1
        exact h1
      | some pr =>
        rw [hg] at h1 h3 h4
        have h1' : p ∈ (match pr.2.remote_ with | RemoteFileLocation.full r => ((false, s) : Bool × FileManager) | _ => (true, run_upload ((cancelQuery s pr.1 .upload).modifyNodeAt pr.1 (fun m => { m with remote_ := .empty, remote_ready_size_ := 0, upload_pause_ := none, pmc_changed_flag_ := true })) pr.1)).2.queries_container_ := h1
        have h3' : (match pr.2.remote_ with | RemoteFileLocation.full r => ((false, s) : Bool × FileManager) | _ => (true, run_upload ((cancelQuery s pr.1 .upload).modifyNodeAt pr.1 (fun m => { m with remote_ := .empty, remote_ready_size_ := 0, upload_pause_ := none, pmc_changed_flag_ := true })) pr.1)).2.nodeAt i = some n' := h3
        have h4' : (match pr.2.remote_ with | RemoteFileLocation.full r => ((false, s) : Bool × FileManager) | _ => (true, run_upload ((cancelQuery s pr.1 .upload).modifyNodeAt pr.1 (fun m => { m with remote_ := .empty, remote_ready_size_ := 0, upload_pause_ := none, pmc_changed_flag_ := true })) pr.1)).2.nodeIdOf p.2.file_id_ = some i := h4
        cases hrm : pr.2.remote_ with
        | full r =>
          rw [hrm] at h1'
          exact h1'
        | empty =>
          rw [hrm] at h1' h3' h4'
          have h2 : p ∈ (run_upload ((cancelQuery s pr.1 .upload).modifyNodeAt pr.1 (fun m => { m with remote_ := .empty, remote_ready_size_ := 0, upload_pause_ := none, pmc_changed_flag_ := true })) pr.1).queries_container_ := h1'
          have h3' : (run_upload ((cancelQuery s pr.1 .upload).modifyNodeAt pr.1 (fun m => { m with remote_ := .empty, remote_ready_size_ := 0, upload_pause_ := none, pmc_changed_flag_ := true })) pr.1).nodeAt i = some n' := h3'
          have h4' : (run_upload ((cancelQuery s pr.1 .upload).modifyNodeAt pr.1 (fun m => { m with remote_ := .empty, remote_ready_size_ := 0, upload_pause_ := none, pmc_changed_flag_ := true })) pr.1).nodeIdOf p.2.file_id_ = some i := h4'
          obtain ⟨m₁, hm₁, hmain₁, hpau₁⟩ := cancelQuery_nodeAt_main WorkerKind.upload (get_file_node_eq_some.mp hg).2
          by_cases hji : pr.1 = i
          · have hS2n : ((cancelQuery s pr.1 .upload).modifyNodeAt pr.1 (fun m => { m with remote_ := .empty, remote_ready_size_ := 0, upload_pause_ := none, pmc_changed_flag_ := true })).nodeAt pr.1 = some ({ m₁ with remote_ := .empty, remote_ready_size_ := 0, upload_pause_ := none, pmc_changed_flag_ := true }) := nodeAt_modifyNodeAt_self (fun m => { m with remote_ := .empty, remote_ready_size_ := 0, upload_pause_ := none, pmc_changed_flag_ := true }) hm₁
            have hopt := run_upload_pause_none hS2n rfl
            rw [← hji] at h3'
            rw [h3'] at hopt
            have hno : n'.upload_pause_ = none := hopt
            rw [hno] at hp'
            exact Bool.noConfusion hp'
          · rcases mem_run_upload_queries h2 with hm | ⟨mq, hm1, hm2⟩
            · rw [queries_modifyNodeAt] at hm
              exact mem_cancelQuery_queries hm
            · have hS2n : ((cancelQuery s pr.1 .upload).modifyNodeAt pr.1 (fun m => { m with remote_ := .empty, remote_ready_size_ := 0, upload_pause_ := none, pmc_changed_flag_ := true })).nodeAt pr.1 = some ({ m₁ with remote_ := .empty, remote_ready_size_ := 0, upload_pause_ := none, pmc_changed_flag_ := true }) := nodeAt_modifyNodeAt_self (fun m => { m with remote_ := .empty, remote_ready_size_ := 0, upload_pause_ := none, pmc_changed_flag_ := true }) hm₁
              have hmG : mq = { m₁ with remote_ := .empty, remote_ready_size_ := 0, upload_pause_ := none, pmc_changed_flag_ := true } := Option.some.inj (hm1.symm.trans hS2n)
              rw [nodeIdOf_run_upload] at h4'
              rw [nodeIdOf_modifyNodeAt] at h4'
              rw [nodeIdOf_cancelQuery] at h4'
              have h5 : s.nodeIdOf pr.2.main_file_id_ = some i := by
                rw [← hmain₁]
                have h6 : s.nodeIdOf ({ m₁ with remote_ := .empty, remote_ready_size_ := 0, upload_pause_ := none, pmc_changed_flag_ := true } : FileNode).main_file_id_ = some i := by
                  rw [← hmG, ← hm2]
                  exact h4'
                exact h6
              exact absurd (Option.some.inj ((main_resolves h (get_file_node_eq_some.mp hg).2).symm.trans h5)) hji
        | part pl =>
          rw [hrm] at h1' h3' h4'
          have h2 : p ∈ (run_upload ((cancelQuery s pr.1 .upload).modifyNodeAt pr.1 (fun m => { m with remote_ := .empty, remote_ready_size_ := 0, upload_pause_ := none, pmc_changed_flag_ := true })) pr.1).queries_container_ := h1'
          have h3' : (run_upload ((cancelQuery s pr.1 .upload).modifyNodeAt pr.1 (fun m => { m with remote_ := .empty, remote_ready_size_ := 0, upload_pause_ := none, pmc_changed_flag_ := true })) pr.1).nodeAt i = some n' := h3'
          have h4' : (run_upload ((cancelQuery s pr.1 .upload).modifyNodeAt pr.1 (fun m => { m with remote_ := .empty, remote_ready_size_ := 0, upload_pause_ := none, pmc_changed_flag_ := true })) pr.1).nodeIdOf p.2.file_id_ = some i := h4'
          obtain ⟨m₁, hm₁, hmain₁, hpau₁⟩ := cancelQuery_nodeAt_main WorkerKind.upload (get_file_node_eq_some.mp hg).2
          by_cases hji : pr.1 = i
          · have hS2n : ((cancelQuery s pr.1 .upload).modifyNodeAt pr.1 (fun m => { m with remote_ := .empty, remote_ready_size_ := 0, upload_pause_ := none, pmc_changed_flag_ := true })).nodeAt pr.1 = some ({ m₁ with remote_ := .empty, remote_ready_size_ := 0, upload_pause_ := none, pmc_changed_flag_ := true }) := nodeAt_modifyNodeAt_self (fun m => { m with remote_ := .empty, remote_ready_size_ := 0, upload_pause_ := none, pmc_changed_flag_ := true }) hm₁
            have hopt := run_upload_pause_none hS2n rfl
            rw [← hji] at h3'
            rw [h3'] at hopt
            have hno : n'.upload_pause_ = none := hopt
            rw [hno] at hp'
            exact Bool.noConfusion hp'
          · rcases mem_run_upload_queries h2 with hm | ⟨mq, hm1, hm2⟩
            · rw [queries_modifyNodeAt] at hm
              exact mem_cancelQuery_queries hm
            · have hS2n : ((cancelQuery s pr.1 .upload).modifyNodeAt pr.1 (fun m => { m with remote_ := .empty, remote_ready_size_ := 0, upload_pause_ := none, pmc_changed_flag_ := true })).nodeAt pr.1 = some ({ m₁ with remote_ := .empty, remote_ready_size_ := 0, upload_pause_ := none, pmc_changed_flag_ := true }) := nodeAt_modifyNodeAt_self (fun m => { m with remote_ := .empty, remote_ready_size_ := 0, upload_pause_ := none, pmc_changed_flag_ := true }) hm₁
              have hmG : mq = { m₁ with remote_ := .empty, remote_ready_size_ := 0, upload_pause_ := none, pmc_changed_flag_ := true } := Option.some.inj (hm1.symm.trans hS2n)
              rw [nodeIdOf_run_upload] at h4'
              rw [nodeIdOf_modifyNodeAt] at h4'
              rw [nodeIdOf_cancelQuery] at h4'
              have h5 : s.nodeIdOf pr.2.main_file_id_ = some i := by
                rw [← hmain₁]
                have h6 : s.nodeIdOf ({ m₁ with remote_ := .empty, remote_ready_size_ := 0, upload_pause_ := none, pmc_changed_flag_ := true } : FileNode).main_file_id_ = some i := by
                  rw [← hmG, ← hm2]
                  exact h4'
                exact h6
              exact absurd (Option.some.inj ((main_resolves h (get_file_node_eq_some.mp hg).2).symm.trans h5)) hji
    | setEncryptionKeyOp fid key =>
      have h1 : p ∈ (s.set_encryption_key fid key).2.queries_container_ := hmem
      rw [queries_set_encryption_key] at h1
      exact h1
    | deleteFileOp fid =>
      have h1 : p ∈ (s.delete_file fid).queries_container_ := hmem
      unfold delete_file at h1
      cases hg : s.get_file_node fid with
      | none =>
        rw [hg] at h1
        exact h1
      | some pr =>
        rw [hg] at h1
        have h2 : p ∈ (run_download ((demoteLocal s pr.1).modifyNodeAt pr.1 (fun m => { m with is_download_started_ := false, pmc_changed_flag_ := true })) pr.1).queries_container_ := h1
        rcases mem_run_download_queries h2 with hm | hty
        · rw [queries_modifyNodeAt, queries_demoteLocal] at hm
          exact hm
        · rw [hty] at hkind
          exact absurd hkind (by decide)
    | fromPersistentIdOp pid t =>
      have h1 : p ∈ (s.from_persistent_id pid t).2.queries_container_ := hmem
      rw [queries_from_persistent_id] at h1
      exact h1
    | onStartDownloadOp qid =>
      have h1 : p ∈ (s.on_start_download qid).queries_container_ := hmem
      rw [queries_on_start_download] at h1
      exact h1
    | onPartialDownloadOp qid pl ready =>
      have h1 : p ∈ (s.on_partial_download qid pl ready).queries_container_ := hmem
      rw [queries_on_partial_download] at h1
      exact h1
    | onPartialUploadOp qid prm ready =>
      have h1 : p ∈ (s.on_partial_upload qid prm ready).queries_container_ := hmem
      rw [queries_on_partial_upload] at h1
      exact h1
    | onDownloadOkOp qid l size =>
      exact mem_on_download_ok_queries
        (show p ∈ (s.on_download_ok qid l size).queries_container_ from hmem)
    | onUploadOkOp qid t prm size =>
      exact mem_on_upload_ok_queries
        (show p ∈ (s.on_upload_ok qid t prm size).queries_container_ from hmem)
    | onUploadFullOkOp qid r =>
      exact mem_on_upload_full_ok_queries
        (show p ∈ (s.on_upload_full_ok qid r).queries_container_ from hmem)
    | onErrorOp qid status =>
      exact mem_on_error_queries
        (show p ∈ (s.on_error qid status).queries_container_ from hmem)
    | onPartialGenerateOp qid pl expected =>
      have h1 : p ∈ (s.on_partial_generate qid pl expected).queries_container_ := hmem
      rw [queries_on_partial_generate] at h1
      exact h1
    | onGenerateOkOp qid l =>
      exact mem_on_generate_ok_queries
        (show p ∈ (s.on_generate_ok qid l).queries_container_ from hmem)

theorem c9_witness :
    optIs (((applyOps initState
        [Op.registerLocal (fun _ => none)
          { file_type_ := .Photo, path_ := "p", mtime_nsec_ := 0 } 0 5 false true,
         Op.uploadOp 0 none 1 0]).on_upload_ok 1 .Photo
        { file_id_ := 0, part_count_ := 0, part_size_ := 0, ready_part_count_ := 0 } 5).nodeAt 0)
      (fun m => m.upload_pause_ = some 0) :=
  (c9_upload_pause_suppresses _ (inv_applyOps _ inv_initState)).1 1
    { file_id_ := 0, type_ := .Upload } 0 _ .Photo
    { file_id_ := 0, part_count_ := 0, part_size_ := 0, ready_part_count_ := 0 } 5 rfl rfl

end FileManager

end Td
